import Mathlib

/-!
Shallow embedding of the clipboard-digest engine.

The Python sources embedded here:
- `src/summary_worker.py` : the dedup-path group resolver (polling loop body,
  similarity search, group/parent summary propagation, claim step, recovery).
- `src/insights_worker.py` : the batch-path adaptive threshold estimator and
  temporal block former.
- `src/utils/text_processing.py` : the structured-value extractor.

Machine conventions: SQLite ids are `Nat` (AUTOINCREMENT, so real ids are ≥ 1);
ISO-8601 timestamp strings compare chronologically, so timestamps are modelled
as `Nat`; SQL `NULL` is `Option.none`; Python floats are modelled as exact `ℚ`.
-/

namespace ClipboardDigest

/-- One row of the `clipboard` table:
`(id PK, timestamp, content, summary NULLABLE, type NULLABLE, group_id NULLABLE)`. -/
structure Entry where
  id : Nat
  timestamp : Nat
  content : String
  summary : Option String
  etype : Option String
  group_id : Option Nat
deriving Repr, DecidableEq

/-- One row of the `clipboard_groups` table
`(from_id, to_id, similarity, group_id, PRIMARY KEY (from_id, to_id))`. -/
structure Edge where
  from_id : Nat
  to_id : Nat
  similarity : ℚ
  group_id : Nat
deriving Repr, DecidableEq

/-- The two tables, rows in rowid order. -/
structure DB where
  entries : List Entry
  edges : List Edge
deriving Repr, DecidableEq

/-- Python `round` on an exact rational: round half to even (banker's rounding). -/
def pyRound (q : ℚ) : ℤ :=
  let f := ⌊q⌋
  let r := q - f
  if r < 1 / 2 then f
  else if 1 / 2 < r then f + 1
  else if f % 2 = 0 then f else f + 1

/-- `round(x, 1)`: Python rounding kept to one decimal place. -/
def pyRound1 (q : ℚ) : ℚ := (pyRound (q * 10) : ℚ) / 10

/-- Python `str.strip` / `str.isspace` whitespace set (ASCII part). -/
def isPySpace (c : Char) : Bool :=
  c == ' ' || c == '\t' || c == '\n' || c == '\x0d' || c == '\x0b' || c == '\x0c'

/-- Python `str.strip()`. -/
def pyStrip (s : String) : String :=
  String.mk (((s.data.dropWhile isPySpace).reverse.dropWhile isPySpace).reverse)

/-- Python `str.lower()` (ASCII case mapping suffices for the embedded texts). -/
def pyLower (s : String) : String := String.mk (s.data.map Char.toLower)

/-- `default_process`: lowercase then strip, applied to both sides before scoring. -/
def default_process (s : String) : String := pyStrip (pyLower s)

/-- One row of the longest-common-subsequence dynamic program.
`prev` is the previous row (one cell per prefix of `ys`, plus the leading 0 cell,
handed over without its leading cell); `left` is the cell just computed. -/
def lcsGo (x : Char) : List Char → List Nat → Nat → List Nat
  | y :: ys, pj :: rest, left =>
      let up := rest.headD 0
      let cur := if x == y then pj + 1 else max left up
      cur :: lcsGo x ys rest cur
  | _, _, _ => []

/-- Advance the LCS table by one character of the left string. -/
def lcsStep (x : Char) (ys : List Char) (prev : List Nat) : List Nat :=
  0 :: lcsGo x ys prev 0

/-- Length of the longest common subsequence, row-by-row dynamic program. -/
def lcsLen (xs ys : List Char) : Nat :=
  (xs.foldl (fun row x => lcsStep x ys row) (List.replicate (ys.length + 1) 0)).getLastD 0

/-- `rapidfuzz.fuzz.ratio(s1, s2, processor=default_process)`:
normalized Indel similarity in `[0, 100]`, where the Indel distance is
`|a| + |b| - 2 * lcs(a, b)`; two empty strings score 100. -/
def fuzzRatio (s1 s2 : String) : ℚ :=
  let a := default_process s1
  let b := default_process s2
  if a.length + b.length = 0 then 100
  else (200 * (lcsLen a.data b.data : ℚ)) / ((a.length : ℚ) + (b.length : ℚ))

/-- `calculate_similarity` from `summary_worker.py`. -/
def calculate_similarity (content1 content2 : String) : ℚ := fuzzRatio content1 content2

/-- `INSERT OR IGNORE INTO clipboard_groups`: duplicate `(from_id, to_id)` keys
are silently dropped. -/
def insertOrIgnoreEdge (edges : List Edge) (ed : Edge) : List Edge :=
  if edges.any (fun x => x.from_id == ed.from_id && x.to_id == ed.to_id) then edges
  else edges ++ [ed]

/-- `update_entry_with_group`: `UPDATE clipboard SET summary = ?, type = ?,
group_id = ? WHERE id = ?`, then optionally log the similarity edge. -/
def update_entry_with_group (db : DB) (entry_id group_id : Nat)
    (summary etype : Option String)
    (similar_to_id : Option Nat) (similarity_score : Option ℚ) : DB :=
  let entries := db.entries.map fun e =>
    if e.id == entry_id then
      { e with summary := summary, etype := etype, group_id := some group_id }
    else e
  let edges :=
    match similar_to_id, similarity_score with
    | some sid, some sc => insertOrIgnoreEdge db.edges ⟨entry_id, sid, sc, group_id⟩
    | _, _ => db.edges
  ⟨entries, edges⟩

/-- The claim step of `poll_and_summarize` (Strategy 3):
`UPDATE clipboard SET summary = 'summarizing...' WHERE id = ?`.
The `WHERE` clause tests only the id — there is no `AND summary IS NULL` guard. -/
def claimEntry (db : DB) (clip_id : Nat) : DB :=
  { db with entries := db.entries.map fun e =>
      if e.id == clip_id then { e with summary := some "summarizing..." } else e }

/-- Startup recovery in `poll_and_summarize`:
`UPDATE clipboard SET summary = NULL WHERE summary = 'summarizing...'`. -/
def recoverStuckEntries (db : DB) : DB :=
  { db with entries := db.entries.map fun e =>
      if e.summary == some "summarizing..." then { e with summary := none } else e }

/-- `check_group_for_summary`: first a member of the group (other than the entry)
whose summary is non-NULL and not the pending sentinel; failing that, the pending
sentinel itself if some member is being summarized. -/
def check_group_for_summary (db : DB) (clip_id group_id : Nat) :
    Option (String × Option String) :=
  match db.entries.find? (fun e =>
      e.group_id == some group_id && e.id != clip_id &&
      e.summary.isSome && e.summary != some "summarizing...") with
  | some e => some (e.summary.getD "", e.etype)
  | none =>
    if db.entries.any (fun e =>
        e.group_id == some group_id && e.id != clip_id &&
        e.summary == some "summarizing...") then
      some ("summarizing...", some "")
    else none

/-- `check_parent_summary` (the maintenance sweep): snapshot the entries marked
with the pending sentinel that have a `group_id`, then for each one in rowid
order copy down `(summary, type)` from the row whose id equals its `group_id`,
provided that row's summary is non-NULL and not the pending sentinel. -/
def check_parent_summary (db : DB) : DB :=
  let snapshot := db.entries.filter (fun e =>
    e.summary == some "summarizing..." && e.group_id.isSome)
  snapshot.foldl (fun acc e =>
    match e.group_id with
    | none => acc
    | some g =>
      match acc.entries.find? (fun p =>
          p.id == g && p.summary.isSome && p.summary != some "summarizing...") with
      | none => acc
      | some p =>
        { acc with entries := acc.entries.map fun x =>
            if x.id == e.id then { x with summary := p.summary, etype := p.etype } else x }) db

/-- Stable descending insertion by key: models SQLite `ORDER BY timestamp DESC`. -/
def insertDescBy (key : Entry → Nat) (x : Entry) : List Entry → List Entry
  | [] => [x]
  | y :: ys => if key y < key x then x :: y :: ys else y :: insertDescBy key x ys

/-- Sort entries by timestamp, newest first. -/
def sortByTimestampDesc (l : List Entry) : List Entry :=
  l.foldl (fun acc x => insertDescBy Entry.timestamp x acc) []

/-- Row shape returned by `find_similar_entries`. -/
structure SimilarMatch where
  id : Nat
  content : String
  summary : Option String
  etype : Option String
  group_id : Option Nat
  score : ℚ
deriving Repr, DecidableEq

/-- The candidate loop of `find_similar_entries`: skip rows whose content strips
to empty, score each remaining row, return the first row at or above the
threshold. -/
def firstAboveThreshold (content : String) (min_similarity : ℚ) :
    List Entry → Option SimilarMatch
  | [] => none
  | e :: rest =>
    if (pyStrip e.content).length == 0 then
      firstAboveThreshold content min_similarity rest
    else
      let score := calculate_similarity content e.content
      if min_similarity ≤ score then
        some ⟨e.id, e.content, e.summary, e.etype, e.group_id, score⟩
      else firstAboveThreshold content min_similarity rest

/-- The SQL candidate query of `find_similar_entries`:
`LENGTH(content) >= min_length`, optional `timestamp >= cutoff`, optional
`id != clip_id`, optional `summary IS NOT NULL`, `ORDER BY timestamp DESC
LIMIT limit`. -/
def similarCandidates (db : DB) (minLen : ℤ) (clip_id : Option Nat)
    (limit : Nat) (cutoff_time : Option Nat) (require_summary : Bool) : List Entry :=
  let filtered := db.entries.filter (fun e =>
    ((minLen : ℤ) ≤ (e.content.length : ℤ)) &&
    (match cutoff_time with | some c => decide (c ≤ e.timestamp) | none => true) &&
    (match clip_id with | some cid => e.id != cid | none => true) &&
    (!require_summary || e.summary.isSome))
  (sortByTimestampDesc filtered).take limit

/-- `find_similar_entries`: when `min_length <= 0` it is recomputed as
`max(1, round(len(content) * min_similarity / 100))`; then the two-step search:
SQL length/window filter followed by the similarity scan. -/
def find_similar_entries (db : DB) (content : String) (min_similarity : ℚ)
    (clip_id : Option Nat := none) (min_length : ℤ := 0) (limit : Nat := 1000)
    (cutoff_time : Option Nat := none) (require_summary : Bool := false) :
    Option SimilarMatch :=
  let minLen : ℤ :=
    if min_length ≤ 0 then
      max 1 (pyRound ((content.length : ℚ) * min_similarity / 100))
    else min_length
  firstAboveThreshold content min_similarity
    (similarCandidates db minLen clip_id limit cutoff_time require_summary)

/-- The work-selection query of `poll_and_summarize`:
`SELECT id, content, group_id FROM clipboard WHERE summary IS NULL AND
LENGTH(content) > trigger AND timestamp >= cutoff ORDER BY id ASC LIMIT ...`,
then `fetchone()`: the lowest-id matching row. -/
def pollSelect (db : DB) (trigger : Nat) (cutoff : Nat) : Option Entry :=
  (db.entries.filter (fun e =>
      e.summary.isNone && trigger < e.content.length && cutoff ≤ e.timestamp)).foldl
    (fun acc e =>
      match acc with
      | none => some e
      | some a => if e.id < a.id then some e else acc) none

/-- Worker configuration (`SUMMARY_TRIGGER_LEN`, `SIMILARITY_THRESHOLD`,
window row bound). -/
structure Config where
  triggerLen : Nat
  similarityThreshold : ℚ
  maxEntries : Nat
deriving Repr

/-- Python's `similar_group_id or similar_id`: the match's own `group_id` when
it is truthy (non-NULL and nonzero; a stored group id is a real rowid ≥ 1),
otherwise the match's own id. -/
def attachRoot (m : SimilarMatch) : Nat :=
  match m.group_id with
  | some g => if g == 0 then m.id else g
  | none => m.id

/-- Python's `value or ""` on an optional string (`None` and `""` are falsy). -/
def orEmpty (v : Option String) : String :=
  match v with
  | some s => s
  | none => ""

/-- One iteration of the `poll_and_summarize` loop body: run the maintenance
sweep, pick the oldest unsummarized row in the window, and then in order:
group inheritance, similarity attach, fresh dispatch (the claim step; the
asynchronous LLM write-back is a separate operation, `summarizeStoreWrite`). -/
def poll_and_summarize_step (cfg : Config) (cutoff : Nat) (db : DB) : DB :=
  let db := check_parent_summary db
  match pollSelect db cfg.triggerLen cutoff with
  | none => db
  | some row =>
    let inherited :=
      match row.group_id with
      | some g => check_group_for_summary db row.id g
      | none => none
    match row.group_id, inherited with
    | some g, some (s, t) => update_entry_with_group db row.id g (some s) t none none
    | _, _ =>
      match find_similar_entries db row.content cfg.similarityThreshold
          (some row.id) 0 cfg.maxEntries (some cutoff) false with
      | some m =>
        update_entry_with_group db row.id (attachRoot m)
          (some (orEmpty m.summary)) (some (orEmpty m.etype))
          (some m.id) (some (pyRound1 m.score))
      | none => claimEntry db row.id

/-- The write-back at the end of `summarize_and_store`:
`UPDATE clipboard SET summary = ?, type = ? WHERE id = ?` with whatever the
extractor recovered from the completion (or the FAIL sentinels). -/
def summarizeStoreWrite (db : DB) (clip_id : Nat) (summaryVal typeVal : String) : DB :=
  { db with entries := db.entries.map fun e =>
      if e.id == clip_id then { e with summary := some summaryVal, etype := some typeVal } else e }

/-- `log_to_db`: `INSERT INTO clipboard (timestamp, content) VALUES (?, ?)` —
a fresh AUTOINCREMENT id, summary/type/group_id all NULL. -/
def insertClip (db : DB) (ts : Nat) (content : String) : DB :=
  let newId := (db.entries.foldl (fun m e => max m e.id) 0) + 1
  { db with entries := db.entries ++
      [{ id := newId, timestamp := ts, content := content,
         summary := none, etype := none, group_id := none }] }

/-- Database states reachable by the engine's operations: capture inserts,
polling iterations (at any window cutoff, as the wall clock advances),
startup recovery, and asynchronous summarization write-backs. -/
inductive Reachable (cfg : Config) : DB → Prop where
  | empty : Reachable cfg ⟨[], []⟩
  | insert (ts : Nat) (content : String) {db : DB} :
      Reachable cfg db → Reachable cfg (insertClip db ts content)
  | poll (cutoff : Nat) {db : DB} :
      Reachable cfg db → Reachable cfg (poll_and_summarize_step cfg cutoff db)
  | recover {db : DB} :
      Reachable cfg db → Reachable cfg (recoverStuckEntries db)
  | complete (clip_id : Nat) (s t : String) {db : DB} :
      Reachable cfg db → Reachable cfg (summarizeStoreWrite db clip_id s t)

/-- The one-hop flattening invariant of the spec's data model: every entry
whose `group_id` points at an entry of the table points at one whose own
`group_id` is NULL (so chains resolve in at most one hop and nothing points
at itself). -/
def OneHopFlat (db : DB) : Prop :=
  ∀ e ∈ db.entries, ∀ x ∈ db.entries, e.group_id = some x.id → x.group_id = none

instance (db : DB) : Decidable (OneHopFlat db) := by
  unfold OneHopFlat; infer_instance

/-- The failed-state sentinel family: `"FAIL"` or `"FAIL-<n>"`. -/
def isFailSentinel (s : String) : Bool :=
  s == "FAIL" || ("FAIL-".data.isPrefixOf s.data && s.length > 5)

/-- The operations the worker processes themselves perform on the store
(capture insert, one polling iteration, startup recovery). The asynchronous
summarization write-back targets only entries that were claimed while their
summary was the pending sentinel, so it is treated separately. -/
inductive WorkerOp where
  | insert (ts : Nat) (content : String)
  | poll (cutoff : Nat)
  | recover
deriving Repr

/-- Apply one worker operation. -/
def applyOp (cfg : Config) (db : DB) : WorkerOp → DB
  | .insert ts content => insertClip db ts content
  | .poll cutoff => poll_and_summarize_step cfg cutoff db
  | .recover => recoverStuckEntries db

/-- Apply a sequence of worker operations, oldest first. -/
def applyOps (cfg : Config) (ops : List WorkerOp) (db : DB) : DB :=
  ops.foldl (applyOp cfg) db

/-! ### `insights_worker.py`: adaptive threshold estimator and temporal block former -/

/-- A processed entry as built by `process_db_entries`: `dt_local` is the
parsed local datetime (`None` when the timestamp failed to parse), modelled
as seconds on an absolute axis. Only the fields the estimator and block
former read are kept. -/
structure ProcEntry where
  db_id : Nat
  dt_local : Option ℚ
  content : String
deriving Repr, DecidableEq

/-- Stable ascending insertion by `dt_local` (Python's stable `sorted`). -/
def insertAscByTime (x : ProcEntry) : List ProcEntry → List ProcEntry
  | [] => [x]
  | y :: ys =>
    if (x.dt_local.getD 0) < (y.dt_local.getD 0) then x :: y :: ys
    else y :: insertAscByTime x ys

/-- `sorted(entries, key=dt_local)` over entries that all carry a time. -/
def sortByTimeAsc (l : List ProcEntry) : List ProcEntry :=
  l.foldl (fun acc x => insertAscByTime x acc) []

/-- The gap loop of `calculate_adaptive_g_threshold`: differences between
consecutive sorted entries, keeping only the strictly positive ones. -/
def consecutiveGaps : List ProcEntry → List ℚ
  | a :: b :: rest =>
    let gap := b.dt_local.getD 0 - a.dt_local.getD 0
    if 0 < gap then gap :: consecutiveGaps (b :: rest)
    else consecutiveGaps (b :: rest)
  | _ => []

/-- Ascending insertion sort on rationals (for the percentile computation). -/
def insertRatAsc (x : ℚ) : List ℚ → List ℚ
  | [] => [x]
  | y :: ys => if x < y then x :: y :: ys else y :: insertRatAsc x ys

/-- Sort a list of rationals ascending. -/
def sortRatAsc (l : List ℚ) : List ℚ :=
  l.foldl (fun acc x => insertRatAsc x acc) []

/-- `numpy.percentile(data, q)` with the default linear interpolation:
on the ascending sort `a_0 … a_(n-1)`, at fractional rank
`pos = (n-1) * q / 100`, interpolate between `a_⌊pos⌋` and its successor.
Defined for nonempty data (numpy raises on empty input). -/
def npPercentile (data : List ℚ) (q : ℚ) : ℚ :=
  let s := sortRatAsc data
  let n := s.length
  let pos : ℚ := ((n : ℚ) - 1) * q / 100
  let lo : ℕ := (⌊pos⌋).toNat
  let frac : ℚ := pos - (lo : ℚ)
  let alo := s.getD lo 0
  let ahi := s.getD (lo + 1) alo
  alo + frac * (ahi - alo)

/-- `calculate_adaptive_g_threshold`: filter to entries with a parsed time,
sort chronologically, collect strictly positive consecutive gaps; with at
least one gap return the 90th percentile (or the fallback when that value is
not positive); with no gaps return the fallback. -/
def calculate_adaptive_g_threshold (all_processed : List ProcEntry) (default_g : ℤ) : ℚ :=
  let sortedEntries := sortByTimeAsc (all_processed.filter (fun e => e.dt_local.isSome))
  let gaps := consecutiveGaps sortedEntries
  if gaps.isEmpty then (default_g : ℚ)
  else
    let g := npPercentile gaps 90
    if 0 < g then g else (default_g : ℚ)

/-- The per-pair score/gap computation of `form_dynamic_untyped_blocks`.
A missing time on either side leaves `time_score = 0.0` and
`gap_seconds = inf` (modelled as `none`); with both times present,
`score = max(0, 1 - gap / (normalization_factor * threshold))` when the
threshold is positive, else 1.0 for non-positive gaps and 0.0 otherwise. -/
def timeScoreGap (l r : ProcEntry) (g_adaptive_threshold normalization_factor : ℚ) :
    ℚ × Option ℚ :=
  match l.dt_local, r.dt_local with
  | some lt, some rt =>
    let gap := rt - lt
    let score :=
      if 0 < g_adaptive_threshold then
        max 0 (1 - gap / (normalization_factor * g_adaptive_threshold))
      else if gap ≤ 0 then 1 else 0
    (score, some gap)
  | _, _ => (0, none)

/-- `gap_seconds > 0` where `none` is `float('inf')`. -/
def gapPositive : Option ℚ → Bool
  | some v => decide (0 < v)
  | none => true

/-- The block-forming loop: `first :: currentRest` is the current block (its
last element is the comparison point `current_block[-1]`); close the block
exactly when `time_score == 0.0 and gap_seconds > 0`. -/
def formBlocksGo (thr nf : ℚ) (first : ProcEntry) (currentRest : List ProcEntry) :
    List ProcEntry → List (List ProcEntry)
  | [] => [first :: currentRest]
  | r :: rest =>
    let l := currentRest.getLastD first
    let sg := timeScoreGap l r thr nf
    if sg.1 == 0 && gapPositive sg.2 then
      (first :: currentRest) :: formBlocksGo thr nf r [] rest
    else
      formBlocksGo thr nf first (currentRest ++ [r]) rest

/-- `form_dynamic_untyped_blocks`: greedy partition of the chronological
entry list into blocks by temporal proximity. -/
def form_dynamic_untyped_blocks (individual_untyped_entries : List ProcEntry)
    (g_adaptive_threshold normalization_factor : ℚ) : List (List ProcEntry) :=
  match individual_untyped_entries with
  | [] => []
  | e :: rest => formBlocksGo g_adaptive_threshold normalization_factor e [] rest

/-! ### `utils/text_processing.py`: the structured-value extractor

JSON values are modelled with integer numerics (the completions the engine
parses carry strings and small scalars; float literals are outside the
embedded domain), and `json.dumps` with its default separators. -/

/-- A JSON value. -/
inductive JsonVal where
  | str (s : String)
  | num (n : ℤ)
  | bool (b : Bool)
  | null
  | arr (elems : List JsonVal)
  | obj (members : List (String × JsonVal))
deriving Repr

/-- `json.dumps` escaping for one character (the named short escapes; the
embedded texts contain no control characters needing `\u` forms). -/
def jsonEscapeChar (c : Char) : List Char :=
  if c == '"' then ['\\', '"']
  else if c == '\\' then ['\\', '\\']
  else if c == '\n' then ['\\', 'n']
  else if c == '\t' then ['\\', 't']
  else if c == '\x0d' then ['\\', 'r']
  else [c]

/-- Serialize a string literal with quotes and escapes. -/
def serializeStr (s : String) : List Char :=
  '"' :: (s.data.flatMap jsonEscapeChar) ++ ['"']

/-- Decimal digits of a natural number, most significant first (the fuel is
a structural-recursion bound; `n + 1` always suffices). -/
def natDigitsF : Nat → Nat → List Char
  | 0, _ => []
  | f + 1, n =>
    if n < 10 then [Nat.digitChar n]
    else natDigitsF f (n / 10) ++ [Nat.digitChar (n % 10)]

/-- Decimal rendering of a natural number. -/
def natDigits (n : Nat) : List Char := natDigitsF (n + 1) n

/-- Decimal rendering of an integer (as `json.dumps` prints numbers). -/
def intRepr (n : ℤ) : List Char :=
  if n < 0 then '-' :: natDigits n.natAbs else natDigits n.natAbs

mutual

/-- `json.dumps` with the default `", "` / `": "` separators. -/
def serializeVal : JsonVal → List Char
  | .str s => serializeStr s
  | .num n => intRepr n
  | .bool b => if b then "true".data else "false".data
  | .null => "null".data
  | .arr es => '[' :: serializeElems es ++ [']']
  | .obj ms => '{' :: serializeMembers ms ++ ['}']

/-- Array elements joined by `", "`. -/
def serializeElems : List JsonVal → List Char
  | [] => []
  | [v] => serializeVal v
  | v :: rest => serializeVal v ++ ',' :: ' ' :: serializeElems rest

/-- Object members `"key": value` joined by `", "`. -/
def serializeMembers : List (String × JsonVal) → List Char
  | [] => []
  | [(k, v)] => serializeStr k ++ ':' :: ' ' :: serializeVal v
  | (k, v) :: rest =>
    serializeStr k ++ ':' :: ' ' :: serializeVal v ++ ',' :: ' ' :: serializeMembers rest

end

/-- `json.dumps` as a string. -/
def serialize (v : JsonVal) : String := String.mk (serializeVal v)

/-- JSON whitespace accepted by the parser (space, tab, newline, return). -/
def jsonWs (c : Char) : Bool :=
  c == ' ' || c == '\t' || c == '\n' || c == '\x0d'

/-- Decode one `\u`-escape hex digit. -/
def hexDigitVal (c : Char) : Option Nat :=
  if '0' ≤ c ∧ c ≤ '9' then some (c.toNat - '0'.toNat)
  else if 'a' ≤ c ∧ c ≤ 'f' then some (c.toNat - 'a'.toNat + 10)
  else if 'A' ≤ c ∧ c ≤ 'F' then some (c.toNat - 'A'.toNat + 10)
  else none

/-- Decode a single-character JSON escape (`\u` handled separately). -/
def escChar (e : Char) : Option Char :=
  if e == '"' then some '"'
  else if e == '\\' then some '\\'
  else if e == '/' then some '/'
  else if e == 'n' then some '\n'
  else if e == 't' then some '\t'
  else if e == 'r' then some '\x0d'
  else if e == 'b' then some '\x08'
  else if e == 'f' then some '\x0c'
  else none

/-- Parse a JSON string body after its opening quote: returns the decoded
characters and the input following the closing quote; `none` when the string
is unterminated or an escape is malformed. -/
def parseStringBody : List Char → Option (List Char × List Char)
  | [] => none
  | c :: rest =>
    if c == '"' then some ([], rest)
    else if c == '\\' then
      match rest with
      | [] => none
      | e :: rest2 =>
        if e == 'u' then
          match rest2 with
          | h1 :: h2 :: h3 :: h4 :: r4 =>
            match hexDigitVal h1, hexDigitVal h2, hexDigitVal h3, hexDigitVal h4 with
            | some a, some b, some hc, some d =>
              (parseStringBody r4).map fun p =>
                (Char.ofNat (((a * 16 + b) * 16 + hc) * 16 + d) :: p.1, p.2)
            | _, _, _, _ => none
          | _ => none
        else
          match escChar e with
          | some dc => (parseStringBody rest2).map fun p => (dc :: p.1, p.2)
          | none => none
    else (parseStringBody rest).map fun p => (c :: p.1, p.2)

/-- Parse a run of decimal digits. -/
def parseDigits : List Char → Option (Nat × List Char)
  | cs =>
    let ds := cs.takeWhile Char.isDigit
    if ds.isEmpty then none
    else some (ds.foldl (fun acc c => acc * 10 + (c.toNat - '0'.toNat)) 0, cs.drop ds.length)

/-- Parse an integer JSON number (optional leading minus). -/
def parseNum (cs : List Char) : Option (JsonVal × List Char) :=
  match cs with
  | [] => none
  | c :: rest =>
    if c == '-' then (parseDigits rest).map fun p => (.num (-(p.1 : ℤ)), p.2)
    else (parseDigits (c :: rest)).map fun p => (.num (p.1 : ℤ), p.2)

mutual

/-- Recursive-descent JSON value parser (fuel-indexed; every recursive call
consumes at least one character, so fuel `length + 1` always suffices). -/
def parseVal : Nat → List Char → Option (JsonVal × List Char)
  | 0, _ => none
  | f + 1, cs =>
    match cs.dropWhile jsonWs with
    | [] => none
    | c :: rest =>
      if c == '"' then (parseStringBody rest).map fun p => (.str (String.mk p.1), p.2)
      else if c == '{' then
        match rest.dropWhile jsonWs with
        | '}' :: r2 => some (.obj [], r2)
        | r2 => parseMembers f r2 []
      else if c == '[' then
        match rest.dropWhile jsonWs with
        | ']' :: r2 => some (.arr [], r2)
        | r2 => parseElems f r2 []
      else if c == 't' then
        if "rue".data.isPrefixOf rest then some (.bool true, rest.drop 3) else none
      else if c == 'f' then
        if "alse".data.isPrefixOf rest then some (.bool false, rest.drop 4) else none
      else if c == 'n' then
        if "ull".data.isPrefixOf rest then some (.null, rest.drop 3) else none
      else if c == '-' || c.isDigit then parseNum (c :: rest)
      else none

/-- Parse the members of a nonempty object, positioned at a key. -/
def parseMembers : Nat → List Char → List (String × JsonVal) →
    Option (JsonVal × List Char)
  | 0, _, _ => none
  | f + 1, cs, acc =>
    match cs.dropWhile jsonWs with
    | [] => none
    | c :: rest =>
      if c == '"' then
        match parseStringBody rest with
        | none => none
        | some (k, r1) =>
          match r1.dropWhile jsonWs with
          | [] => none
          | c2 :: r2 =>
            if c2 == ':' then
              match parseVal f r2 with
              | none => none
              | some (v, r3) =>
                match r3.dropWhile jsonWs with
                | [] => none
                | c3 :: r4 =>
                  if c3 == ',' then parseMembers f r4 (acc ++ [(String.mk k, v)])
                  else if c3 == '}' then some (.obj (acc ++ [(String.mk k, v)]), r4)
                  else none
            else none
      else none

/-- Parse the elements of a nonempty array, positioned at a value. -/
def parseElems : Nat → List Char → List JsonVal → Option (JsonVal × List Char)
  | 0, _, _ => none
  | f + 1, cs, acc =>
    match parseVal f cs with
    | none => none
    | some (v, r1) =>
      match r1.dropWhile jsonWs with
      | [] => none
      | c :: r2 =>
        if c == ',' then parseElems f r2 (acc ++ [v])
        else if c == ']' then some (.arr (acc ++ [v]), r2)
        else none

end

/-- `json.loads`: parse one value and require only whitespace after it. -/
def loads (s : String) : Option JsonVal :=
  match parseVal (s.length + 1) s.data with
  | some (v, rest) => if (rest.dropWhile jsonWs).isEmpty then some v else none
  | none => none

/-- The whitespace class `\s` of Python's `re` (ASCII part). -/
def reWs (c : Char) : Bool :=
  c == ' ' || c == '\t' || c == '\n' || c == '\x0d' || c == '\x0b' || c == '\x0c'

/-- Is the remaining input, after the lazy group closed, acceptable for the
fence pattern's tail `\s*` followed by the closing fence? -/
def fenceTailOk (rest : List Char) : Bool :=
  "```".data.isPrefixOf (rest.dropWhile reWs)

/-- The lazy group `\{.*?\}` (or `\[.*?\]`) of the fence pattern: extend the
group to the nearest closing delimiter whose tail matches (`.` is DOTALL, so
it crosses newlines and earlier closing delimiters without a valid tail). -/
def lazyGroup (close : Char) (acc : List Char) : List Char → Option (List Char)
  | [] => none
  | c :: rest =>
    if c == close && fenceTailOk rest then some (acc ++ [c])
    else lazyGroup close (acc ++ [c]) rest

/-- One attempt of the fence pattern's body at a fixed start: after
` ```json ` skip `\s*`, then try `\{.*?\}` and, failing that, `\[.*?\]`. -/
def fenceBodyAt (after : List Char) : Option (List Char) :=
  let body := after.dropWhile reWs
  match body with
  | '{' :: bs => lazyGroup '}' ['{'] bs
  | '[' :: bs => lazyGroup ']' ['['] bs
  | _ => none

/-- `re.search(r"```json\s*(\{.*?\}|\[.*?\])\s*```", text, re.DOTALL)`:
leftmost occurrence of the opening fence from which the whole pattern
matches; returns the captured group. -/
def fenceSearch : List Char → Option (List Char)
  | [] => none
  | c :: rest =>
    if "```json".data.isPrefixOf (c :: rest) then
      match fenceBodyAt ((c :: rest).drop 7) with
      | some g => some g
      | none => fenceSearch rest
    else fenceSearch rest

/-- The brace-balancing scan of `extract_json_block`, beginning at the first
`{` (index 0 of the candidate): tracks nesting depth, whether the scanner is
inside a quoted string, and a pending escape; returns the index one past the
brace that closed the object, or the final depth when the input ran out. -/
def balanceScanGo : List Char → Nat → ℤ → Bool → Bool → Option Nat × ℤ
  | [], _, depth, _, _ => (none, depth)
  | c :: rest, i, depth, inStr, esc =>
    if esc then balanceScanGo rest (i + 1) depth inStr false
    else if c == '\\' then balanceScanGo rest (i + 1) depth inStr true
    else if c == '"' then balanceScanGo rest (i + 1) depth (!inStr) esc
    else if !inStr && c == '{' then balanceScanGo rest (i + 1) (depth + 1) inStr esc
    else if !inStr && c == '}' then
      if depth - 1 == 0 then (some (i + 1), depth - 1)
      else balanceScanGo rest (i + 1) (depth - 1) inStr esc
    else balanceScanGo rest (i + 1) depth inStr esc

/-- `extract_json_block`: prefer a ```json fenced block; otherwise the
candidate is the whole text provided everything before its first `{` is
whitespace (the fallback regex `^\s*(\{.*)` is anchored at the start of the
text); balance braces on the candidate, appending `}` for each unclosed
brace when the scan runs off the end. -/
def extract_json_block (text : String) : Option String :=
  match fenceSearch text.data with
  | some g => some (String.mk g)
  | none =>
    match text.data.dropWhile reWs with
    | '{' :: bs =>
      let raw := '{' :: bs
      match balanceScanGo raw 0 0 false false with
      | (some endIdx, _) => some (String.mk (raw.take endIdx))
      | (none, depth) =>
        some (String.mk (raw ++ List.replicate depth.toNat '}'))
    | _ => none

/-- Reachability table of the regex fragment `((?:\\.|[^"])*)`: entry `p`
says the star can consume exactly the first `p` characters.
`R 0 = true`; `R k` holds when `R (k-1)` holds and char `k-1` is not `"`,
or `R (k-2)` holds and char `k-2` is `\`. -/
def escStarReachGo : List Char → Bool → Bool → Option Char → List Bool
  | [], _, _, _ => []
  | c :: rest, rPrev, rPrev2, cPrev =>
    let rCur := (rPrev && c != '"') || (rPrev2 && cPrev == some '\\')
    rCur :: escStarReachGo rest rCur rPrev (some c)

/-- Full reachability table `R 0 … R n` for the escape-aware star. -/
def escStarReach (cs : List Char) : List Bool :=
  true :: escStarReachGo cs true false none

/-- Greedy capture of `((?:\\.|[^"])*)"`: the longest reachable stop that is
followed by a closing quote (the backtracking engine yields the longest). -/
def greedyCaptureQuoted (cs : List Char) : Option (List Char) :=
  let reach := escStarReach cs
  let valid := (List.range reach.length).filter fun p =>
    reach.getD p false && cs.getD p ' ' == '"'
  match valid.getLast? with
  | some p => some (cs.take p)
  | none => none

/-- Greedy capture of `((?:\\.|[^"])*)$`: the star must consume the entire
remaining input. -/
def greedyCaptureToEnd (cs : List Char) : Option (List Char) :=
  if (escStarReach cs).getD cs.length false then some cs else none

/-- The shared prefix `"tag"\s*:\s*` of the three fallback regexes, applied
at a fixed start position; returns the input after it. -/
def matchKeyPrefix (tag : List Char) (cs : List Char) : Option (List Char) :=
  match cs with
  | '"' :: rest =>
    if tag.isPrefixOf rest then
      match rest.drop tag.length with
      | '"' :: r2 =>
        match r2.dropWhile reWs with
        | ':' :: r3 => some (r3.dropWhile reWs)
        | _ => none
      | _ => none
    else none
  | _ => none

/-- `re.search` for `"tag"\s*:\s*"((?:\\.|[^"])*)"` (leftmost start wins). -/
def searchFull (tag : List Char) : List Char → Option (List Char)
  | [] => none
  | c :: rest =>
    match matchKeyPrefix tag (c :: rest) with
    | some ('"' :: body) =>
      match greedyCaptureQuoted body with
      | some cap => some cap
      | none => searchFull tag rest
    | _ => searchFull tag rest

/-- `re.search` for `"tag"\s*:\s*"((?:\\.|[^"])*)$` (unterminated string). -/
def searchTrunc (tag : List Char) : List Char → Option (List Char)
  | [] => none
  | c :: rest =>
    match matchKeyPrefix tag (c :: rest) with
    | some ('"' :: body) =>
      match greedyCaptureToEnd body with
      | some cap => some cap
      | none => searchTrunc tag rest
    | _ => searchTrunc tag rest

/-- The character class `[\w\.\-+]` of the bare-value regex. -/
def wordish (c : Char) : Bool :=
  c.isAlphanum || c == '_' || c == '.' || c == '-' || c == '+'

/-- `re.search` for `"tag"\s*:\s*([\w\.\-+]+)` (bare non-string values). -/
def searchNonStr (tag : List Char) : List Char → Option (List Char)
  | [] => none
  | c :: rest =>
    match matchKeyPrefix tag (c :: rest) with
    | some r =>
      let run := r.takeWhile wordish
      if run.isEmpty then searchNonStr tag rest else some run
    | none => searchNonStr tag rest

/-- `data.get(tag, "")` followed by the `str`/`json.dumps` dispatch; `none`
models the uncaught `AttributeError` when the parsed value is not an object. -/
def extractFromParsed (v : JsonVal) (tag : String) : Option String :=
  match v with
  | .obj ms =>
    match ms.reverse.find? (fun p => p.1 == tag) with
    | some (_, .str s) => some s
    | some (_, w) => some (String.mk (serializeVal w))
    | none => some ""
  | _ => none

/-- `extract_json`: parse the extracted block and read the field, falling
back to the three regexes (on the block when one was extracted, else on the
original text). The result is `some value` for Python's normal return and
`none` for the uncaught exception path (`.get` on a non-dict). -/
def extract_json (text tag : String) : Option String :=
  let jb := extract_json_block text
  let parsed : Option JsonVal :=
    match jb with
    | some b => loads b
    | none => none
  match parsed with
  | some v => extractFromParsed v tag
  | none =>
    let raw := match jb with | some b => b.data | none => text.data
    match searchFull tag.data raw with
    | some cap => some (String.mk cap)
    | none =>
      match searchTrunc tag.data raw with
      | some cap => some (String.mk cap)
      | none =>
        match searchNonStr tag.data raw with
        | some cap => some (String.mk cap)
        | none => some ""

/-! ### Claim-side (spec-worded) definitions, for the refinement statements -/

/-- The spec's block-boundary condition between consecutive entries:
`score = max(0, 1 - gap / (normalization_factor * threshold))` is zero and
the gap is strictly positive. -/
def specBoundary (thr nf : ℚ) (a b : ProcEntry) : Bool :=
  let gap := b.dt_local.getD 0 - a.dt_local.getD 0
  decide (max 0 (1 - gap / (nf * thr)) = 0) && decide (0 < gap)

/-- Partition a list into blocks, splitting between `prev` and `r` exactly
when the boundary predicate holds (the spec's description of the block
former: `prev` is the last entry placed so far, which for a partition into
contiguous blocks is simply the preceding input entry). -/
def chunksGo (p : ProcEntry → ProcEntry → Bool) (first : ProcEntry)
    (cur : List ProcEntry) (prev : ProcEntry) : List ProcEntry → List (List ProcEntry)
  | [] => [first :: cur]
  | r :: rest =>
    if p prev r then (first :: cur) :: chunksGo p r [] r rest
    else chunksGo p first (cur ++ [r]) r rest

/-- Spec-side block former: split a chronological sequence at the boundary
condition between consecutive entries. -/
def specBlocks (p : ProcEntry → ProcEntry → Bool) : List ProcEntry → List (List ProcEntry)
  | [] => []
  | e :: rest => chunksGo p e [] e rest

/-- The spec's round-trip right-hand side: `obj[f]` as Python returns it from
`extract` — the string itself for string values, `json.dumps` of the value
otherwise. -/
def stringifyField (v : JsonVal) : String :=
  match v with
  | .str s => s
  | w => String.mk (serializeVal w)

/-- The positive-gap list the estimator works from: filter to timed entries,
sort chronologically, take strictly positive consecutive differences. -/
def gapsOf (entries : List ProcEntry) : List ℚ :=
  consecutiveGaps (sortByTimeAsc (entries.filter fun e => e.dt_local.isSome))

/-- Characters that serialize to themselves and play no structural role in
any of the extractor's scanners: not a quote, backslash, brace, backtick, or
escaped whitespace character. -/
def plainChar (c : Char) : Bool :=
  c != '"' && c != '\\' && c != '{' && c != '}' && c != '`' &&
  c != '\n' && c != '\t' && c != '\x0d'

/-! ## Theorems -/

/-- **C1.** The claim step of the fresh-dispatch path is the unconditional
`UPDATE clipboard SET summary = 'summarizing...' WHERE id = ?`. Executed
against an entry whose summary is already set (a complete summary here, i.e.
not unset), it overwrites that summary with the pending sentinel instead of
leaving the entry unchanged, so the spec's conditional-claim guarantee does
not hold in the code. -/
theorem C1_claim_step_unconditional :
    (claimEntry ⟨[⟨1, 0, "meeting notes text", some "done summary", some "notes", none⟩], []⟩
        1).entries
      = [⟨1, 0, "meeting notes text", some "summarizing...", some "notes", none⟩] := by
  decide

/-- Every gap the estimator collects is strictly positive. -/
theorem consecutiveGaps_pos (l : List ProcEntry) : ∀ g ∈ consecutiveGaps l, 0 < g := by
  induction l with
  | nil => intro g hg; simp [consecutiveGaps] at hg
  | cons a tl ih =>
    cases tl with
    | nil => intro g hg; simp [consecutiveGaps] at hg
    | cons b rest =>
      intro g hg
      rw [consecutiveGaps] at hg
      by_cases h : 0 < b.dt_local.getD 0 - a.dt_local.getD 0
      · rw [if_pos h] at hg
        rcases List.mem_cons.mp hg with h1 | h2
        · exact h1 ▸ h
        · exact ih g h2
      · rw [if_neg h] at hg
        exact ih g hg

/-- Membership is preserved by ascending insertion. -/
theorem mem_insertRatAsc {y x : ℚ} {l : List ℚ} (h : y ∈ insertRatAsc x l) :
    y = x ∨ y ∈ l := by
  induction l with
  | nil => simpa [insertRatAsc] using h
  | cons a tl ih =>
    rw [insertRatAsc] at h
    by_cases hc : x < a
    · rw [if_pos hc] at h
      rcases List.mem_cons.mp h with h1 | h1
      · exact Or.inl h1
      · exact Or.inr h1
    · rw [if_neg hc] at h
      rcases List.mem_cons.mp h with h1 | h1
      · exact Or.inr (h1 ▸ List.mem_cons_self a tl)
      · rcases ih h1 with h2 | h2
        · exact Or.inl h2
        · exact Or.inr (List.mem_cons_of_mem a h2)

/-- Ascending insertion adds one element to the length. -/
theorem length_insertRatAsc (x : ℚ) (l : List ℚ) :
    (insertRatAsc x l).length = l.length + 1 := by
  induction l with
  | nil => rfl
  | cons a tl ih =>
    rw [insertRatAsc]
    by_cases hc : x < a
    · rw [if_pos hc]; simp
    · rw [if_neg hc]; simp [ih]

/-- Members of the sorted list come from the input. -/
theorem mem_sortRatAsc {y : ℚ} {l : List ℚ} (h : y ∈ sortRatAsc l) : y ∈ l := by
  suffices H : ∀ (l : List ℚ) (acc : List ℚ), y ∈ l.foldl (fun a x => insertRatAsc x a) acc →
      y ∈ acc ∨ y ∈ l by
    rcases H l [] h with h1 | h1
    · simp at h1
    · exact h1
  intro l
  induction l with
  | nil => intro acc h; exact Or.inl h
  | cons a tl ih =>
    intro acc h
    rcases ih (insertRatAsc a acc) h with h1 | h1
    · rcases mem_insertRatAsc h1 with h2 | h2
      · exact Or.inr (h2 ▸ List.mem_cons_self a tl)
      · exact Or.inl h2
    · exact Or.inr (List.mem_cons_of_mem a h1)

/-- Sorting preserves length. -/
theorem length_sortRatAsc (l : List ℚ) : (sortRatAsc l).length = l.length := by
  suffices H : ∀ (l : List ℚ) (acc : List ℚ),
      (l.foldl (fun a x => insertRatAsc x a) acc).length = acc.length + l.length by
    simpa using H l []
  intro l
  induction l with
  | nil => intro acc; simp
  | cons a tl ih =>
    intro acc
    rw [List.foldl_cons, ih (insertRatAsc a acc), length_insertRatAsc]
    simp [List.length_cons]
    omega

/-- The 90th percentile of a nonempty list of positive rationals is positive. -/
theorem npPercentile_pos (data : List ℚ) (hne : data ≠ [])
    (hpos : ∀ x ∈ data, 0 < x) : 0 < npPercentile data 90 := by
  have hlen : 0 < data.length := List.length_pos.mpr hne
  have hslen : (sortRatAsc data).length = data.length := length_sortRatAsc data
  set s := sortRatAsc data with hs
  set n := s.length with hn
  have hn1 : 1 ≤ n := by omega
  have hposq : (0 : ℚ) ≤ ((n : ℚ) - 1) * 90 / 100 := by
    have : (1 : ℚ) ≤ (n : ℚ) := by exact_mod_cast hn1
    have h1 : (0 : ℚ) ≤ (n : ℚ) - 1 := by linarith
    positivity
  set pos := ((n : ℚ) - 1) * 90 / 100 with hposdef
  have hfl0 : 0 ≤ ⌊pos⌋ := Int.le_floor.mpr (by exact_mod_cast hposq)
  set lo := (⌊pos⌋).toNat with hlo
  have hlocast : (lo : ℤ) = ⌊pos⌋ := Int.toNat_of_nonneg hfl0
  have hposle : pos ≤ (n : ℚ) - 1 := by
    rw [hposdef]
    have h1 : (0 : ℚ) ≤ (n : ℚ) - 1 := by
      have : (1 : ℚ) ≤ (n : ℚ) := by exact_mod_cast hn1
      linarith
    nlinarith
  have hlolt : lo < n := by
    have h1 : ⌊pos⌋ ≤ (n : ℤ) - 1 := by
      have := Int.floor_le_floor (α := ℚ) hposle
      have h2 : ⌊(n : ℚ) - 1⌋ = (n : ℤ) - 1 := by
        rw [show ((n : ℚ) - 1) = (((n : ℤ) - 1 : ℤ) : ℚ) by push_cast; ring]
        exact Int.floor_intCast _
      omega
    omega
  have hcg : ((lo : ℚ)) = ((⌊pos⌋ : ℤ) : ℚ) := by
    rw [← hlocast]
    norm_cast
  have hfrac0 : 0 ≤ pos - (lo : ℚ) := by
    have := Int.floor_le pos
    rw [hcg]
    linarith
  have hfrac1 : pos - (lo : ℚ) < 1 := by
    have := Int.lt_floor_add_one pos
    rw [hcg]
    linarith
  have halo : 0 < s.getD lo 0 := by
    rw [List.getD_eq_getElem s 0 (by omega)]
    exact hpos _ (mem_sortRatAsc (List.getElem_mem _))
  have hahi : 0 < s.getD (lo + 1) (s.getD lo 0) := by
    by_cases hcase : lo + 1 < n
    · rw [List.getD_eq_getElem s _ (by omega)]
      exact hpos _ (mem_sortRatAsc (List.getElem_mem _))
    · rw [List.getD_eq_default s _ (by omega)]
      exact halo
  show 0 < npPercentile data 90
  rw [npPercentile]
  simp only [← hs, ← hn, ← hposdef, ← hlo]
  nlinarith [halo, hahi, hfrac0, hfrac1]

/-- Inserting an element no smaller than everything in the list appends it. -/
theorem insertAscByTime_append (x : ProcEntry) (acc : List ProcEntry)
    (h : ∀ y ∈ acc, y.dt_local.getD 0 ≤ x.dt_local.getD 0) :
    insertAscByTime x acc = acc ++ [x] := by
  induction acc with
  | nil => rfl
  | cons y ys ih =>
    rw [insertAscByTime]
    have hy : ¬ (x.dt_local.getD 0 < y.dt_local.getD 0) :=
      not_lt.mpr (h y (List.mem_cons_self y ys))
    rw [if_neg hy, ih (fun z hz => h z (List.mem_cons_of_mem y hz))]
    simp

/-- Insertion sort leaves an already chronological list unchanged. -/
theorem sortByTimeAsc_fix (l : List ProcEntry)
    (h : l.Pairwise fun a b => a.dt_local.getD 0 ≤ b.dt_local.getD 0) :
    sortByTimeAsc l = l := by
  suffices H : ∀ (l acc : List ProcEntry),
      l.Pairwise (fun a b => a.dt_local.getD 0 ≤ b.dt_local.getD 0) →
      (∀ a ∈ acc, ∀ b ∈ l, a.dt_local.getD 0 ≤ b.dt_local.getD 0) →
      l.foldl (fun acc x => insertAscByTime x acc) acc = acc ++ l by
    simpa using H l [] h (by simp)
  intro l
  induction l with
  | nil => intro acc _ _; simp
  | cons x tl ih =>
    intro acc hp hacc
    rw [List.foldl_cons,
      insertAscByTime_append x acc (fun y hy => hacc y hy x (List.mem_cons_self x tl)),
      ih (acc ++ [x]) (List.Pairwise.of_cons hp) ?_]
    · simp
    · intro a ha b hb
      rcases List.mem_append.mp ha with h1 | h1
      · exact hacc a h1 b (List.mem_cons_of_mem x hb)
      · have hax : a = x := by simpa using h1
        subst hax
        exact (List.pairwise_cons.mp hp).1 b hb

/-- Gaps of entries at constant spacing `c` along `range' s n`. -/
theorem consecutiveGaps_range' (c : ℚ) (hc : 0 < c) : ∀ (n s : Nat),
    consecutiveGaps ((List.range' s n).map fun i =>
      (⟨i, some (c * (i : ℚ)), ""⟩ : ProcEntry)) = List.replicate (n - 1) c := by
  intro n
  induction n with
  | zero => intro s; simp [consecutiveGaps]
  | succ m ih =>
    intro s
    cases m with
    | zero => simp [consecutiveGaps, List.range']
    | succ k =>
      rw [List.range'_succ, List.map_cons, List.range'_succ, List.map_cons,
        consecutiveGaps]
      have hg : ((⟨s + 1, some (c * ((s + 1 : Nat) : ℚ)), ""⟩ : ProcEntry).dt_local.getD 0 -
          (⟨s, some (c * (s : ℚ)), ""⟩ : ProcEntry).dt_local.getD 0) = c := by
        simp only [Option.getD_some]
        push_cast
        ring
      rw [hg, if_pos hc]
      have h2 := ih (s + 1)
      rw [List.range'_succ, List.map_cons] at h2
      simp only [Nat.add_sub_cancel] at h2 ⊢
      rw [h2, List.replicate_succ]

/-- Inserting `c` into a constant-`c` list appends one copy. -/
theorem insertRatAsc_replicate (c : ℚ) : ∀ j,
    insertRatAsc c (List.replicate j c) = List.replicate (j + 1) c := by
  intro j
  induction j with
  | zero => rfl
  | succ k ih =>
    rw [List.replicate_succ, insertRatAsc, if_neg (lt_irrefl c), ih]
    rfl

/-- Sorting a constant list is the identity. -/
theorem sortRatAsc_replicate (c : ℚ) (m : Nat) :
    sortRatAsc (List.replicate m c) = List.replicate m c := by
  suffices H : ∀ m i, (List.replicate m c).foldl (fun a x => insertRatAsc x a)
      (List.replicate i c) = List.replicate (i + m) c by
    simpa using H m 0
  intro m
  induction m with
  | zero => intro i; simp
  | succ k ih =>
    intro i
    rw [List.replicate_succ, List.foldl_cons, insertRatAsc_replicate, ih (i + 1)]
    congr 1
    omega

/-- The interpolation index stays inside a nonempty list. -/
theorem percentile_lo_lt (n : Nat) (hn : 1 ≤ n) :
    (⌊((n : ℚ) - 1) * 90 / 100⌋).toNat < n := by
  have hnq : (1 : ℚ) ≤ (n : ℚ) := by exact_mod_cast hn
  have h0 : (0 : ℚ) ≤ ((n : ℚ) - 1) * 90 / 100 := by
    have : (0 : ℚ) ≤ (n : ℚ) - 1 := by linarith
    positivity
  have hle : ((n : ℚ) - 1) * 90 / 100 ≤ (n : ℚ) - 1 := by nlinarith
  have h1 : ⌊((n : ℚ) - 1) * 90 / 100⌋ ≤ (n : ℤ) - 1 := by
    have h2 := Int.floor_le_floor (α := ℚ) hle
    have h3 : ⌊(n : ℚ) - 1⌋ = (n : ℤ) - 1 := by
      rw [show ((n : ℚ) - 1) = (((n : ℤ) - 1 : ℤ) : ℚ) by push_cast; ring]
      exact Int.floor_intCast _
    omega
  omega

/-- The 90th percentile of a constant list is that constant. -/
theorem npPercentile_replicate (c : ℚ) (m : Nat) (hm : 1 ≤ m) :
    npPercentile (List.replicate m c) 90 = c := by
  rw [npPercentile, sortRatAsc_replicate]
  have hlen : (List.replicate m c).length = m := List.length_replicate m c
  have hlo : (⌊(((List.replicate m c).length : ℚ) - 1) * 90 / 100⌋).toNat < m := by
    rw [hlen]; exact percentile_lo_lt m hm
  simp only [hlen] at hlo ⊢
  set lo := (⌊((m : ℚ) - 1) * 90 / 100⌋).toNat with hlodef
  have halo : (List.replicate m c).getD lo 0 = c := by
    rw [List.getD_eq_getElem _ _ (by simpa using hlo)]
    exact List.getElem_replicate ..
  have hahi : (List.replicate m c).getD (lo + 1) c = c := by
    by_cases hcase : lo + 1 < m
    · rw [List.getD_eq_getElem _ _ (by simpa using hcase)]
      exact List.getElem_replicate ..
    · rw [List.getD_eq_default _ _ (by simpa using hcase)]
  rw [halo, hahi]
  ring

/-- The estimator, written with its gap list named: fallback when no positive
gap was collected, else the 90th percentile guarded by positivity. -/
theorem calc_adaptive_eq (entries : List ProcEntry) (d : ℤ) :
    calculate_adaptive_g_threshold entries d =
      if (gapsOf entries).isEmpty then (d : ℚ)
      else if 0 < npPercentile (gapsOf entries) 90 then npPercentile (gapsOf entries) 90
      else (d : ℚ) := by
  unfold calculate_adaptive_g_threshold gapsOf
  rfl

/-- **C5 (counterexample).** With exactly one positive gap (two entries, 100
seconds apart) the claim says the estimator must return the fallback (fewer
than 2 gaps exist); the code computes the percentile of the singleton gap
list and returns 100, not the fallback 1200. -/
theorem C5_counterexample :
    calculate_adaptive_g_threshold [⟨1, some 0, ""⟩, ⟨2, some 100, ""⟩] 1200 = 100 ∧
    (100 : ℚ) ≠ 1200 := by
  constructor
  · norm_num [calculate_adaptive_g_threshold, sortByTimeAsc, insertAscByTime,
      consecutiveGaps, npPercentile, sortRatAsc, insertRatAsc, List.filter,
      List.foldl, List.getD, List.get?]
  · norm_num

/-- **C5 (amended).** The estimator sorts the timed entries, collects the
strictly positive consecutive gaps, and returns their 90th percentile
(numpy linear interpolation) whenever at least one gap exists — the fallback
is returned exactly when no positive gap exists (not "fewer than 2 gaps"),
and the non-positive-percentile guard never fires because the percentile of
positive gaps is positive. For entries spaced exactly 100 s apart (any count
≥ 10, indeed ≥ 2) it returns 100. -/
theorem C5_amended (entries : List ProcEntry) (d : ℤ) :
    (∀ g ∈ gapsOf entries, 0 < g) ∧
    (gapsOf entries = [] → calculate_adaptive_g_threshold entries d = (d : ℚ)) ∧
    (gapsOf entries ≠ [] →
      calculate_adaptive_g_threshold entries d = npPercentile (gapsOf entries) 90 ∧
      0 < npPercentile (gapsOf entries) 90) ∧
    (∀ n, 10 ≤ n →
      calculate_adaptive_g_threshold
        ((List.range n).map fun i => ⟨i, some (100 * (i : ℚ)), ""⟩) d = 100) := by
  refine ⟨?_, ?_, ?_, ?_⟩
  · intro g hg
    exact consecutiveGaps_pos _ g hg
  · intro h
    rw [calc_adaptive_eq, h]
    rfl
  · intro h
    have hpos : 0 < npPercentile (gapsOf entries) 90 :=
      npPercentile_pos _ h (fun x hx => consecutiveGaps_pos _ x hx)
    refine ⟨?_, hpos⟩
    rw [calc_adaptive_eq, if_neg (by simpa [List.isEmpty_iff] using h), if_pos hpos]
  · intro n hn
    have hfilter : ((List.range n).map fun i =>
        (⟨i, some (100 * (i : ℚ)), ""⟩ : ProcEntry)).filter (fun e => e.dt_local.isSome) =
        (List.range n).map fun i => (⟨i, some (100 * (i : ℚ)), ""⟩ : ProcEntry) := by
      rw [List.filter_eq_self]
      intro a ha
      rcases List.mem_map.mp ha with ⟨i, _, rfl⟩
      rfl
    have hsorted : (((List.range n).map fun i =>
        (⟨i, some (100 * (i : ℚ)), ""⟩ : ProcEntry))).Pairwise
        (fun a b => a.dt_local.getD 0 ≤ b.dt_local.getD 0) := by
      rw [List.pairwise_map]
      have hr : (List.range n).Pairwise (· < ·) := List.pairwise_lt_range n
      refine hr.imp ?_
      intro i j hij
      simp only [Option.getD_some]
      have : (i : ℚ) ≤ (j : ℚ) := by exact_mod_cast le_of_lt hij
      nlinarith
    have hgaps : gapsOf ((List.range n).map fun i =>
        (⟨i, some (100 * (i : ℚ)), ""⟩ : ProcEntry)) = List.replicate (n - 1) 100 := by
      unfold gapsOf
      rw [hfilter, sortByTimeAsc_fix _ hsorted, List.range_eq_range']
      exact consecutiveGaps_range' 100 (by norm_num) n 0
    rw [calc_adaptive_eq, hgaps]
    have hperc : npPercentile (List.replicate (n - 1) (100 : ℚ)) 90 = 100 :=
      npPercentile_replicate 100 (n - 1) (by omega)
    have hne : (List.replicate (n - 1) (100 : ℚ)).isEmpty = false := by
      have h1 : n - 1 ≠ 0 := by omega
      simp [List.isEmpty_iff, h1]
    rw [hne, hperc]
    norm_num

/-- **C5 (witness).** The amended theorem applied at concrete inputs: three
entries 50 s apart yield the percentile (not the fallback), and ten entries
100 s apart yield 100. -/
theorem C5_amended_witness :
    calculate_adaptive_g_threshold [⟨1, some 0, ""⟩, ⟨2, some 50, ""⟩, ⟨3, some 100, ""⟩] 1200 =
      npPercentile (gapsOf [⟨1, some 0, ""⟩, ⟨2, some 50, ""⟩, ⟨3, some 100, ""⟩]) 90 ∧
    calculate_adaptive_g_threshold
      ((List.range 10).map fun i => ⟨i, some (100 * (i : ℚ)), ""⟩) 1200 = 100 :=
  ⟨((C5_amended _ 1200).2.2.1 (by
      norm_num [gapsOf, sortByTimeAsc, insertAscByTime, consecutiveGaps,
        List.filter, List.foldl]
      simp)).1,
   (C5_amended [] 1200).2.2.2 10 (by norm_num)⟩

/-- The code's boundary test as evaluated by the block-forming loop. -/
theorem formBlocksGo_join (thr nf : ℚ) :
    ∀ (rest : List ProcEntry) (first : ProcEntry) (cur : List ProcEntry),
      (formBlocksGo thr nf first cur rest).flatten = (first :: cur) ++ rest := by
  intro rest
  induction rest with
  | nil => intro first cur; simp [formBlocksGo]
  | cons r tl ih =>
    intro first cur
    rw [formBlocksGo]
    by_cases hb : ((timeScoreGap (cur.getLastD first) r thr nf).1 == 0 &&
        gapPositive (timeScoreGap (cur.getLastD first) r thr nf).2) = true
    · rw [if_pos hb, List.flatten_cons, ih r []]
      simp
    · simp only [Bool.not_eq_true] at hb
      rw [if_neg (by rw [hb]; simp), ih first (cur ++ [r])]
      simp

/-- Every block the loop emits is nonempty. -/
theorem formBlocksGo_nonempty (thr nf : ℚ) :
    ∀ (rest : List ProcEntry) (first : ProcEntry) (cur : List ProcEntry),
      ∀ b ∈ formBlocksGo thr nf first cur rest, b ≠ [] := by
  intro rest
  induction rest with
  | nil =>
    intro first cur b hb
    simp only [formBlocksGo, List.mem_singleton] at hb
    subst hb
    simp
  | cons r tl ih =>
    intro first cur b hb
    rw [formBlocksGo] at hb
    by_cases hcond : ((timeScoreGap (cur.getLastD first) r thr nf).1 == 0 &&
        gapPositive (timeScoreGap (cur.getLastD first) r thr nf).2) = true
    · rw [if_pos hcond] at hb
      rcases List.mem_cons.mp hb with h1 | h1
      · subst h1; simp
      · exact ih r [] b h1
    · simp only [Bool.not_eq_true] at hcond
      rw [if_neg (by rw [hcond]; simp)] at hb
      exact ih first (cur ++ [r]) b hb

/-- The loop's comparison point `current_block[-1]` is exactly the previous
input entry: the code's recursion equals the spec-side splitter. -/
theorem formBlocksGo_eq_chunksGo (thr nf : ℚ)
    (p : ProcEntry → ProcEntry → Bool)
    (hp : ∀ a b, p a b = ((timeScoreGap a b thr nf).1 == 0 &&
        gapPositive (timeScoreGap a b thr nf).2)) :
    ∀ (rest : List ProcEntry) (first : ProcEntry) (cur : List ProcEntry),
      formBlocksGo thr nf first cur rest = chunksGo p first cur (cur.getLastD first) rest := by
  intro rest
  induction rest with
  | nil => intro first cur; rfl
  | cons r tl ih =>
    intro first cur
    rw [formBlocksGo, chunksGo, hp]
    by_cases hcond : ((timeScoreGap (cur.getLastD first) r thr nf).1 == 0 &&
        gapPositive (timeScoreGap (cur.getLastD first) r thr nf).2) = true
    · rw [if_pos hcond, if_pos hcond]
      rw [ih r []]
      rfl
    · simp only [Bool.not_eq_true] at hcond
      rw [if_neg (by rw [hcond]; simp), if_neg (by rw [hcond]; simp)]
      rw [ih first (cur ++ [r]), List.getLastD_concat]

/-- Replacing the boundary predicate by one that agrees on timed entries. -/
theorem chunksGo_congr (p q : ProcEntry → ProcEntry → Bool)
    (P : ProcEntry → Prop)
    (hpq : ∀ a b, P a → P b → p a b = q a b) :
    ∀ (rest : List ProcEntry) (first : ProcEntry) (cur : List ProcEntry) (prev : ProcEntry),
      P prev → (∀ x ∈ rest, P x) →
      chunksGo p first cur prev rest = chunksGo q first cur prev rest := by
  intro rest
  induction rest with
  | nil => intro first cur prev _ _; rfl
  | cons r tl ih =>
    intro first cur prev hprev hrest
    have hr : P r := hrest r (List.mem_cons_self r tl)
    have htl : ∀ x ∈ tl, P x := fun x hx => hrest x (List.mem_cons_of_mem r hx)
    rw [chunksGo, chunksGo, hpq prev r hprev hr]
    by_cases hcond : q prev r = true
    · rw [if_pos hcond, if_pos hcond, ih r [] r hr htl]
    · simp only [Bool.not_eq_true] at hcond
      rw [if_neg (by rw [hcond]; simp), if_neg (by rw [hcond]; simp),
        ih first (cur ++ [r]) r hr htl]

/-- On entries that both carry a time, and with a positive threshold, the
loop's test is the spec's formula-based boundary condition. -/
theorem boundary_eq_specBoundary (thr nf : ℚ) (hthr : 0 < thr)
    (a b : ProcEntry) (ha : a.dt_local.isSome) (hb : b.dt_local.isSome) :
    ((timeScoreGap a b thr nf).1 == 0 && gapPositive (timeScoreGap a b thr nf).2) =
      specBoundary thr nf a b := by
  rcases Option.isSome_iff_exists.mp ha with ⟨lt, hlt⟩
  rcases Option.isSome_iff_exists.mp hb with ⟨rt, hrt⟩
  rw [specBoundary]
  rw [timeScoreGap]
  rw [hlt, hrt]
  simp only [hlt, hrt, Option.getD_some, if_pos hthr, gapPositive]
  rw [show ((max 0 (1 - (rt - lt) / (nf * thr)) : ℚ) == 0) =
      decide (max 0 (1 - (rt - lt) / (nf * thr)) = 0) from rfl]

/-- **C6.** For a sequence of entries that all carry a resolvable local time
and a positive threshold, the block former equals the spec-side splitter: the
concatenation of the returned blocks is exactly the input, every block is
nonempty, and a new block starts exactly at entries where
`max(0, 1 - gap / (normalization_factor * threshold)) = 0` with `gap > 0`
measured from the preceding entry. Entries at 0, 10, 20, 1000 seconds with
threshold 60 and factor 1.0 give the blocks `[0,10,20]` and `[1000]`. -/
theorem C6_block_former (entries : List ProcEntry) (thr nf : ℚ)
    (htimes : ∀ e ∈ entries, e.dt_local.isSome) (hthr : 0 < thr) :
    form_dynamic_untyped_blocks entries thr nf = specBlocks (specBoundary thr nf) entries ∧
    (form_dynamic_untyped_blocks entries thr nf).flatten = entries ∧
    (∀ b ∈ form_dynamic_untyped_blocks entries thr nf, b ≠ []) ∧
    form_dynamic_untyped_blocks
      [⟨1, some 0, ""⟩, ⟨2, some 10, ""⟩, ⟨3, some 20, ""⟩, ⟨4, some 1000, ""⟩] 60 1 =
      [[⟨1, some 0, ""⟩, ⟨2, some 10, ""⟩, ⟨3, some 20, ""⟩], [⟨4, some 1000, ""⟩]] := by
  refine ⟨?_, ?_, ?_, ?_⟩
  · cases entries with
    | nil => rfl
    | cons e rest =>
      rw [form_dynamic_untyped_blocks, specBlocks]
      rw [formBlocksGo_eq_chunksGo thr nf _ (fun a b => rfl) rest e []]
      exact chunksGo_congr _ _ (fun x => x.dt_local.isSome = true)
        (fun a b hpa hpb => boundary_eq_specBoundary thr nf hthr a b hpa hpb)
        rest e [] e (htimes e (List.mem_cons_self e rest))
        (fun x hx => htimes x (List.mem_cons_of_mem e hx))
  · cases entries with
    | nil => rfl
    | cons e rest =>
      rw [form_dynamic_untyped_blocks, formBlocksGo_join]
      rfl
  · intro b hb
    cases entries with
    | nil => simp [form_dynamic_untyped_blocks] at hb
    | cons e rest =>
      rw [form_dynamic_untyped_blocks] at hb
      exact formBlocksGo_nonempty thr nf rest e [] b hb
  · norm_num [form_dynamic_untyped_blocks, formBlocksGo, timeScoreGap, gapPositive,
      List.getLastD, max_def]

/-- **C6 (witness).** The block-former theorem applied at the concrete
four-entry input, hypotheses discharged. -/
theorem C6_block_former_witness :
    form_dynamic_untyped_blocks
      [⟨1, some 0, ""⟩, ⟨2, some 10, ""⟩, ⟨3, some 20, ""⟩, ⟨4, some 1000, ""⟩] 60 1 =
      specBlocks (specBoundary 60 1)
        [⟨1, some 0, ""⟩, ⟨2, some 10, ""⟩, ⟨3, some 20, ""⟩, ⟨4, some 1000, ""⟩] :=
  (C6_block_former _ 60 1 (by intro e he; fin_cases he <;> rfl) (by norm_num)).1

/-- What a `some` answer of the candidate loop means: the returned row is the
first scanned candidate that is non-blank and scores at or above the
threshold; everything scanned before it was blank or under threshold. -/
theorem firstAboveThreshold_eq_some (content : String) (thr : ℚ) :
    ∀ (cands : List Entry) (m : SimilarMatch),
      firstAboveThreshold content thr cands = some m →
      ∃ pre e post, cands = pre ++ e :: post ∧
        (pyStrip e.content).length ≠ 0 ∧
        thr ≤ calculate_similarity content e.content ∧
        m = ⟨e.id, e.content, e.summary, e.etype, e.group_id,
          calculate_similarity content e.content⟩ ∧
        ∀ x ∈ pre, (pyStrip x.content).length = 0 ∨
          calculate_similarity content x.content < thr := by
  intro cands
  induction cands with
  | nil => intro m h; simp [firstAboveThreshold] at h
  | cons e rest ih =>
    intro m h
    rw [firstAboveThreshold] at h
    by_cases hblank : ((pyStrip e.content).length == 0) = true
    · rw [if_pos hblank] at h
      rcases ih m h with ⟨pre, e', post, hsplit, h1, h2, h3, h4⟩
      refine ⟨e :: pre, e', post, by rw [hsplit]; rfl, h1, h2, h3, ?_⟩
      intro x hx
      rcases List.mem_cons.mp hx with h5 | h5
      · exact Or.inl (h5 ▸ Nat.eq_of_beq_eq_true (by simpa using hblank))
      · exact h4 x h5
    · rw [if_neg hblank] at h
      by_cases hsc : thr ≤ calculate_similarity content e.content
      · rw [if_pos hsc] at h
        refine ⟨[], e, rest, rfl, ?_, hsc, (Option.some_injective _ h).symm, by simp⟩
        simpa using hblank
      · rw [if_neg hsc] at h
        rcases ih m h with ⟨pre, e', post, hsplit, h1, h2, h3, h4⟩
        refine ⟨e :: pre, e', post, by rw [hsplit]; rfl, h1, h2, h3, ?_⟩
        intro x hx
        rcases List.mem_cons.mp hx with h5 | h5
        · exact Or.inr (h5 ▸ lt_of_not_le hsc)
        · exact h4 x h5

/-- The candidate loop answers `none` exactly when every candidate is blank
or scores under the threshold. -/
theorem firstAboveThreshold_eq_none (content : String) (thr : ℚ) :
    ∀ (cands : List Entry),
      firstAboveThreshold content thr cands = none ↔
      ∀ e ∈ cands, (pyStrip e.content).length = 0 ∨
        calculate_similarity content e.content < thr := by
  intro cands
  induction cands with
  | nil => simp [firstAboveThreshold]
  | cons e rest ih =>
    rw [firstAboveThreshold]
    by_cases hblank : ((pyStrip e.content).length == 0) = true
    · rw [if_pos hblank, ih]
      constructor
      · intro h x hx
        rcases List.mem_cons.mp hx with h1 | h1
        · exact Or.inl (h1 ▸ Nat.eq_of_beq_eq_true (by simpa using hblank))
        · exact h x h1
      · intro h x hx
        exact h x (List.mem_cons_of_mem e hx)
    · rw [if_neg hblank]
      by_cases hsc : thr ≤ calculate_similarity content e.content
      · rw [if_pos hsc]
        constructor
        · intro h; exact absurd h (by simp)
        · intro h
          rcases h e (List.mem_cons_self e rest) with h1 | h1
          · exact absurd h1 (by simpa using hblank)
          · exact absurd hsc (not_le.mpr h1)
      · rw [if_neg hsc, ih]
        constructor
        · intro h x hx
          rcases List.mem_cons.mp hx with h1 | h1
          · exact Or.inr (h1 ▸ lt_of_not_le hsc)
          · exact h x h1
        · intro h x hx
          exact h x (List.mem_cons_of_mem e hx)

/-- Descending insertion preserves membership. -/
theorem mem_insertDescBy {key : Entry → Nat} {y x : Entry} {l : List Entry}
    (h : y ∈ insertDescBy key x l) : y = x ∨ y ∈ l := by
  induction l with
  | nil => simpa [insertDescBy] using h
  | cons a tl ih =>
    rw [insertDescBy] at h
    by_cases hc : key a < key x
    · rw [if_pos hc] at h
      rcases List.mem_cons.mp h with h1 | h1
      · exact Or.inl h1
      · exact Or.inr h1
    · rw [if_neg hc] at h
      rcases List.mem_cons.mp h with h1 | h1
      · exact Or.inr (h1 ▸ List.mem_cons_self a tl)
      · rcases ih h1 with h2 | h2
        · exact Or.inl h2
        · exact Or.inr (List.mem_cons_of_mem a h2)

/-- Members of the descending sort come from the input. -/
theorem mem_sortByTimestampDesc {y : Entry} {l : List Entry}
    (h : y ∈ sortByTimestampDesc l) : y ∈ l := by
  suffices H : ∀ (l acc : List Entry),
      y ∈ l.foldl (fun acc x => insertDescBy Entry.timestamp x acc) acc →
      y ∈ acc ∨ y ∈ l by
    rcases H l [] h with h1 | h1
    · simp at h1
    · exact h1
  intro l
  induction l with
  | nil => intro acc h; exact Or.inl h
  | cons a tl ih =>
    intro acc h
    rcases ih (insertDescBy Entry.timestamp a acc) h with h1 | h1
    · rcases mem_insertDescBy h1 with h2 | h2
      · exact Or.inr (h2 ▸ List.mem_cons_self a tl)
      · exact Or.inl h2
    · exact Or.inr (List.mem_cons_of_mem a h1)

/-- Each candidate passed to the similarity loop satisfies the SQL filter:
it is a row of the table, long enough, inside the window, and not the row
being resolved. -/
theorem mem_similarCandidates {db : DB} {minLen : ℤ} {cid : Option Nat}
    {lim : Nat} {cut : Option Nat} {rs : Bool} {e : Entry}
    (h : e ∈ similarCandidates db minLen cid lim cut rs) :
    e ∈ db.entries ∧ minLen ≤ (e.content.length : ℤ) ∧
    (∀ c, cid = some c → e.id ≠ c) ∧ (∀ c, cut = some c → c ≤ e.timestamp) := by
  rw [similarCandidates] at h
  have h1 := mem_sortByTimestampDesc (List.mem_of_mem_take h)
  rcases List.mem_filter.mp h1 with ⟨hmem, hcond⟩
  simp only [Bool.and_eq_true, decide_eq_true_eq] at hcond
  obtain ⟨⟨⟨hlen, hcut⟩, hid⟩, _⟩ := hcond
  refine ⟨hmem, hlen, ?_, ?_⟩
  · intro c hc
    subst hc
    simpa using hid
  · intro c hc
    subst hc
    simpa using hcut

/-- Evaluation helper: the similarity score from processed forms, LCS value
and lengths. -/
theorem calculate_similarity_eval (s1 s2 p1 p2 : String) (L n1 n2 : Nat)
    (h1 : default_process s1 = p1) (h2 : default_process s2 = p2)
    (hL : lcsLen p1.data p2.data = L) (hn1 : p1.length = n1) (hn2 : p2.length = n2)
    (hne : n1 + n2 ≠ 0) :
    calculate_similarity s1 s2 = 200 * (L : ℚ) / ((n1 : ℚ) + (n2 : ℚ)) := by
  rw [calculate_similarity, fuzzRatio]
  simp only [h1, h2, hL, hn1, hn2]
  rw [if_neg hne]

/-- **C3 (counterexample).** Query content `"abcdefghij"` against a newer
candidate scoring exactly 90 and an older identical candidate scoring 100
(threshold 90): the search returns the newer, lower-scoring candidate — the
first at-or-above-threshold row in timestamp-descending order — not a
candidate of maximal similarity, refuting the "most similarity-eligible /
maximal score" part of the claim. -/
theorem C3_counterexample :
    (find_similar_entries
        ⟨[⟨1, 20, "abcdefghij", none, none, none⟩,
          ⟨2, 10, "abcdefghiX", none, none, none⟩,
          ⟨3, 5, "abcdefghij", none, none, none⟩], []⟩
        "abcdefghij" 90 (some 1) 0 1000 (some 0) false) =
      some ⟨2, "abcdefghiX", none, none, none, 90⟩ ∧
    calculate_similarity "abcdefghij" "abcdefghij" = 100 ∧
    (∃ e ∈ similarCandidates
        ⟨[⟨1, 20, "abcdefghij", none, none, none⟩,
          ⟨2, 10, "abcdefghiX", none, none, none⟩,
          ⟨3, 5, "abcdefghij", none, none, none⟩], []⟩
        9 (some 1) 1000 (some 0) false,
      e.id = 3 ∧ e.content = "abcdefghij") ∧
    (90 : ℚ) < 100 := by
  have hs90 : calculate_similarity "abcdefghij" "abcdefghiX" = 90 := by
    rw [calculate_similarity_eval "abcdefghij" "abcdefghiX" "abcdefghij" "abcdefghix"
      9 10 10 (by decide) (by decide) (by decide) (by decide) (by decide) (by decide)]
    norm_num
  have hs100 : calculate_similarity "abcdefghij" "abcdefghij" = 100 := by
    rw [calculate_similarity_eval "abcdefghij" "abcdefghij" "abcdefghij" "abcdefghij"
      10 10 10 (by decide) (by decide) (by decide) (by decide) (by decide) (by decide)]
    norm_num
  have hmin : (max 1 (pyRound ((("abcdefghij" : String).length : ℚ) * 90 / 100)) : ℤ) = 9 := by
    have hlen : (("abcdefghij" : String).length : ℚ) = 10 := by
      rw [show ("abcdefghij" : String).length = 10 from rfl]
      norm_num
    rw [hlen]
    rw [pyRound]
    norm_num
  have hcands : similarCandidates
      ⟨[⟨1, 20, "abcdefghij", none, none, none⟩,
        ⟨2, 10, "abcdefghiX", none, none, none⟩,
        ⟨3, 5, "abcdefghij", none, none, none⟩], []⟩
      9 (some 1) 1000 (some 0) false =
      [⟨2, 10, "abcdefghiX", none, none, none⟩, ⟨3, 5, "abcdefghij", none, none, none⟩] := by
    decide
  refine ⟨?_, hs100, ?_, by norm_num⟩
  · rw [find_similar_entries]
    rw [if_pos (le_refl (0 : ℤ)), hmin, hcands]
    rw [firstAboveThreshold, if_neg (by decide)]
    simp only [hs90]
    rw [if_pos (le_refl (90 : ℚ))]
  · refine ⟨⟨3, 5, "abcdefghij", none, none, none⟩, ?_, rfl, rfl⟩
    rw [hcands]
    decide

/-- **C3 (amended).** The similarity search considers exactly the window
candidates passing the SQL length filter
`LENGTH(content) >= max(1, round(len(content) * threshold / 100))` and
excluding the entry itself; among them it returns the **first** candidate in
timestamp-descending order that is non-blank and scores at or above the
threshold (all earlier candidates being blank or under threshold) — not
necessarily one of maximal score — and returns nothing exactly when no
candidate qualifies. -/
theorem C3_amended (db : DB) (content : String) (thr : ℚ) (cid : Option Nat)
    (lim : Nat) (cut : Option Nat) :
    (∀ e ∈ similarCandidates db
        (max 1 (pyRound ((content.length : ℚ) * thr / 100))) cid lim cut false,
      (max 1 (pyRound ((content.length : ℚ) * thr / 100))) ≤ (e.content.length : ℤ) ∧
      ∀ c, cid = some c → e.id ≠ c) ∧
    (find_similar_entries db content thr cid 0 lim cut false = none ↔
      ∀ e ∈ similarCandidates db
          (max 1 (pyRound ((content.length : ℚ) * thr / 100))) cid lim cut false,
        (pyStrip e.content).length = 0 ∨ calculate_similarity content e.content < thr) ∧
    (∀ m, find_similar_entries db content thr cid 0 lim cut false = some m →
      ∃ pre e post, similarCandidates db
          (max 1 (pyRound ((content.length : ℚ) * thr / 100))) cid lim cut false =
          pre ++ e :: post ∧
        (pyStrip e.content).length ≠ 0 ∧
        thr ≤ calculate_similarity content e.content ∧
        m = ⟨e.id, e.content, e.summary, e.etype, e.group_id,
          calculate_similarity content e.content⟩ ∧
        ∀ x ∈ pre, (pyStrip x.content).length = 0 ∨
          calculate_similarity content x.content < thr) := by
  have hred : find_similar_entries db content thr cid 0 lim cut false =
      firstAboveThreshold content thr (similarCandidates db
        (max 1 (pyRound ((content.length : ℚ) * thr / 100))) cid lim cut false) := by
    rw [find_similar_entries, if_pos (le_refl (0 : ℤ))]
  refine ⟨?_, ?_, ?_⟩
  · intro e he
    have := mem_similarCandidates he
    exact ⟨this.2.1, this.2.2.1⟩
  · rw [hred]
    exact firstAboveThreshold_eq_none content thr _
  · intro m hm
    rw [hred] at hm
    exact firstAboveThreshold_eq_some content thr _ m hm

/-- **C3 (witness).** The amended theorem applied at the counterexample
database: the returned row decomposes as the first qualifying candidate with
one candidate scanned and rejected before none — here the very first
candidate qualifies. -/
theorem C3_amended_witness :
    ∃ pre e post, similarCandidates
        ⟨[⟨1, 20, "abcdefghij", none, none, none⟩,
          ⟨2, 10, "abcdefghiX", none, none, none⟩,
          ⟨3, 5, "abcdefghij", none, none, none⟩], []⟩
        (max 1 (pyRound ((("abcdefghij" : String).length : ℚ) * 90 / 100)))
        (some 1) 1000 (some 0) false = pre ++ e :: post ∧
      (pyStrip e.content).length ≠ 0 ∧
      (90 : ℚ) ≤ calculate_similarity "abcdefghij" e.content ∧
      (⟨2, "abcdefghiX", none, none, none, 90⟩ : SimilarMatch) =
        ⟨e.id, e.content, e.summary, e.etype, e.group_id,
          calculate_similarity "abcdefghij" e.content⟩ ∧
      ∀ x ∈ pre, (pyStrip x.content).length = 0 ∨
        calculate_similarity "abcdefghij" x.content < 90 :=
  (C3_amended _ "abcdefghij" 90 (some 1) 1000 (some 0)).2.2
    ⟨2, "abcdefghiX", none, none, none, 90⟩ C3_counterexample.1

/-- **C4 (counterexample).** A group member whose summary is the failed
sentinel `'FAIL'` (and a parent whose summary is `'FAIL-2'`) is selected as
the propagation source: `check_group_for_summary` returns the FAIL pair for
copying, and the maintenance sweep copies `FAIL-2` down onto a pending
entry — failed summaries do propagate, which the claim rules out. -/
theorem C4_counterexample :
    check_group_for_summary
        ⟨[⟨2, 0, "c", some "FAIL", some "FAIL", some 5⟩], []⟩ 3 5 =
      some ("FAIL", some "FAIL") ∧
    (check_parent_summary
        ⟨[⟨1, 0, "p", some "FAIL-2", some "FAIL-2", none⟩,
          ⟨2, 1, "c", some "summarizing...", some "", some 1⟩], []⟩).entries =
      [⟨1, 0, "p", some "FAIL-2", some "FAIL-2", none⟩,
       ⟨2, 1, "c", some "FAIL-2", some "FAIL-2", some 1⟩] ∧
    isFailSentinel "FAIL" = true ∧ isFailSentinel "FAIL-2" = true := by
  refine ⟨by decide, by decide, by decide, by decide⟩

/-- A positive `find?` result satisfies its predicate and is a member. -/
theorem find?_spec {p : Entry → Bool} {l : List Entry} {e : Entry}
    (h : l.find? p = some e) : e ∈ l ∧ p e = true :=
  ⟨List.mem_of_find?_eq_some h, List.find?_some h⟩

/-- **C4 (amended).** The propagation steps copy `(summary, type)` from any
source whose summary is non-NULL and different from the pending sentinel —
this includes the failed sentinels `'FAIL'`/`'FAIL-<n>'` (and the empty
string), not only complete summaries. A pending source is never copied as a
summary: when only pending members exist, the group check returns the
pending sentinel itself (with empty type), and the maintenance sweep only
ever writes a non-NULL, non-pending summary onto an entry it changes. -/
theorem C4_amended (db : DB) (c g : Nat) (s : String) (t : Option String) :
    (check_group_for_summary db c g = some (s, t) →
      (s ≠ "summarizing..." ∧ ∃ e ∈ db.entries, e.group_id = some g ∧ e.id ≠ c ∧
        e.summary = some s ∧ e.etype = t) ∨
      (s = "summarizing..." ∧ t = some "" ∧ ∃ e ∈ db.entries, e.group_id = some g ∧
        e.id ≠ c ∧ e.summary = some "summarizing...")) ∧
    (∀ e' ∈ (check_parent_summary db).entries,
      e' ∈ db.entries ∨ ∃ v, e'.summary = some v ∧ v ≠ "summarizing...") := by
  constructor
  · intro h
    rw [check_group_for_summary] at h
    rcases hf : db.entries.find? (fun e =>
        e.group_id == some g && e.id != c &&
        e.summary.isSome && e.summary != some "summarizing...") with _ | e
    · rw [hf] at h
      by_cases hany : db.entries.any (fun e =>
          e.group_id == some g && e.id != c && e.summary == some "summarizing...") = true
      · rw [if_pos hany] at h
        rcases List.any_eq_true.mp hany with ⟨e, hmem, hpred⟩
        simp only [Bool.and_eq_true, beq_iff_eq, bne_iff_ne, ne_eq] at hpred
        obtain ⟨⟨hg, hid⟩, hsum⟩ := hpred
        right
        obtain ⟨hs, ht⟩ := Prod.mk.injEq .. ▸ (Option.some_injective _ h)
        exact ⟨hs.symm, ht.symm, e, hmem, hg, hid, hsum⟩
      · rw [if_neg hany] at h
        exact absurd h (by simp)
    · rw [hf] at h
      obtain ⟨hmem, hpred⟩ := find?_spec hf
      simp only [Bool.and_eq_true, beq_iff_eq, bne_iff_ne, ne_eq,
        Option.isSome_iff_exists] at hpred
      obtain ⟨⟨⟨hg, hid⟩, ⟨v, hv⟩⟩, hne⟩ := hpred
      obtain ⟨hs, ht⟩ := Prod.mk.injEq .. ▸ (Option.some_injective _ h)
      left
      rw [hv] at hs
      simp only [Option.getD_some] at hs
      refine ⟨?_, e, hmem, hg, hid, ?_, ht⟩
      · intro hcontra
        exact hne (by rw [hv, hs, hcontra])
      · rw [hv, hs]
  · intro e' he'
    rw [check_parent_summary] at he'
    revert he'
    generalize db.entries.filter (fun e =>
      e.summary == some "summarizing..." && e.group_id.isSome) = snapshot
    suffices H : ∀ (snap : List Entry) (acc : DB),
        (∀ x ∈ acc.entries, x ∈ db.entries ∨ ∃ v, x.summary = some v ∧ v ≠ "summarizing...") →
        ∀ y ∈ (snap.foldl (fun acc e =>
          match e.group_id with
          | none => acc
          | some g =>
            match acc.entries.find? (fun p =>
                p.id == g && p.summary.isSome && p.summary != some "summarizing...") with
            | none => acc
            | some p =>
              { acc with entries := acc.entries.map fun x =>
                  if x.id == e.id then { x with summary := p.summary, etype := p.etype }
                  else x }) acc).entries,
        y ∈ db.entries ∨ ∃ v, y.summary = some v ∧ v ≠ "summarizing..." by
      intro he'
      exact H snapshot db (fun x hx => Or.inl hx) e' he'
    intro snap
    induction snap with
    | nil => intro acc hacc y hy; exact hacc y hy
    | cons e tl ih =>
      intro acc hacc y hy
      rw [List.foldl_cons] at hy
      refine ih _ ?_ y hy
      rcases hge : e.group_id with _ | g
      · simpa [hge] using hacc
      · simp only [hge]
        rcases hfp : acc.entries.find? (fun p =>
            p.id == g && p.summary.isSome && p.summary != some "summarizing...") with _ | p
        · simp only [hfp]
          exact hacc
        · simp only [hfp]
          obtain ⟨hpmem, hppred⟩ := find?_spec hfp
          simp only [Bool.and_eq_true, beq_iff_eq, bne_iff_ne, ne_eq,
            Option.isSome_iff_exists] at hppred
          obtain ⟨⟨_, ⟨v, hv⟩⟩, hne⟩ := hppred
          intro x hx
          rcases List.mem_map.mp (by simpa using hx) with ⟨x0, hx0, rfl⟩
          by_cases hid : x0.id = e.id
          · rw [if_pos hid]
            right
            refine ⟨v, ?_, ?_⟩
            · simpa using hv
            · intro hcontra
              exact hne (hcontra ▸ hv)
          · rw [if_neg hid]
            exact hacc x0 hx0

/-- **C4 (witness).** The amended theorem applied at a concrete group whose
only other member carries the failed sentinel: the source of the copy is that
FAIL row. -/
theorem C4_amended_witness :
    ("FAIL" ≠ "summarizing..." ∧
      ∃ e ∈ (⟨[⟨2, 0, "c", some "FAIL", some "FAIL", some 5⟩], []⟩ : DB).entries,
        e.group_id = some 5 ∧ e.id ≠ 3 ∧ e.summary = some "FAIL" ∧
        e.etype = some "FAIL") ∨
    ("FAIL" = "summarizing..." ∧ some "FAIL" = some "" ∧
      ∃ e ∈ (⟨[⟨2, 0, "c", some "FAIL", some "FAIL", some 5⟩], []⟩ : DB).entries,
        e.group_id = some 5 ∧ e.id ≠ 3 ∧ e.summary = some "summarizing...") :=
  (C4_amended ⟨[⟨2, 0, "c", some "FAIL", some "FAIL", some 5⟩], []⟩ 3 5 "FAIL"
    (some "FAIL")).1 (by decide)

/-- Length pre-filter for 4-character content at threshold 90:
`max(1, round(3.6)) = 4`. -/
theorem abcd_minLen :
    max 1 (pyRound ((("abcd" : String).length : ℚ) * 90 / 100)) = 4 := by
  have hlen : ((("abcd" : String).length : ℚ)) = 4 := by
    rw [show ("abcd" : String).length = 4 from rfl]
    norm_num
  rw [hlen, pyRound]
  norm_num

/-- Identical four-character contents score 100. -/
theorem sim_abcd : calculate_similarity "abcd" "abcd" = 100 := by
  rw [calculate_similarity_eval "abcd" "abcd" "abcd" "abcd" 4 4 4
    (by decide) (by decide) (by decide) (by decide) (by decide) (by decide)]
  norm_num

/-- The similarity search for content `"abcd"` at threshold 90 reduces to the
candidate loop over the length-4-filtered window. -/
theorem find_similar_abcd (db : DB) (cid : Option Nat) :
    find_similar_entries db "abcd" 90 cid 0 1000 (some 0) false =
      firstAboveThreshold "abcd" 90 (similarCandidates db 4 cid 1000 (some 0) false) := by
  rw [find_similar_entries, if_pos (le_refl (0 : ℤ)), abcd_minLen]

/-- **C2 (counterexample).** A database state reachable by the engine's own
operations violates the one-hop invariant, with an entry whose `group_id`
points at itself. Trace: entry 1 is dispatched (pending), similar entry 2
arrives and attaches to it (`group_id = 1`, copying the pending sentinel); a
crash-restart recovery resets both summaries to NULL; the next poll picks
entry 1 again, finds entry 2 similar, and flattens through entry 2's
`group_id` — assigning entry 1 `group_id = 1`, its own id. -/
theorem C2_counterexample :
    ∃ db : DB, Reachable ⟨3, 90, 1000⟩ db ∧ ¬ OneHopFlat db ∧
      ∃ e ∈ db.entries, e.group_id = some e.id := by
  have hs1 : poll_and_summarize_step ⟨3, 90, 1000⟩ 0
      (insertClip ⟨[], []⟩ 0 "abcd") =
      ⟨[⟨1, 0, "abcd", some "summarizing...", none, none⟩], []⟩ := by
    have hins : insertClip ⟨[], []⟩ 0 "abcd" =
        ⟨[⟨1, 0, "abcd", none, none, none⟩], []⟩ := rfl
    rw [hins]
    have hfind : find_similar_entries ⟨[⟨1, 0, "abcd", none, none, none⟩], []⟩
        "abcd" 90 (some 1) 0 1000 (some 0) false = none := by
      rw [find_similar_abcd]
      rfl
    simp only [poll_and_summarize_step]
    rw [show check_parent_summary ⟨[⟨1, 0, "abcd", none, none, none⟩], []⟩ =
      ⟨[⟨1, 0, "abcd", none, none, none⟩], []⟩ from rfl]
    rw [show pollSelect ⟨[⟨1, 0, "abcd", none, none, none⟩], []⟩
      (Config.mk 3 90 1000).triggerLen 0 = some ⟨1, 0, "abcd", none, none, none⟩ from rfl]
    simp only [hfind]
    rfl
  have hs2 : poll_and_summarize_step ⟨3, 90, 1000⟩ 0
      (insertClip ⟨[⟨1, 0, "abcd", some "summarizing...", none, none⟩], []⟩ 1 "abcd") =
      ⟨[⟨1, 0, "abcd", some "summarizing...", none, none⟩,
        ⟨2, 1, "abcd", some "summarizing...", some "", some 1⟩],
       [⟨2, 1, pyRound1 (calculate_similarity "abcd" "abcd"), 1⟩]⟩ := by
    have hins : insertClip ⟨[⟨1, 0, "abcd", some "summarizing...", none, none⟩], []⟩ 1 "abcd" =
        ⟨[⟨1, 0, "abcd", some "summarizing...", none, none⟩,
          ⟨2, 1, "abcd", none, none, none⟩], []⟩ := rfl
    rw [hins]
    have hfind : find_similar_entries
        ⟨[⟨1, 0, "abcd", some "summarizing...", none, none⟩,
          ⟨2, 1, "abcd", none, none, none⟩], []⟩
        "abcd" 90 (some 2) 0 1000 (some 0) false =
        some ⟨1, "abcd", some "summarizing...", none, none,
          calculate_similarity "abcd" "abcd"⟩ := by
      rw [find_similar_abcd]
      rw [show similarCandidates
          ⟨[⟨1, 0, "abcd", some "summarizing...", none, none⟩,
            ⟨2, 1, "abcd", none, none, none⟩], []⟩ 4 (some 2) 1000 (some 0) false =
          [⟨1, 0, "abcd", some "summarizing...", none, none⟩] from by decide]
      rw [firstAboveThreshold, if_neg (by decide)]
      rw [if_pos (by rw [sim_abcd]; norm_num)]
    simp only [poll_and_summarize_step]
    rw [show check_parent_summary
        ⟨[⟨1, 0, "abcd", some "summarizing...", none, none⟩,
          ⟨2, 1, "abcd", none, none, none⟩], []⟩ =
        ⟨[⟨1, 0, "abcd", some "summarizing...", none, none⟩,
          ⟨2, 1, "abcd", none, none, none⟩], []⟩ from rfl]
    rw [show pollSelect
        ⟨[⟨1, 0, "abcd", some "summarizing...", none, none⟩,
          ⟨2, 1, "abcd", none, none, none⟩], []⟩ (Config.mk 3 90 1000).triggerLen 0 =
        some ⟨2, 1, "abcd", none, none, none⟩ from rfl]
    simp only [hfind]
    rfl
  have hs3 : poll_and_summarize_step ⟨3, 90, 1000⟩ 0
      (recoverStuckEntries
        ⟨[⟨1, 0, "abcd", some "summarizing...", none, none⟩,
          ⟨2, 1, "abcd", some "summarizing...", some "", some 1⟩],
         [⟨2, 1, pyRound1 (calculate_similarity "abcd" "abcd"), 1⟩]⟩) =
      ⟨[⟨1, 0, "abcd", some "", some "", some 1⟩,
        ⟨2, 1, "abcd", none, some "", some 1⟩],
       [⟨2, 1, pyRound1 (calculate_similarity "abcd" "abcd"), 1⟩,
        ⟨1, 2, pyRound1 (calculate_similarity "abcd" "abcd"), 1⟩]⟩ := by
    have hrec : recoverStuckEntries
        ⟨[⟨1, 0, "abcd", some "summarizing...", none, none⟩,
          ⟨2, 1, "abcd", some "summarizing...", some "", some 1⟩],
         [⟨2, 1, pyRound1 (calculate_similarity "abcd" "abcd"), 1⟩]⟩ =
        ⟨[⟨1, 0, "abcd", none, none, none⟩,
          ⟨2, 1, "abcd", none, some "", some 1⟩],
         [⟨2, 1, pyRound1 (calculate_similarity "abcd" "abcd"), 1⟩]⟩ := rfl
    rw [hrec]
    have hfind : find_similar_entries
        ⟨[⟨1, 0, "abcd", none, none, none⟩,
          ⟨2, 1, "abcd", none, some "", some 1⟩],
         [⟨2, 1, pyRound1 (calculate_similarity "abcd" "abcd"), 1⟩]⟩
        "abcd" 90 (some 1) 0 1000 (some 0) false =
        some ⟨2, "abcd", none, some "", some 1,
          calculate_similarity "abcd" "abcd"⟩ := by
      rw [find_similar_abcd]
      rw [show similarCandidates
          ⟨[⟨1, 0, "abcd", none, none, none⟩,
            ⟨2, 1, "abcd", none, some "", some 1⟩],
           [⟨2, 1, pyRound1 (calculate_similarity "abcd" "abcd"), 1⟩]⟩
          4 (some 1) 1000 (some 0) false =
          [⟨2, 1, "abcd", none, some "", some 1⟩] from by
        rw [similarCandidates]
        rfl]
      rw [firstAboveThreshold, if_neg (by decide)]
      rw [if_pos (by rw [sim_abcd]; norm_num)]
    simp only [poll_and_summarize_step]
    rw [show check_parent_summary
        ⟨[⟨1, 0, "abcd", none, none, none⟩,
          ⟨2, 1, "abcd", none, some "", some 1⟩],
         [⟨2, 1, pyRound1 (calculate_similarity "abcd" "abcd"), 1⟩]⟩ =
        ⟨[⟨1, 0, "abcd", none, none, none⟩,
          ⟨2, 1, "abcd", none, some "", some 1⟩],
         [⟨2, 1, pyRound1 (calculate_similarity "abcd" "abcd"), 1⟩]⟩ from by
      rw [check_parent_summary]
      rfl]
    rw [show pollSelect
        ⟨[⟨1, 0, "abcd", none, none, none⟩,
          ⟨2, 1, "abcd", none, some "", some 1⟩],
         [⟨2, 1, pyRound1 (calculate_similarity "abcd" "abcd"), 1⟩]⟩
        (Config.mk 3 90 1000).triggerLen 0 =
        some ⟨1, 0, "abcd", none, none, none⟩ from by
      rw [pollSelect]
      rfl]
    simp only [hfind]
    rw [update_entry_with_group]
    rfl
  refine ⟨⟨[⟨1, 0, "abcd", some "", some "", some 1⟩,
      ⟨2, 1, "abcd", none, some "", some 1⟩],
     [⟨2, 1, pyRound1 (calculate_similarity "abcd" "abcd"), 1⟩,
      ⟨1, 2, pyRound1 (calculate_similarity "abcd" "abcd"), 1⟩]⟩, ?_, ?_, ?_⟩
  · have r1 : Reachable ⟨3, 90, 1000⟩ (insertClip ⟨[], []⟩ 0 "abcd") :=
      Reachable.insert 0 "abcd" Reachable.empty
    have r2 := Reachable.poll 0 r1
    rw [hs1] at r2
    have r3 := Reachable.insert 1 "abcd" r2
    have r4 := Reachable.poll 0 r3
    rw [hs2] at r4
    have r5 := Reachable.recover r4
    have r6 := Reachable.poll 0 r5
    rw [hs3] at r6
    exact r6
  · intro h
    have h1 := h ⟨2, 1, "abcd", none, some "", some 1⟩ (by decide)
      ⟨1, 0, "abcd", some "", some "", some 1⟩ (by decide) rfl
    exact absurd h1 (by decide)
  · exact ⟨⟨1, 0, "abcd", some "", some "", some 1⟩, by decide, rfl⟩

/-- **C2 (amended).** The attach step does flatten exactly as described:
the new `group_id` is the match's own `group_id` when non-null (and nonzero,
which stored group ids always are) and the match's id otherwise; and it
preserves the one-hop invariant **provided no other entry's `group_id`
already references the entry being attached**. That proviso is not an
invariant of all reachable states: after crash recovery resets a group root
back to unset, the root itself can be re-attached, breaking one-hop (even
producing a self-referencing `group_id`). -/
theorem C2_amended (db : DB) (rid : Nat) (m : SimilarMatch) (s t : Option String)
    (sid : Option Nat) (sc : Option ℚ)
    (hmatch : ∃ e ∈ db.entries, e.id = m.id ∧ e.group_id = m.group_id)
    (hne : m.id ≠ rid)
    (hg0 : m.group_id ≠ some 0)
    (hnodup : (db.entries.map Entry.id).Nodup)
    (hinv : OneHopFlat db)
    (hnoref : ∀ e ∈ db.entries, e.group_id ≠ some rid) :
    (∀ g, m.group_id = some g → attachRoot m = g) ∧
    (m.group_id = none → attachRoot m = m.id) ∧
    (∀ e ∈ (update_entry_with_group db rid (attachRoot m) s t sid sc).entries,
      e.id = rid → e.group_id = some (attachRoot m)) ∧
    OneHopFlat (update_entry_with_group db rid (attachRoot m) s t sid sc) := by
  obtain ⟨e1, he1, hid1, hgrp1⟩ := hmatch
  have hg0' : ∀ g, m.group_id = some g → g ≠ 0 := by
    intro g hg h0
    exact hg0 (by rw [hg, h0])
  have hroot1 : ∀ g, m.group_id = some g → attachRoot m = g := by
    intro g hg
    rw [attachRoot, hg]
    simp only []
    rw [if_neg (by simpa using hg0' g hg)]
  have hroot2 : m.group_id = none → attachRoot m = m.id := by
    intro hg
    rw [attachRoot, hg]
  have hroot_ne : attachRoot m ≠ rid := by
    rcases hg : m.group_id with _ | g
    · rw [hroot2 hg]; exact hne
    · rw [hroot1 g hg]
      intro h0
      exact hnoref e1 he1 (by rw [hgrp1, hg, h0])
  have hidf : ∀ x : Entry,
      (if (x.id == rid) = true then
        { x with summary := s, etype := t, group_id := some (attachRoot m) }
       else x).id = x.id := by
    intro x
    by_cases hb : (x.id == rid) = true
    · rw [if_pos hb]
    · rw [if_neg hb]
  refine ⟨hroot1, hroot2, ?_, ?_⟩
  · intro e he hide
    rcases List.mem_map.mp he with ⟨x0, hx0, rfl⟩
    by_cases hb : (x0.id == rid) = true
    · rw [if_pos hb]
    · exfalso
      rw [if_neg hb] at hide
      exact absurd (beq_iff_eq.mpr hide) (by simpa using hb)
  · intro e' he' x' hx' hlink
    rcases List.mem_map.mp he' with ⟨e0, he0, rfl⟩
    rcases List.mem_map.mp hx' with ⟨x0, hx0, rfl⟩
    by_cases hbe : (e0.id == rid) = true
    · rw [if_pos hbe] at hlink
      simp only [Option.some.injEq] at hlink
      rw [hidf x0] at hlink
      by_cases hbx : (x0.id == rid) = true
      · exfalso
        exact hroot_ne (hlink.trans (beq_iff_eq.mp hbx))
      · rw [if_neg hbx]
        rcases hg : m.group_id with _ | g
        · have hrootid : x0.id = m.id := by rw [← hlink, hroot2 hg]
          have hx0e1 : x0 = e1 :=
            List.inj_on_of_nodup_map hnodup hx0 he1 (by rw [hrootid, hid1])
          rw [hx0e1, hgrp1, hg]
        · have hrootid : x0.id = g := by rw [← hlink, hroot1 g hg]
          exact hinv e1 he1 x0 hx0 (by rw [hgrp1, hg, hrootid])
    · rw [if_neg hbe] at hlink
      rw [hidf x0] at hlink
      by_cases hbx : (x0.id == rid) = true
      · exfalso
        exact hnoref e0 he0 (by rw [hlink, beq_iff_eq.mp hbx])
      · rw [if_neg hbx]
        exact hinv e0 he0 x0 hx0 hlink

/-- **C2 (witness).** The amended theorem applied at a concrete database:
attaching fresh entry 2 to match entry 1 (no prior group, nothing pointing
at entry 2) yields `group_id = 1` and keeps the one-hop invariant. -/
theorem C2_amended_witness :
    (∀ e ∈ (update_entry_with_group ⟨[⟨1, 0, "abcd", none, none, none⟩], []⟩ 2
        (attachRoot ⟨1, "abcd", none, none, none, 100⟩)
        (some "") (some "") (some 1) (some 100)).entries,
      e.id = 2 → e.group_id = some (attachRoot ⟨1, "abcd", none, none, none, 100⟩)) ∧
    OneHopFlat (update_entry_with_group ⟨[⟨1, 0, "abcd", none, none, none⟩], []⟩ 2
        (attachRoot ⟨1, "abcd", none, none, none, 100⟩)
        (some "") (some "") (some 1) (some 100)) :=
  ⟨(C2_amended ⟨[⟨1, 0, "abcd", none, none, none⟩], []⟩ 2
      ⟨1, "abcd", none, none, none, 100⟩ (some "") (some "") (some 1) (some 100)
      ⟨⟨1, 0, "abcd", none, none, none⟩, by decide, rfl, rfl⟩
      (by decide) (by decide) (by decide) (by decide)
      (by intro e he; fin_cases he; decide)).2.2.1,
   (C2_amended ⟨[⟨1, 0, "abcd", none, none, none⟩], []⟩ 2
      ⟨1, "abcd", none, none, none, 100⟩ (some "") (some "") (some 1) (some 100)
      ⟨⟨1, 0, "abcd", none, none, none⟩, by decide, rfl, rfl⟩
      (by decide) (by decide) (by decide) (by decide)
      (by intro e he; fin_cases he; decide)).2.2.2⟩

/-- An id-preserving row transformation leaves the table's id column alone. -/
theorem map_entries_id (f : Entry → Entry) (hf : ∀ e, (f e).id = e.id) (l : List Entry) :
    (l.map f).map Entry.id = l.map Entry.id := by
  induction l with
  | nil => rfl
  | cons a tl ih => simp [hf a, ih]

/-- The running maximum only grows. -/
theorem base_le_foldl_max : ∀ (l : List Entry) (base : Nat),
    base ≤ l.foldl (fun m e => max m e.id) base := by
  intro l
  induction l with
  | nil => intro base; exact le_refl base
  | cons b tl ih =>
    intro base
    exact le_trans (le_max_left base b.id) (ih (max base b.id))

/-- Every id in the table is bounded by the running maximum. -/
theorem mem_le_foldl_max : ∀ (l : List Entry) (base : Nat) (a : Entry), a ∈ l →
    a.id ≤ l.foldl (fun m e => max m e.id) base := by
  intro l
  induction l with
  | nil => intro base a ha; simp at ha
  | cons b tl ih =>
    intro base a ha
    rcases List.mem_cons.mp ha with h1 | h1
    · subst h1
      exact le_trans (le_max_right base a.id) (base_le_foldl_max tl (max base a.id))
    · exact ih (max base b.id) a h1

/-- A row the poll query returns is a table row with a NULL summary. -/
theorem pollSelect_mem {db : DB} {t c : Nat} {e : Entry}
    (h : pollSelect db t c = some e) : e ∈ db.entries ∧ e.summary = none := by
  rw [pollSelect] at h
  have H : ∀ (l : List Entry) (acc : Option Entry),
      l.foldl (fun acc e => match acc with
        | none => some e
        | some a => if e.id < a.id then some e else acc) acc = some e →
      acc = some e ∨ e ∈ l := by
    intro l
    induction l with
    | nil => intro acc h; exact Or.inl h
    | cons b tl ih =>
      intro acc h
      rcases ih _ h with h1 | h1
      · rcases acc with _ | a
        · simp only [] at h1
          exact Or.inr (by rw [← Option.some_injective _ h1]; exact List.mem_cons_self b tl)
        · simp only [] at h1
          by_cases hlt : b.id < a.id
          · rw [if_pos hlt] at h1
            exact Or.inr (by rw [← Option.some_injective _ h1]; exact List.mem_cons_self b tl)
          · rw [if_neg hlt] at h1
            exact Or.inl h1
      · exact Or.inr (List.mem_cons_of_mem b h1)
  rcases H _ none h with h1 | h1
  · exact absurd h1 (by simp)
  · rcases List.mem_filter.mp h1 with ⟨hmem, hcond⟩
    simp only [Bool.and_eq_true, decide_eq_true_eq, Option.isNone_iff_eq_none] at hcond
    exact ⟨hmem, hcond.1.1⟩

/-- The frozen-entry invariant behind C10: row `rid` exists, ids are unique,
and every row with id `rid` carries the empty-string summary. -/
def FrozenEmpty (rid : Nat) (db : DB) : Prop :=
  (∃ e ∈ db.entries, e.id = rid) ∧ (db.entries.map Entry.id).Nodup ∧
  ∀ e ∈ db.entries, e.id = rid → e.summary = some ""

/-- A row update that touches only ids different from `rid` (and preserves
every row's id) keeps the frozen-entry invariant. -/
theorem frozenEmpty_map (rid : Nat) (db : DB) (f : Entry → Entry) (edges : List Edge)
    (hf : ∀ e, (f e).id = e.id)
    (hfr : ∀ e ∈ db.entries, e.id = rid → f e = e)
    (h : FrozenEmpty rid db) : FrozenEmpty rid ⟨db.entries.map f, edges⟩ := by
  obtain ⟨⟨w, hw, hwid⟩, hnd, hfz⟩ := h
  refine ⟨⟨f w, List.mem_map_of_mem f hw, by rw [hf w, hwid]⟩, ?_, ?_⟩
  · rw [map_entries_id f hf]
    exact hnd
  · intro e he hid
    rcases List.mem_map.mp he with ⟨x0, hx0, rfl⟩
    rw [hf x0] at hid
    rw [hfr x0 hx0 hid]
    exact hfz x0 hx0 hid

/-- The maintenance sweep keeps the frozen-entry invariant. -/
theorem frozenEmpty_sweep (rid : Nat) (db : DB) (h : FrozenEmpty rid db) :
    FrozenEmpty rid (check_parent_summary db) := by
  obtain ⟨hex, hnd, hfz⟩ := h
  have hsnap : ∀ e ∈ db.entries.filter (fun e =>
      e.summary == some "summarizing..." && e.group_id.isSome), e.id ≠ rid := by
    intro e he hird
    rcases List.mem_filter.mp he with ⟨hmem, hcond⟩
    rw [hfz e hmem hird] at hcond
    simp at hcond
  rw [check_parent_summary]
  revert hsnap
  generalize db.entries.filter (fun e =>
    e.summary == some "summarizing..." && e.group_id.isSome) = snap
  suffices H : ∀ (snap : List Entry) (acc : DB), (∀ e ∈ snap, e.id ≠ rid) →
      FrozenEmpty rid acc →
      FrozenEmpty rid (snap.foldl (fun acc e =>
        match e.group_id with
        | none => acc
        | some g =>
          match acc.entries.find? (fun p =>
              p.id == g && p.summary.isSome && p.summary != some "summarizing...") with
          | none => acc
          | some p =>
            { acc with entries := acc.entries.map fun x =>
                if x.id == e.id then { x with summary := p.summary, etype := p.etype }
                else x }) acc) by
    intro hsnap
    exact H snap db hsnap ⟨hex, hnd, hfz⟩
  intro snap
  induction snap with
  | nil => intro acc _ hacc; exact hacc
  | cons e tl ih =>
    intro acc hsnap hacc
    rw [List.foldl_cons]
    refine ih _ (fun x hx => hsnap x (List.mem_cons_of_mem e hx)) ?_
    have herid : e.id ≠ rid := hsnap e (List.mem_cons_self e tl)
    rcases hge : e.group_id with _ | g
    · simpa [hge] using hacc
    · simp only [hge]
      rcases hfp : acc.entries.find? (fun p =>
          p.id == g && p.summary.isSome && p.summary != some "summarizing...") with _ | p
      · simp only [hfp]
        exact hacc
      · simp only [hfp]
        refine frozenEmpty_map rid acc _ _ ?_ ?_ hacc
        · intro x
          by_cases hb : (x.id == e.id) = true
          · rw [if_pos hb]
          · rw [if_neg hb]
        · intro x _ hxid
          rw [if_neg (by simp only [beq_iff_eq]; rw [hxid]; simpa using herid.symm)]

/-- A capture insert keeps the frozen-entry invariant: the fresh
AUTOINCREMENT id is strictly larger than every existing id, hence not `rid`. -/
theorem frozenEmpty_insert (rid : Nat) (db : DB) (ts : Nat) (content : String)
    (h : FrozenEmpty rid db) : FrozenEmpty rid (insertClip db ts content) := by
  obtain ⟨⟨w, hw, hwid⟩, hnd, hfz⟩ := h
  have hnew : ∀ a ∈ db.entries,
      a.id < (db.entries.foldl (fun m e => max m e.id) 0) + 1 := by
    intro a ha
    exact Nat.lt_succ_of_le (mem_le_foldl_max db.entries 0 a ha)
  rw [insertClip]
  refine ⟨⟨w, by simp [hw], hwid⟩, ?_, ?_⟩
  · rw [List.map_append]
    simp only [List.map_cons, List.map_nil]
    rw [List.nodup_append]
    refine ⟨hnd, List.nodup_singleton _, ?_⟩
    intro a ha hb
    rcases List.mem_map.mp ha with ⟨x, hx, rfl⟩
    simp only [List.mem_singleton] at hb
    exact absurd hb (Nat.ne_of_lt (hnew x hx))
  · intro e he hid
    rcases List.mem_append.mp he with h1 | h1
    · exact hfz e h1 hid
    · simp only [List.mem_singleton] at h1
      subst h1
      simp only [] at hid
      exact absurd (hid ▸ hnew w hw) (by rw [hwid]; simp)

/-- Startup recovery keeps the frozen-entry invariant (the empty-string
summary is not the pending sentinel). -/
theorem frozenEmpty_recover (rid : Nat) (db : DB) (h : FrozenEmpty rid db) :
    FrozenEmpty rid (recoverStuckEntries db) := by
  rw [recoverStuckEntries]
  refine frozenEmpty_map rid db _ _ ?_ ?_ h
  · intro e
    by_cases hb : (e.summary == some "summarizing...") = true
    · rw [if_pos hb]
    · rw [if_neg hb]
  · intro e he hid
    rw [if_neg (by rw [h.2.2 e he hid]; simp)]

/-- The frozen-entry invariant reads only the entries table. -/
theorem frozenEmpty_entries_congr (rid : Nat) (db1 db2 : DB)
    (h : db1.entries = db2.entries) (hf : FrozenEmpty rid db1) : FrozenEmpty rid db2 := by
  rw [FrozenEmpty, ← h]
  exact hf

/-- The row update of `update_entry_with_group` keeps the frozen-entry
invariant when it targets a different id. -/
theorem frozenEmpty_update (rid : Nat) (db : DB) (eid gid : Nat)
    (s t : Option String) (sid : Option Nat) (sc : Option ℚ)
    (hne : eid ≠ rid) (h : FrozenEmpty rid db) :
    FrozenEmpty rid (update_entry_with_group db eid gid s t sid sc) := by
  have base : FrozenEmpty rid
      (⟨db.entries.map (fun e =>
          if e.id == eid then { e with summary := s, etype := t, group_id := some gid }
          else e), []⟩ : DB) := by
    refine frozenEmpty_map rid db _ _ ?_ ?_ h
    · intro e
      by_cases hb : (e.id == eid) = true
      · rw [if_pos hb]
      · rw [if_neg hb]
    · intro e _ hid
      rw [if_neg (by simp only [beq_iff_eq]; rw [hid]; exact fun hc => hne hc.symm)]
  exact frozenEmpty_entries_congr rid _ _ (by rfl) base

/-- The claim step keeps the frozen-entry invariant when it targets a
different id. -/
theorem frozenEmpty_claim (rid : Nat) (db : DB) (eid : Nat)
    (hne : eid ≠ rid) (h : FrozenEmpty rid db) :
    FrozenEmpty rid (claimEntry db eid) := by
  have base : FrozenEmpty rid
      (⟨db.entries.map (fun e =>
          if e.id == eid then { e with summary := some "summarizing..." }
          else e), []⟩ : DB) := by
    refine frozenEmpty_map rid db _ _ ?_ ?_ h
    · intro e
      by_cases hb : (e.id == eid) = true
      · rw [if_pos hb]
      · rw [if_neg hb]
    · intro e _ hid
      rw [if_neg (by simp only [beq_iff_eq]; rw [hid]; exact fun hc => hne hc.symm)]
  exact frozenEmpty_entries_congr rid _ _ (by rfl) base

/-- One polling iteration keeps the frozen-entry invariant: the selected row
has a NULL summary, so it is never the frozen row, and every write in the
iteration targets the selected row only. -/
theorem frozenEmpty_poll (rid : Nat) (cfg : Config) (cutoff : Nat) (db : DB)
    (h : FrozenEmpty rid db) : FrozenEmpty rid (poll_and_summarize_step cfg cutoff db) := by
  have h1 := frozenEmpty_sweep rid db h
  rw [poll_and_summarize_step]
  rcases hps : pollSelect (check_parent_summary db) cfg.triggerLen cutoff with _ | row
  · simpa [hps] using h1
  · have hrowmem := pollSelect_mem hps
    have hrowid : row.id ≠ rid := by
      intro hr
      have h2 := h1.2.2 row hrowmem.1 hr
      rw [hrowmem.2] at h2
      exact absurd h2 (by simp)
    simp only [hps]
    rcases hgr : row.group_id with _ | g
    · simp only [hgr]
      rcases hfs : find_similar_entries (check_parent_summary db) row.content
          cfg.similarityThreshold (some row.id) 0 cfg.maxEntries (some cutoff) false
          with _ | m
      · simp only [hfs]
        exact frozenEmpty_claim rid _ row.id hrowid h1
      · simp only [hfs]
        exact frozenEmpty_update rid _ row.id _ _ _ _ _ hrowid h1
    · simp only [hgr]
      rcases hcg : check_group_for_summary (check_parent_summary db) row.id g
          with _ | st
      · simp only [hcg]
        rcases hfs : find_similar_entries (check_parent_summary db) row.content
            cfg.similarityThreshold (some row.id) 0 cfg.maxEntries (some cutoff) false
            with _ | m
        · simp only [hfs]
          exact frozenEmpty_claim rid _ row.id hrowid h1
        · simp only [hfs]
          exact frozenEmpty_update rid _ row.id _ _ _ _ _ hrowid h1
      · simp only [hcg]
        exact frozenEmpty_update rid _ row.id _ _ _ _ _ hrowid h1

/-- Any sequence of worker operations keeps the frozen-entry invariant. -/
theorem frozenEmpty_applyOps (rid : Nat) (cfg : Config) :
    ∀ (ops : List WorkerOp) (db : DB), FrozenEmpty rid db →
      FrozenEmpty rid (applyOps cfg ops db) := by
  intro ops
  induction ops with
  | nil => intro db h; exact h
  | cons op tl ih =>
    intro db h
    rw [applyOps, List.foldl_cons]
    refine ih _ ?_
    rcases op with ⟨ts, content⟩ | cutoff | _
    · exact frozenEmpty_insert rid db ts content h
    · exact frozenEmpty_poll rid cfg cutoff db h
    · exact frozenEmpty_recover rid db h

/-- **C10.** When the similarity-attach step fires with a match whose summary
and type are both NULL, the attached entry's summary and type are written as
the empty string `''` — not NULL, not the pending sentinel, not a failed
sentinel — and from then on, under any sequence of worker operations
(inserts, polling iterations, recovery resets), every row with that id keeps
the empty-string summary: the dispatch query (`summary IS NULL`) never
selects it again, so it is never re-dispatched, never marked pending, and
never marked failed. -/
theorem C10_attach_with_null_summary_freezes (db : DB) (rid : Nat)
    (m : SimilarMatch) (sid : Option Nat) (sc : Option ℚ) (cfg : Config)
    (hs : m.summary = none) (ht : m.etype = none)
    (hrid : ∃ e ∈ db.entries, e.id = rid)
    (hnodup : (db.entries.map Entry.id).Nodup) :
    (∀ e ∈ (update_entry_with_group db rid (attachRoot m)
        (some (orEmpty m.summary)) (some (orEmpty m.etype)) sid sc).entries,
      e.id = rid → e.summary = some "" ∧ e.etype = some "") ∧
    ((some "" : Option String) ≠ none ∧ "" ≠ "summarizing..." ∧
      isFailSentinel "" = false) ∧
    (∀ ops : List WorkerOp, ∀ e ∈ (applyOps cfg ops (update_entry_with_group db rid
        (attachRoot m) (some (orEmpty m.summary)) (some (orEmpty m.etype)) sid sc)).entries,
      e.id = rid → e.summary = some "") ∧
    (∀ ops : List WorkerOp, ∀ trigger cutoff e,
      pollSelect (applyOps cfg ops (update_entry_with_group db rid (attachRoot m)
          (some (orEmpty m.summary)) (some (orEmpty m.etype)) sid sc)) trigger cutoff =
        some e → e.id ≠ rid) := by
  have hoe1 : orEmpty m.summary = "" := by rw [hs]; rfl
  have hoe2 : orEmpty m.etype = "" := by rw [ht]; rfl
  have hset : ∀ e ∈ (update_entry_with_group db rid (attachRoot m)
      (some (orEmpty m.summary)) (some (orEmpty m.etype)) sid sc).entries,
      e.id = rid → e.summary = some "" ∧ e.etype = some "" := by
    intro e he hid
    rcases List.mem_map.mp he with ⟨x0, _, rfl⟩
    by_cases hb : (x0.id == rid) = true
    · rw [if_pos hb]
      exact ⟨by rw [hoe1], by rw [hoe2]⟩
    · exfalso
      rw [if_neg hb] at hid
      exact absurd (beq_iff_eq.mpr hid) (by simpa using hb)
  have hfrz : FrozenEmpty rid (update_entry_with_group db rid (attachRoot m)
      (some (orEmpty m.summary)) (some (orEmpty m.etype)) sid sc) := by
    obtain ⟨w, hw, hwid⟩ := hrid
    have base : FrozenEmpty rid
        (DB.mk (db.entries.map (fun e =>
            if e.id == rid then
              { e with
                summary := some (orEmpty m.summary),
                etype := some (orEmpty m.etype),
                group_id := some (attachRoot m) }
            else e)) []) := by
      refine ⟨?_, ?_, ?_⟩
      · refine ⟨_, List.mem_map_of_mem _ hw, ?_⟩
        by_cases hb : (w.id == rid) = true
        · rw [if_pos hb]
          exact hwid
        · rw [if_neg hb]
          exact hwid
      · rw [map_entries_id]
        · exact hnodup
        · intro e
          by_cases hb : (e.id == rid) = true
          · rw [if_pos hb]
          · rw [if_neg hb]
      · intro e he hid
        rcases List.mem_map.mp he with ⟨x0, _, rfl⟩
        by_cases hb : (x0.id == rid) = true
        · rw [if_pos hb]
          rw [hoe1]
        · exfalso
          rw [if_neg hb] at hid
          exact absurd (beq_iff_eq.mpr hid) (by simpa using hb)
    exact frozenEmpty_entries_congr rid _ _ (by rfl) base
  refine ⟨hset, ⟨by simp, by decide, by decide⟩, ?_, ?_⟩
  · intro ops e he hid
    exact (frozenEmpty_applyOps rid cfg ops _ hfrz).2.2 e he hid
  · intro ops trigger cutoff e hsel hid
    have hmem := pollSelect_mem hsel
    have h2 := (frozenEmpty_applyOps rid cfg ops _ hfrz).2.2 e hmem.1 hid
    rw [hmem.2] at h2
    exact absurd h2 (by simp)

/-- **C10 (witness).** The theorem applied at a concrete attach: entry 2
attaches to a match with NULL summary and type; its summary and type become
`''` and one subsequent polling iteration leaves its summary `''`. -/
theorem C10_attach_with_null_summary_freezes_witness :
    (⟨2, 7, "abcd", some "", some "", some 1⟩ : Entry) ∈
      (applyOps ⟨3, 90, 1000⟩ [WorkerOp.recover]
        (update_entry_with_group
          ⟨[⟨1, 5, "abcd", none, none, none⟩, ⟨2, 7, "abcd", none, none, none⟩], []⟩ 2
          (attachRoot ⟨1, "abcd", none, none, none, 100⟩)
          (some (orEmpty (none : Option String))) (some (orEmpty (none : Option String)))
          (some 1) (some 100))).entries ∧
    (⟨2, 7, "abcd", some "", some "", some 1⟩ : Entry).summary = some "" :=
  ⟨by decide,
    (C10_attach_with_null_summary_freezes
      ⟨[⟨1, 5, "abcd", none, none, none⟩, ⟨2, 7, "abcd", none, none, none⟩], []⟩ 2
      ⟨1, "abcd", none, none, none, 100⟩ (some 1) (some 100) ⟨3, 90, 1000⟩
      rfl rfl ⟨⟨2, 7, "abcd", none, none, none⟩, by decide, rfl⟩
      (by decide)).2.2.1 [WorkerOp.recover]
      ⟨2, 7, "abcd", some "", some "", some 1⟩ (by decide) rfl⟩

/-- If no fence matches anywhere, none matches in the tail either. -/
theorem fenceSearch_none_tail {c : Char} {rest : List Char}
    (h : fenceSearch (c :: rest) = none) : fenceSearch rest = none := by
  rw [fenceSearch] at h
  by_cases hp : "```json".data.isPrefixOf (c :: rest) = true
  · rw [if_pos hp] at h
    rcases hb : fenceBodyAt ((c :: rest).drop 7) with _ | g
    · rw [hb] at h
      exact h
    · rw [hb] at h
      exact absurd h (by simp)
  · rw [if_neg hp] at h
    exact h

/-- If no fence matches in a text, none matches after dropping a prefix. -/
theorem fenceSearch_none_append {ws l : List Char}
    (h : fenceSearch (ws ++ l) = none) : fenceSearch l = none := by
  induction ws with
  | nil => exact h
  | cons c tl ih => exact ih (fenceSearch_none_tail h)

/-- **C9 (counterexample).** A well-formed JSON object preceded by extraneous
prose is **not** found: the fallback regex `^\s*(\{.*)` is anchored at the
start of the text, so `extract_json_block` returns `None` even though the
object itself parses fine. -/
theorem C9_counterexample :
    extract_json_block "hello \x7b\"a\": 1\x7d" = none ∧
    loads "\x7b\"a\": 1\x7d" = some (JsonVal.obj [("a", JsonVal.num 1)]) := by
  constructor
  · rfl
  · rfl

/-- **C9 (amended).** A json-tagged fenced block, when the fence pattern
matches, is preferred as the candidate region; with no fence, the candidate
region is the whole text from the first `{` onward **only when every
character before that `{` is whitespace** (leading whitespace is simply
dropped); when the first non-whitespace character is not `{` — in
particular, when a well-formed object is preceded by prose — no candidate is
found and the extractor returns `None`. -/
theorem C9_amended (text : String) :
    (∀ g, fenceSearch text.data = some g → extract_json_block text = some (String.mk g)) ∧
    (fenceSearch text.data = none →
      ∀ ws rest, text.data = ws ++ '{' :: rest → (∀ c ∈ ws, reWs c = true) →
        extract_json_block text = extract_json_block (String.mk ('{' :: rest))) ∧
    (fenceSearch text.data = none →
      (∀ rest, text.data.dropWhile reWs ≠ '{' :: rest) →
      extract_json_block text = none) := by
  refine ⟨?_, ?_, ?_⟩
  · intro g hg
    rw [extract_json_block, hg]
  · intro hf ws rest hsplit hws
    have hdw : text.data.dropWhile reWs = '{' :: rest := by
      rw [hsplit]
      rw [List.dropWhile_append]
      simp only [List.dropWhile_eq_nil_iff.mpr (fun x hx => hws x hx),
        List.isEmpty_nil, if_true]
      rw [List.dropWhile_cons_of_neg (by rw [show reWs '{' = false from rfl]; simp)]
    have hf2 : fenceSearch ('{' :: rest) = none := by
      rw [hsplit] at hf
      exact fenceSearch_none_append hf
    rw [extract_json_block, hf, hdw, extract_json_block]
    rw [show (String.mk ('{' :: rest)).data = '{' :: rest from rfl, hf2]
    rw [show ('{' :: rest).dropWhile reWs = '{' :: rest from
      List.dropWhile_cons_of_neg (by rw [show reWs '{' = false from rfl]; simp)]
  · intro hf hh
    rw [extract_json_block, hf]
    rcases hdw : text.data.dropWhile reWs with _ | ⟨c, bs⟩
    · rfl
    · by_cases hc : c = '{'
      · exact absurd (hc ▸ hdw) (hh bs)
      · show (match c :: bs with
          | '{' :: bs =>
            let raw := '{' :: bs
            match balanceScanGo raw 0 0 false false with
            | (some endIdx, _) => some (String.mk (raw.take endIdx))
            | (none, depth) => some (String.mk (raw ++ List.replicate depth.toNat '}'))
          | _ => none) = none
        split
        · next bs2 heq =>
          injection heq with h1 _
          exact absurd h1 hc
        · rfl

/-- **C9 (witness).** The amended theorem applied concretely: two leading
spaces before the object are dropped, giving the same candidate as the bare
object. -/
theorem C9_amended_witness :
    extract_json_block "  \x7b\"a\": 1\x7d" =
      extract_json_block (String.mk ('{' :: "\"a\": 1\x7d".data)) :=
  (C9_amended "  \x7b\"a\": 1\x7d").2.1 (by rfl) [' ', ' '] "\"a\": 1\x7d".data
    (by rfl) (by decide)

/-- **C7 (counterexample).** Truncating
`{"type": "a", "content": "hello"}` 3 bytes into the value of `content`
(well past its opening quote) makes `extract` return `"hel}"` — non-empty,
but **not** a prefix of `"hello"`: the brace-balancing repair closes the
dangling brace but not the unterminated string, so the repaired candidate is
still invalid JSON and the appended `}` leaks into the regex-extracted
value. -/
theorem C7_counterexample :
    extract_json (String.mk ((serializeVal (JsonVal.obj
        [("type", JsonVal.str "a"), ("content", JsonVal.str "hello")])).take 29))
        "content" = some "hel\x7d" ∧
    "hel\x7d".data.isPrefixOf "hello".data = false ∧
    ("hel\x7d" : String) ≠ "" ∧
    extract_json_block (String.mk ((serializeVal (JsonVal.obj
        [("type", JsonVal.str "a"), ("content", JsonVal.str "hello")])).take 29)) =
      some (String.mk (((serializeVal (JsonVal.obj
        [("type", JsonVal.str "a"), ("content", JsonVal.str "hello")])).take 29) ++
        ['\x7d'])) ∧
    loads (String.mk (((serializeVal (JsonVal.obj
        [("type", JsonVal.str "a"), ("content", JsonVal.str "hello")])).take 29) ++
        ['\x7d'])) = none := by
  refine ⟨by decide, by decide, by decide, by decide, by rfl⟩

/-- **C8 (counterexample).** The round-trip fails for a well-formed object
whose string value contains a ```json fence: the fence regex hijacks the
braces inside the string as the candidate region, the hijacked fragment does
not parse, and `extract` returns the empty string instead of the field
value. -/
theorem C8_counterexample :
    extract_json (serialize (JsonVal.obj [("f", JsonVal.str "```json \x7bx\x7d ```")]))
        "f" = some "" ∧
    stringifyField (JsonVal.str "```json \x7bx\x7d ```") = "```json \x7bx\x7d ```" ∧
    ("" : String) ≠ "```json \x7bx\x7d ```" := by
  refine ⟨by decide, by decide, by decide⟩

/-! ### Serializer/parser round-trip machinery (C7, C8) -/

/-- A backtick-free text contains no json fence. -/
theorem fenceSearch_none_of_no_backtick (l : List Char)
    (h : ∀ c ∈ l, c ≠ '`') : fenceSearch l = none := by
  induction l with
  | nil => rfl
  | cons c rest ih =>
    rw [fenceSearch]
    have hp : ("```json".data.isPrefixOf (c :: rest)) = false := by
      rcases hb : "```json".data.isPrefixOf (c :: rest)
      · rfl
      · exfalso
        have hstep : "```json".data.isPrefixOf (c :: rest) =
            ('`' == c && "``json".data.isPrefixOf rest) := rfl
        rw [hstep] at hb
        simp only [Bool.and_eq_true, beq_iff_eq] at hb
        exact h c (List.mem_cons_self c rest) hb.1.symm
    rw [if_neg (by simp [hp])]
    exact ih (fun x hx => h x (List.mem_cons_of_mem c hx))

/-- Unpacked form of the plain-character class. -/
theorem plainChar_spec {c : Char} (h : plainChar c = true) :
    c ≠ '"' ∧ c ≠ '\\' ∧ c ≠ '{' ∧ c ≠ '}' ∧ c ≠ '`' ∧
    c ≠ '\n' ∧ c ≠ '\t' ∧ c ≠ '\x0d' := by
  rw [plainChar] at h
  simp only [Bool.and_eq_true, bne_iff_ne, ne_eq] at h
  exact ⟨h.1.1.1.1.1.1.1, h.1.1.1.1.1.1.2, h.1.1.1.1.1.2, h.1.1.1.1.2,
    h.1.1.1.2, h.1.1.2, h.1.2, h.2⟩

/-- Plain characters serialize to themselves. -/
theorem jsonEscapeChar_plain {c : Char} (h : plainChar c = true) :
    jsonEscapeChar c = [c] := by
  obtain ⟨h1, h2, _, _, _, h6, h7, h8⟩ := plainChar_spec h
  rw [jsonEscapeChar, if_neg (by simpa using h1), if_neg (by simpa using h2),
    if_neg (by simpa using h6), if_neg (by simpa using h7),
    if_neg (by simpa using h8)]

/-- String-body step: a closing quote ends the literal. -/
theorem parseStringBody_cons_quote (rest : List Char) :
    parseStringBody ('"' :: rest) = some ([], rest) := by
  rw [parseStringBody.eq_def]
  rfl

/-- String-body step: an unescaped ordinary character is copied. -/
theorem parseStringBody_cons_plain {c : Char} (rest : List Char)
    (h1 : c ≠ '"') (h2 : c ≠ '\\') :
    parseStringBody (c :: rest) = (parseStringBody rest).map fun p => (c :: p.1, p.2) := by
  rw [parseStringBody.eq_def]
  simp only [if_neg (show ¬((c == '"') = true) by simpa using h1),
    if_neg (show ¬((c == '\\') = true) by simpa using h2)]

/-- String-body step: a non-`u` escape decodes through `escChar`. -/
theorem parseStringBody_cons_escape (e : Char) (X : List Char) (he : e ≠ 'u') :
    parseStringBody ('\\' :: e :: X) =
      match escChar e with
      | some dc => (parseStringBody X).map fun p => (dc :: p.1, p.2)
      | none => none := by
  rw [parseStringBody.eq_def]
  simp only [if_neg (show ¬(('\\' == '"') = true) by decide),
    if_pos (show (('\\' == '\\') = true) by decide),
    if_neg (show ¬((e == 'u') = true) by simpa using he)]

/-- A quote-free, backslash-free tail never closes a string literal. -/
theorem parseStringBody_no_quote (cs : List Char)
    (h : ∀ c ∈ cs, c ≠ '"' ∧ c ≠ '\\') : parseStringBody cs = none := by
  induction cs with
  | nil => rfl
  | cons c rest ih =>
    obtain ⟨h1, h2⟩ := h c (List.mem_cons_self c rest)
    rw [parseStringBody_cons_plain rest h1 h2,
      ih (fun x hx => h x (List.mem_cons_of_mem c hx))]
    rfl

/-- Decoding inverts `json.dumps` string escaping, for every string. -/
theorem parseStringBody_roundtrip (s : List Char) : ∀ (rest : List Char),
    parseStringBody (s.flatMap jsonEscapeChar ++ '"' :: rest) = some (s, rest) := by
  induction s with
  | nil =>
    intro rest
    rw [List.flatMap_nil, List.nil_append, parseStringBody_cons_quote]
  | cons c tl ih =>
    intro rest
    rw [List.flatMap_cons, List.append_assoc]
    by_cases e1 : c = '"'
    · subst e1
      rw [show jsonEscapeChar '"' = ['\\', '"'] from rfl]
      rw [show (['\\', '"'] : List Char) ++ (tl.flatMap jsonEscapeChar ++ '"' :: rest) =
        '\\' :: '"' :: (tl.flatMap jsonEscapeChar ++ '"' :: rest) from rfl]
      rw [parseStringBody_cons_escape '"' _ (by decide), ih rest]
      rfl
    · by_cases e2 : c = '\\'
      · subst e2
        rw [show jsonEscapeChar '\\' = ['\\', '\\'] from rfl]
        rw [show (['\\', '\\'] : List Char) ++ (tl.flatMap jsonEscapeChar ++ '"' :: rest) =
          '\\' :: '\\' :: (tl.flatMap jsonEscapeChar ++ '"' :: rest) from rfl]
        rw [parseStringBody_cons_escape '\\' _ (by decide), ih rest]
        rfl
      · by_cases e3 : c = '\n'
        · subst e3
          rw [show jsonEscapeChar '\n' = ['\\', 'n'] from rfl]
          rw [show (['\\', 'n'] : List Char) ++ (tl.flatMap jsonEscapeChar ++ '"' :: rest) =
            '\\' :: 'n' :: (tl.flatMap jsonEscapeChar ++ '"' :: rest) from rfl]
          rw [parseStringBody_cons_escape 'n' _ (by decide), ih rest]
          rfl
        · by_cases e4 : c = '\t'
          · subst e4
            rw [show jsonEscapeChar '\t' = ['\\', 't'] from rfl]
            rw [show (['\\', 't'] : List Char) ++ (tl.flatMap jsonEscapeChar ++ '"' :: rest) =
              '\\' :: 't' :: (tl.flatMap jsonEscapeChar ++ '"' :: rest) from rfl]
            rw [parseStringBody_cons_escape 't' _ (by decide), ih rest]
            rfl
          · by_cases e5 : c = '\x0d'
            · subst e5
              rw [show jsonEscapeChar '\x0d' = ['\\', 'r'] from rfl]
              rw [show (['\\', 'r'] : List Char) ++ (tl.flatMap jsonEscapeChar ++ '"' :: rest) =
                '\\' :: 'r' :: (tl.flatMap jsonEscapeChar ++ '"' :: rest) from rfl]
              rw [parseStringBody_cons_escape 'r' _ (by decide), ih rest]
              rfl
            · rw [show jsonEscapeChar c = [c] from by
                rw [jsonEscapeChar, if_neg (by simpa using e1), if_neg (by simpa using e2),
                  if_neg (by simpa using e3), if_neg (by simpa using e4),
                  if_neg (by simpa using e5)]]
              rw [List.cons_append, List.nil_append,
                parseStringBody_cons_plain _ e1 e2, ih rest]
              rfl

/-- `Nat.digitChar` below 10 yields a digit character with the expected code. -/
theorem digitChar_spec (d : Nat) (h : d < 10) :
    (Nat.digitChar d).isDigit = true ∧ (Nat.digitChar d).toNat = 48 + d := by
  interval_cases d <;> exact ⟨by decide, by decide⟩

/-- The fueled digit printer: nonempty, all digits, and the parser's fold
recovers the number. -/
theorem natDigitsF_spec : ∀ (f n : Nat), n < f →
    natDigitsF f n ≠ [] ∧ (∀ c ∈ natDigitsF f n, c.isDigit = true) ∧
    ∀ (a : Nat), (natDigitsF f n).foldl (fun acc c => acc * 10 + (c.toNat - '0'.toNat)) a =
      a * 10 ^ (natDigitsF f n).length + n := by
  intro f
  induction f with
  | zero => intro n hn; exact absurd hn (Nat.not_lt_zero n)
  | succ f ih =>
    intro n hn
    rw [natDigitsF]
    by_cases h10 : n < 10
    · rw [if_pos h10]
      refine ⟨by simp, ?_, ?_⟩
      · intro c hc
        rw [List.mem_singleton] at hc
        subst hc
        exact (digitChar_spec n h10).1
      · intro a
        rw [List.foldl_cons, List.foldl_nil, List.length_singleton, pow_one]
        rw [(digitChar_spec n h10).2, show ('0'.toNat : Nat) = 48 from rfl]
        omega
    · rw [if_neg h10]
      have hdiv : n / 10 < f := by omega
      obtain ⟨hne, hdig, hval⟩ := ih (n / 10) hdiv
      refine ⟨?_, ?_, ?_⟩
      · intro hcontra
        exact absurd (List.append_eq_nil.mp hcontra).1 hne
      · intro c hc
        rcases List.mem_append.mp hc with hl | hr
        · exact hdig c hl
        · rw [List.mem_singleton] at hr
          subst hr
          exact (digitChar_spec (n % 10) (Nat.mod_lt n (by omega))).1
      · intro a
        rw [List.foldl_append, hval a, List.foldl_cons, List.foldl_nil,
          List.length_append, List.length_singleton,
          (digitChar_spec (n % 10) (Nat.mod_lt n (by omega))).2,
          show ('0'.toNat : Nat) = 48 from rfl, pow_succ, Nat.add_mul, ← Nat.mul_assoc]
        omega

/-- The digit printer for a bare natural number. -/
theorem natDigits_spec (n : Nat) :
    natDigits n ≠ [] ∧ (∀ c ∈ natDigits n, c.isDigit = true) ∧
    (natDigits n).foldl (fun acc c => acc * 10 + (c.toNat - '0'.toNat)) 0 = n := by
  obtain ⟨h1, h2, h3⟩ := natDigitsF_spec (n + 1) n (Nat.lt_succ_self n)
  refine ⟨h1, h2, ?_⟩
  rw [natDigits, h3 0]
  simp

/-- `takeWhile isDigit` over digits followed by a non-digit boundary. -/
theorem takeWhile_digits (ds rest : List Char) (hds : ∀ c ∈ ds, c.isDigit = true)
    (hrest : ∀ c, rest.head? = some c → c.isDigit = false) :
    (ds ++ rest).takeWhile Char.isDigit = ds := by
  induction ds with
  | nil =>
    rcases rest with _ | ⟨r, rtl⟩
    · rfl
    · rw [List.nil_append, List.takeWhile_cons_of_neg]
      simp [hrest r rfl]
  | cons d dtl ih =>
    rw [List.cons_append,
      List.takeWhile_cons_of_pos (hds d (List.mem_cons_self d dtl)),
      ih (fun c hc => hds c (List.mem_cons_of_mem d hc))]

/-- The digit-run parser inverts the digit printer. -/
theorem parseDigits_spec (n : Nat) (rest : List Char)
    (hrest : ∀ c, rest.head? = some c → c.isDigit = false) :
    parseDigits (natDigits n ++ rest) = some (n, rest) := by
  obtain ⟨h1, h2, h3⟩ := natDigits_spec n
  have ht := takeWhile_digits (natDigits n) rest h2 hrest
  rw [parseDigits]
  simp only [ht]
  rw [if_neg (by simp [List.isEmpty_iff, h1])]
  rw [h3, List.drop_left]

/-- A digit is not JSON whitespace. -/
theorem isDigit_not_jsonWs {c : Char} (h : c.isDigit = true) : jsonWs c = false := by
  rcases hw : jsonWs c
  · rfl
  · exfalso
    rw [jsonWs] at hw
    simp only [Bool.or_eq_true, beq_iff_eq] at hw
    rcases hw with ((rfl | rfl) | rfl) | rfl <;> exact absurd h (by decide)

/-- A digit is not a comma, bracket, or brace. -/
theorem isDigit_not_delim {c : Char} (h : c.isDigit = true) :
    c ≠ ',' ∧ c ≠ ']' ∧ c ≠ '}' ∧ c ≠ '-' := by
  refine ⟨?_, ?_, ?_, ?_⟩ <;> (intro heq; rw [heq] at h; exact absurd h (by decide))

/-- The number parser inverts the integer printer. -/
theorem parseNum_intRepr (n : ℤ) (rest : List Char)
    (hrest : ∀ c, rest.head? = some c → c.isDigit = false) :
    parseNum (intRepr n ++ rest) = some (JsonVal.num n, rest) := by
  rw [intRepr]
  by_cases hn : n < 0
  · rw [if_pos hn, List.cons_append, parseNum]
    simp only [if_pos (show (('-' == '-') = true) by decide)]
    rw [parseDigits_spec n.natAbs rest hrest]
    have : (-(n.natAbs : ℤ)) = n := by omega
    rw [show (Option.map (fun p => (JsonVal.num (-(p.1 : ℤ)), p.2))
        (some (n.natAbs, rest))) = some (JsonVal.num (-(n.natAbs : ℤ)), rest) from rfl, this]
  · rw [if_neg hn]
    obtain ⟨h1, h2, _⟩ := natDigits_spec n.natAbs
    obtain ⟨d0, dtl, hD⟩ := List.exists_cons_of_ne_nil h1
    have hd0 : d0.isDigit = true := h2 d0 (by rw [hD]; exact List.mem_cons_self d0 dtl)
    have hd0m : d0 ≠ '-' := (isDigit_not_delim hd0).2.2.2
    rw [hD, List.cons_append, parseNum]
    simp only [if_neg (show ¬((d0 == '-') = true) by simpa using hd0m)]
    rw [← List.cons_append, ← hD, parseDigits_spec n.natAbs rest hrest]
    have : ((n.natAbs : ℤ)) = n := by omega
    rw [show (Option.map (fun p => (JsonVal.num ((p.1 : ℤ)), p.2))
        (some (n.natAbs, rest))) = some (JsonVal.num ((n.natAbs : ℤ)), rest) from rfl, this]

/-- Dropping a whitespace prefix stops at the first non-whitespace character. -/
theorem dropWhile_jsonWs_append (ws : List Char) {c : Char} (X : List Char)
    (hws : ∀ x ∈ ws, jsonWs x = true) (hc : jsonWs c = false) :
    (ws ++ c :: X).dropWhile jsonWs = c :: X := by
  induction ws with
  | nil =>
    rw [List.nil_append]
    exact List.dropWhile_cons_of_neg (by simp [hc])
  | cons w wtl ih =>
    rw [List.cons_append,
      List.dropWhile_cons_of_pos (hws w (List.mem_cons_self w wtl)),
      ih (fun x hx => hws x (List.mem_cons_of_mem w hx))]

/-- Every serialized value starts with a structural, non-whitespace character
that is not a closing delimiter. -/
theorem serializeVal_head (v : JsonVal) : ∃ c cs, serializeVal v = c :: cs ∧
    jsonWs c = false ∧ c ≠ ']' ∧ c ≠ '}' := by
  rcases v with s | n | b | _ | es | ms
  · exact ⟨'"', _, rfl, by decide, by decide, by decide⟩
  · rw [serializeVal, intRepr]
    by_cases hn : n < 0
    · rw [if_pos hn]
      exact ⟨'-', _, rfl, by decide, by decide, by decide⟩
    · rw [if_neg hn]
      obtain ⟨h1, h2, _⟩ := natDigits_spec n.natAbs
      obtain ⟨d0, dtl, hD⟩ := List.exists_cons_of_ne_nil h1
      have hd0 : d0.isDigit = true := h2 d0 (by rw [hD]; exact List.mem_cons_self d0 dtl)
      exact ⟨d0, dtl, hD, isDigit_not_jsonWs hd0, (isDigit_not_delim hd0).2.1,
        (isDigit_not_delim hd0).2.2.1⟩
  · rcases b with _ | _
    · exact ⟨'f', _, rfl, by decide, by decide, by decide⟩
    · exact ⟨'t', _, rfl, by decide, by decide, by decide⟩
  · exact ⟨'n', _, rfl, by decide, by decide, by decide⟩
  · exact ⟨'[', _, rfl, by decide, by decide, by decide⟩
  · exact ⟨'{', _, rfl, by decide, by decide, by decide⟩

/-- A digit is none of the value-dispatch trigger characters. -/
theorem isDigit_not_letters {c : Char} (h : c.isDigit = true) :
    c ≠ '"' ∧ c ≠ '{' ∧ c ≠ '[' ∧ c ≠ 't' ∧ c ≠ 'f' ∧ c ≠ 'n' := by
  refine ⟨?_, ?_, ?_, ?_, ?_, ?_⟩ <;>
    (intro heq; rw [heq] at h; exact absurd h (by decide))

/-- Value-parser step: a quote starts a string literal. -/
theorem parseVal_step_quote (f : Nat) (X R : List Char)
    (hdw : X.dropWhile jsonWs = '"' :: R) :
    parseVal (f + 1) X =
      (parseStringBody R).map fun p => (JsonVal.str (String.mk p.1), p.2) := by
  rw [parseVal.eq_def]
  simp only [hdw]
  rw [if_pos (by decide)]

/-- Value-parser step: an opening brace dispatches to the member parser. -/
theorem parseVal_step_obrace (f : Nat) (X R : List Char)
    (hdw : X.dropWhile jsonWs = '{' :: R) :
    parseVal (f + 1) X =
      match R.dropWhile jsonWs with
      | '}' :: r2 => some (JsonVal.obj [], r2)
      | r2 => parseMembers f r2 [] := by
  rw [parseVal.eq_def]
  simp only [hdw]
  rw [if_neg (by decide), if_pos (by decide)]

/-- Value-parser step: an opening bracket dispatches to the element parser. -/
theorem parseVal_step_obrack (f : Nat) (X R : List Char)
    (hdw : X.dropWhile jsonWs = '[' :: R) :
    parseVal (f + 1) X =
      match R.dropWhile jsonWs with
      | ']' :: r2 => some (JsonVal.arr [], r2)
      | r2 => parseElems f r2 [] := by
  rw [parseVal.eq_def]
  simp only [hdw]
  rw [if_neg (by decide), if_neg (by decide), if_pos (by decide)]

/-- Value-parser step: the `true` literal. -/
theorem parseVal_step_true (f : Nat) (X R : List Char)
    (hdw : X.dropWhile jsonWs = 't' :: R) :
    parseVal (f + 1) X =
      (if "rue".data.isPrefixOf R then some (JsonVal.bool true, R.drop 3) else none) := by
  rw [parseVal.eq_def]
  simp only [hdw]
  rw [if_neg (by decide), if_neg (by decide), if_neg (by decide), if_pos (by decide)]

/-- Value-parser step: the `false` literal. -/
theorem parseVal_step_false (f : Nat) (X R : List Char)
    (hdw : X.dropWhile jsonWs = 'f' :: R) :
    parseVal (f + 1) X =
      (if "alse".data.isPrefixOf R then some (JsonVal.bool false, R.drop 4) else none) := by
  rw [parseVal.eq_def]
  simp only [hdw]
  rw [if_neg (by decide), if_neg (by decide), if_neg (by decide), if_neg (by decide),
    if_pos (by decide)]

/-- Value-parser step: the `null` literal. -/
theorem parseVal_step_null (f : Nat) (X R : List Char)
    (hdw : X.dropWhile jsonWs = 'n' :: R) :
    parseVal (f + 1) X =
      (if "ull".data.isPrefixOf R then some (JsonVal.null, R.drop 3) else none) := by
  rw [parseVal.eq_def]
  simp only [hdw]
  rw [if_neg (by decide), if_neg (by decide), if_neg (by decide), if_neg (by decide),
    if_neg (by decide), if_pos (by decide)]

/-- Value-parser step: a sign or digit dispatches to the number parser. -/
theorem parseVal_step_num (f : Nat) (X R : List Char) (c : Char)
    (hdw : X.dropWhile jsonWs = c :: R)
    (h1 : c ≠ '"') (h2 : c ≠ '{') (h3 : c ≠ '[') (h4 : c ≠ 't') (h5 : c ≠ 'f')
    (h6 : c ≠ 'n') (h7 : (c == '-' || c.isDigit) = true) :
    parseVal (f + 1) X = parseNum (c :: R) := by
  rw [parseVal.eq_def]
  simp only [hdw]
  rw [if_neg (by simpa using h1), if_neg (by simpa using h2), if_neg (by simpa using h3),
    if_neg (by simpa using h4), if_neg (by simpa using h5), if_neg (by simpa using h6),
    if_pos h7]

/-- Member-parser step: unfold one iteration positioned at a key. -/
theorem parseMembers_step (f : Nat) (X R : List Char)
    (hdw : X.dropWhile jsonWs = '"' :: R) (acc : List (String × JsonVal)) :
    parseMembers (f + 1) X acc =
      match parseStringBody R with
      | none => none
      | some (k, r1) =>
        match r1.dropWhile jsonWs with
        | [] => none
        | c2 :: r2 =>
          if c2 == ':' then
            match parseVal f r2 with
            | none => none
            | some (v, r3) =>
              match r3.dropWhile jsonWs with
              | [] => none
              | c3 :: r4 =>
                if c3 == ',' then parseMembers f r4 (acc ++ [(String.mk k, v)])
                else if c3 == '}' then some (JsonVal.obj (acc ++ [(String.mk k, v)]), r4)
                else none
          else none := by
  rw [parseMembers.eq_def]
  simp only [hdw]
  rw [if_pos (by decide)]

/-- Element-parser step: unfold one iteration positioned at a value. -/
theorem parseElems_step (f : Nat) (X : List Char) (acc : List JsonVal) :
    parseElems (f + 1) X acc =
      match parseVal f X with
      | none => none
      | some (v, r1) =>
        match r1.dropWhile jsonWs with
        | [] => none
        | c :: r2 =>
          if c == ',' then parseElems f r2 (acc ++ [v])
          else if c == ']' then some (JsonVal.arr (acc ++ [v]), r2)
          else none := by
  rw [parseElems.eq_def]


theorem isPrefixOf_append_self (l t : List Char) : l.isPrefixOf (l ++ t) = true := by
  rw [List.isPrefixOf_iff_prefix]
  exact ⟨t, rfl⟩

/-- Member-parser composite step: key, colon, value, then the closing brace. -/
theorem parseMembers_step_last (f : Nat) (X R kd Y r4 : List Char) (v : JsonVal)
    (acc : List (String × JsonVal))
    (hdw : X.dropWhile jsonWs = '"' :: R)
    (hkey : parseStringBody R = some (kd, ':' :: Y))
    (hval : parseVal f Y = some (v, '}' :: r4)) :
    parseMembers (f + 1) X acc = some (JsonVal.obj (acc ++ [(String.mk kd, v)]), r4) := by
  rw [parseMembers.eq_def]
  simp only [hdw]
  rw [if_pos (by decide)]
  simp only [hkey, List.dropWhile_cons_of_neg (show ¬(jsonWs ':' = true) by decide),
    show ((':' == ':') = true) from rfl, if_true, hval,
    List.dropWhile_cons_of_neg (show ¬(jsonWs '}' = true) by decide),
    show (('}' == ',') = false) from rfl, Bool.false_eq_true, if_false,
    show (('}' == '}') = true) from rfl]

/-- Member-parser composite step: key, colon, value, then a comma. -/
theorem parseMembers_step_comma (f : Nat) (X R kd Y r4 : List Char) (v : JsonVal)
    (acc : List (String × JsonVal))
    (hdw : X.dropWhile jsonWs = '"' :: R)
    (hkey : parseStringBody R = some (kd, ':' :: Y))
    (hval : parseVal f Y = some (v, ',' :: r4)) :
    parseMembers (f + 1) X acc = parseMembers f r4 (acc ++ [(String.mk kd, v)]) := by
  rw [parseMembers.eq_def]
  simp only [hdw]
  rw [if_pos (by decide)]
  simp only [hkey, List.dropWhile_cons_of_neg (show ¬(jsonWs ':' = true) by decide),
    show ((':' == ':') = true) from rfl, if_true, hval,
    List.dropWhile_cons_of_neg (show ¬(jsonWs ',' = true) by decide),
    show ((',' == ',') = true) from rfl]

/-- Element-parser composite step: a value followed by the closing bracket. -/
theorem parseElems_step_close (f : Nat) (X r2 : List Char) (v : JsonVal)
    (acc : List JsonVal)
    (hval : parseVal f X = some (v, ']' :: r2)) :
    parseElems (f + 1) X acc = some (JsonVal.arr (acc ++ [v]), r2) := by
  rw [parseElems.eq_def]
  simp only [hval, List.dropWhile_cons_of_neg (show ¬(jsonWs ']' = true) by decide),
    show ((']' == ',') = false) from rfl, Bool.false_eq_true, if_false,
    show ((']' == ']') = true) from rfl, if_true]

/-- Element-parser composite step: a value followed by a comma. -/
theorem parseElems_step_comma (f : Nat) (X r2 : List Char) (v : JsonVal)
    (acc : List JsonVal)
    (hval : parseVal f X = some (v, ',' :: r2)) :
    parseElems (f + 1) X acc = parseElems f r2 (acc ++ [v]) := by
  rw [parseElems.eq_def]
  simp only [hval, List.dropWhile_cons_of_neg (show ¬(jsonWs ',' = true) by decide),
    show ((',' == ',') = true) from rfl, if_true]

mutual

theorem parseVal_roundtrip (v : JsonVal) : ∀ (f : Nat) (ws rest : List Char),
    (∀ x ∈ ws, jsonWs x = true) →
    (serializeVal v).length < f →
    (∀ c, rest.head? = some c → c.isDigit = false) →
    parseVal f (ws ++ serializeVal v ++ rest) = some (v, rest) := by
  intro f ws rest hws hf hrest
  rcases f with _ | f
  · exact absurd hf (Nat.not_lt_zero _)
  rcases v with s | n | b | _ | es | ms
  · have hdw : (ws ++ serializeVal (JsonVal.str s) ++ rest).dropWhile jsonWs
        = '"' :: (s.data.flatMap jsonEscapeChar ++ '"' :: rest) := by
      rw [show serializeVal (JsonVal.str s)
          = '"' :: (s.data.flatMap jsonEscapeChar ++ ['"']) from rfl]
      rw [List.append_assoc, List.cons_append]
      rw [show (s.data.flatMap jsonEscapeChar ++ ['"']) ++ rest
          = s.data.flatMap jsonEscapeChar ++ '"' :: rest by
        rw [List.append_assoc]; rfl]
      exact dropWhile_jsonWs_append ws _ hws (by decide)
    rw [parseVal_step_quote f _ _ hdw, parseStringBody_roundtrip s.data rest]
    rfl
  · by_cases hn : n < 0
    · have hrep : serializeVal (JsonVal.num n) = '-' :: natDigits n.natAbs := by
        rw [serializeVal, intRepr, if_pos hn]
      have hdw : (ws ++ serializeVal (JsonVal.num n) ++ rest).dropWhile jsonWs
          = '-' :: (natDigits n.natAbs ++ rest) := by
        rw [hrep, List.append_assoc, List.cons_append]
        exact dropWhile_jsonWs_append ws _ hws (by decide)
      rw [parseVal_step_num f _ _ '-' hdw (by decide) (by decide) (by decide) (by decide)
        (by decide) (by decide) (by decide)]
      rw [show '-' :: (natDigits n.natAbs ++ rest) = intRepr n ++ rest by
        rw [intRepr, if_pos hn, List.cons_append]]
      exact parseNum_intRepr n rest hrest
    · obtain ⟨h1, h2, _⟩ := natDigits_spec n.natAbs
      obtain ⟨d0, dtl, hD⟩ := List.exists_cons_of_ne_nil h1
      have hd0 : d0.isDigit = true := h2 d0 (by rw [hD]; exact List.mem_cons_self d0 dtl)
      have hrep : serializeVal (JsonVal.num n) = d0 :: dtl := by
        rw [serializeVal, intRepr, if_neg hn, hD]
      have hdw : (ws ++ serializeVal (JsonVal.num n) ++ rest).dropWhile jsonWs
          = d0 :: (dtl ++ rest) := by
        rw [hrep, List.append_assoc, List.cons_append]
        exact dropWhile_jsonWs_append ws _ hws (isDigit_not_jsonWs hd0)
      obtain ⟨l1, l2, l3, l4, l5, l6⟩ := isDigit_not_letters hd0
      rw [parseVal_step_num f _ _ d0 hdw l1 l2 l3 l4 l5 l6 (by rw [hd0]; simp)]
      rw [show d0 :: (dtl ++ rest) = intRepr n ++ rest by
        rw [intRepr, if_neg hn, hD, List.cons_append]]
      exact parseNum_intRepr n rest hrest
  · rcases b with _ | _
    · have hdw : (ws ++ serializeVal (JsonVal.bool false) ++ rest).dropWhile jsonWs
          = 'f' :: ("alse".data ++ rest) := by
        rw [show serializeVal (JsonVal.bool false) = 'f' :: "alse".data from rfl,
          List.append_assoc, List.cons_append]
        exact dropWhile_jsonWs_append ws _ hws (by decide)
      rw [parseVal_step_false f _ _ hdw, if_pos (isPrefixOf_append_self "alse".data rest)]
      rw [show ("alse".data ++ rest).drop 4 = rest from by
        rw [show (4 : Nat) = ("alse".data).length from rfl, List.drop_left]]
    · have hdw : (ws ++ serializeVal (JsonVal.bool true) ++ rest).dropWhile jsonWs
          = 't' :: ("rue".data ++ rest) := by
        rw [show serializeVal (JsonVal.bool true) = 't' :: "rue".data from rfl,
          List.append_assoc, List.cons_append]
        exact dropWhile_jsonWs_append ws _ hws (by decide)
      rw [parseVal_step_true f _ _ hdw, if_pos (isPrefixOf_append_self "rue".data rest)]
      rw [show ("rue".data ++ rest).drop 3 = rest from by
        rw [show (3 : Nat) = ("rue".data).length from rfl, List.drop_left]]
  · have hdw : (ws ++ serializeVal JsonVal.null ++ rest).dropWhile jsonWs
        = 'n' :: ("ull".data ++ rest) := by
      rw [show serializeVal JsonVal.null = 'n' :: "ull".data from rfl,
        List.append_assoc, List.cons_append]
      exact dropWhile_jsonWs_append ws _ hws (by decide)
    rw [parseVal_step_null f _ _ hdw, if_pos (isPrefixOf_append_self "ull".data rest)]
    rw [show ("ull".data ++ rest).drop 3 = rest from by
      rw [show (3 : Nat) = ("ull".data).length from rfl, List.drop_left]]
  · have hlen : (serializeVal (JsonVal.arr es)).length = (serializeElems es).length + 2 := by
      rw [serializeVal]
      simp
    have hdw : (ws ++ serializeVal (JsonVal.arr es) ++ rest).dropWhile jsonWs
        = '[' :: (serializeElems es ++ ']' :: rest) := by
      rw [show serializeVal (JsonVal.arr es) = '[' :: (serializeElems es ++ [']']) from by
        rw [serializeVal]; rfl]
      rw [List.append_assoc, List.cons_append]
      rw [show (serializeElems es ++ [']']) ++ rest = serializeElems es ++ ']' :: rest by
        rw [List.append_assoc]; rfl]
      exact dropWhile_jsonWs_append ws _ hws (by decide)
    rw [parseVal_step_obrack f _ _ hdw]
    rcases es with _ | ⟨e, tl⟩
    · rw [show serializeElems ([] : List JsonVal) = [] from rfl, List.nil_append]
      rw [show (']' :: rest).dropWhile jsonWs = ']' :: rest from
        List.dropWhile_cons_of_neg (by decide)]
      rfl
    · obtain ⟨c0, cs0, hser, hcws, hcr, hcb⟩ := serializeVal_head e
      obtain ⟨T, hT⟩ : ∃ T, serializeElems (e :: tl) = serializeVal e ++ T := by
        rcases tl with _ | ⟨e2, tl2⟩
        · exact ⟨[], by rw [serializeElems, List.append_nil]⟩
        · refine ⟨',' :: ' ' :: serializeElems (e2 :: tl2), ?_⟩
          rw [serializeElems]
          simp
      have hdw2 : (serializeElems (e :: tl) ++ ']' :: rest).dropWhile jsonWs
          = c0 :: (cs0 ++ (T ++ ']' :: rest)) := by
        rw [hT, hser, List.append_assoc, List.cons_append]
        exact List.dropWhile_cons_of_neg (by simp [hcws])
      rw [hdw2]
      split
      · next r2 heq =>
        exfalso
        injection heq with hh _
        exact hcr hh
      · next r2 heq =>
        rw [show c0 :: (cs0 ++ (T ++ ']' :: rest)) = [] ++ serializeElems (e :: tl) ++ ']' :: rest by
          rw [List.nil_append, hT, hser, List.append_assoc, List.cons_append]]
        exact parseElems_roundtrip (e :: tl) (by simp) f [] rest []
          (by simp) (by omega)
  · have hlen : (serializeVal (JsonVal.obj ms)).length = (serializeMembers ms).length + 2 := by
      rw [serializeVal]
      simp
    have hdw : (ws ++ serializeVal (JsonVal.obj ms) ++ rest).dropWhile jsonWs
        = '{' :: (serializeMembers ms ++ '}' :: rest) := by
      rw [show serializeVal (JsonVal.obj ms) = '{' :: (serializeMembers ms ++ ['}']) from by
        rw [serializeVal]; rfl]
      rw [List.append_assoc, List.cons_append]
      rw [show (serializeMembers ms ++ ['}']) ++ rest = serializeMembers ms ++ '}' :: rest by
        rw [List.append_assoc]; rfl]
      exact dropWhile_jsonWs_append ws _ hws (by decide)
    rw [parseVal_step_obrace f _ _ hdw]
    rcases ms with _ | ⟨⟨k, v1⟩, tl⟩
    · rw [show serializeMembers ([] : List (String × JsonVal)) = [] from rfl, List.nil_append]
      rw [show ('}' :: rest).dropWhile jsonWs = '}' :: rest from
        List.dropWhile_cons_of_neg (by decide)]
      rfl
    · obtain ⟨T, hT⟩ : ∃ T, serializeMembers ((k, v1) :: tl) = serializeStr k ++ T := by
        rcases tl with _ | ⟨p2, tl2⟩
        · exact ⟨':' :: ' ' :: serializeVal v1, by rw [serializeMembers]⟩
        · refine ⟨':' :: ' ' :: serializeVal v1 ++ ',' :: ' ' :: serializeMembers (p2 :: tl2), ?_⟩
          rw [serializeMembers]
          · rw [List.append_assoc]
          · simp
      have hdw2 : (serializeMembers ((k, v1) :: tl) ++ '}' :: rest).dropWhile jsonWs
          = '"' :: ((k.data.flatMap jsonEscapeChar ++ ['"']) ++ (T ++ '}' :: rest)) := by
        rw [hT, show serializeStr k = '"' :: (k.data.flatMap jsonEscapeChar ++ ['"']) from rfl,
          List.append_assoc, List.cons_append]
        exact List.dropWhile_cons_of_neg (by decide)
      rw [hdw2]
      split
      · next r2 heq =>
        exfalso
        injection heq with hh _
        exact absurd hh (by decide)
      · next r2 heq =>
        rw [show '"' :: ((k.data.flatMap jsonEscapeChar ++ ['"']) ++ (T ++ '}' :: rest))
            = [] ++ serializeMembers ((k, v1) :: tl) ++ '}' :: rest by
          rw [List.nil_append, hT,
            show serializeStr k = '"' :: (k.data.flatMap jsonEscapeChar ++ ['"']) from rfl]
          simp [List.append_assoc]]
        exact parseMembers_roundtrip ((k, v1) :: tl) (by simp) f [] rest []
          (by simp) (by omega)

theorem parseMembers_roundtrip (ms : List (String × JsonVal)) : ms ≠ [] →
    ∀ (f : Nat) (ws rest : List Char) (acc : List (String × JsonVal)),
    (∀ x ∈ ws, jsonWs x = true) →
    (serializeMembers ms).length + 1 < f →
    parseMembers f (ws ++ serializeMembers ms ++ '}' :: rest) acc =
      some (JsonVal.obj (acc ++ ms), rest) := by
  intro hne f ws rest acc hws hm
  rcases ms with _ | ⟨⟨k, v1⟩, tl⟩
  · exact absurd rfl hne
  rcases f with _ | f
  · exact absurd hm (Nat.not_lt_zero _)
  have hsl : (serializeStr k).length = (k.data.flatMap jsonEscapeChar).length + 2 := by
    rw [serializeStr]
    simp
  rcases tl with _ | ⟨⟨k2, v2⟩, tl2⟩
  · have hmlen : (serializeMembers [(k, v1)]).length =
        (serializeStr k).length + 2 + (serializeVal v1).length := by
      rw [serializeMembers]
      simp
      omega
    have hkey : (ws ++ serializeMembers [(k, v1)] ++ '}' :: rest).dropWhile jsonWs
        = '"' :: (k.data.flatMap jsonEscapeChar ++
            '"' :: (':' :: (' ' :: (serializeVal v1 ++ '}' :: rest)))) := by
      have hx : ws ++ serializeMembers [(k, v1)] ++ '}' :: rest
          = ws ++ '"' :: (k.data.flatMap jsonEscapeChar ++
              '"' :: (':' :: (' ' :: (serializeVal v1 ++ '}' :: rest)))) := by
        rw [serializeMembers, serializeStr]
        simp [List.append_assoc]
      rw [hx]
      exact dropWhile_jsonWs_append ws _ hws (by decide)
    rw [parseMembers_step_last f _ _ k.data (' ' :: (serializeVal v1 ++ '}' :: rest)) rest v1 acc
      hkey (parseStringBody_roundtrip k.data _)
      (parseVal_roundtrip v1 f [' '] ('}' :: rest) (by decide) (by omega)
        (by intro c hc; simp at hc; subst hc; decide))]
  · have hmlen : (serializeMembers ((k, v1) :: (k2, v2) :: tl2)).length =
        (serializeStr k).length + 2 + (serializeVal v1).length + 2 +
          (serializeMembers ((k2, v2) :: tl2)).length := by
      rw [serializeMembers]
      · simp
        omega
      · simp
    have hkey : (ws ++ serializeMembers ((k, v1) :: (k2, v2) :: tl2) ++ '}' :: rest).dropWhile jsonWs
        = '"' :: (k.data.flatMap jsonEscapeChar ++
            '"' :: (':' :: (' ' :: (serializeVal v1 ++
              ',' :: (' ' :: (serializeMembers ((k2, v2) :: tl2) ++ '}' :: rest)))))) := by
      have hx : ws ++ serializeMembers ((k, v1) :: (k2, v2) :: tl2) ++ '}' :: rest
          = ws ++ '"' :: (k.data.flatMap jsonEscapeChar ++
              '"' :: (':' :: (' ' :: (serializeVal v1 ++
                ',' :: (' ' :: (serializeMembers ((k2, v2) :: tl2) ++ '}' :: rest)))))) := by
        rw [serializeMembers, serializeStr]
        · simp [List.append_assoc]
        · simp
      rw [hx]
      exact dropWhile_jsonWs_append ws _ hws (by decide)
    rw [parseMembers_step_comma f _ _ k.data
      (' ' :: (serializeVal v1 ++
        ',' :: (' ' :: (serializeMembers ((k2, v2) :: tl2) ++ '}' :: rest))))
      (' ' :: (serializeMembers ((k2, v2) :: tl2) ++ '}' :: rest)) v1 acc
      hkey (parseStringBody_roundtrip k.data _)
      (parseVal_roundtrip v1 f [' ']
        (',' :: (' ' :: (serializeMembers ((k2, v2) :: tl2) ++ '}' :: rest))) (by decide)
        (by omega) (by intro c hc; simp at hc; subst hc; decide))]
    rw [show ' ' :: (serializeMembers ((k2, v2) :: tl2) ++ '}' :: rest)
        = [' '] ++ serializeMembers ((k2, v2) :: tl2) ++ '}' :: rest from rfl]
    rw [parseMembers_roundtrip ((k2, v2) :: tl2) (by simp) f [' '] rest
      (acc ++ [(String.mk k.data, v1)]) (by decide) (by omega)]
    rw [List.append_assoc]
    rfl

theorem parseElems_roundtrip (es : List JsonVal) : es ≠ [] →
    ∀ (f : Nat) (ws rest : List Char) (acc : List JsonVal),
    (∀ x ∈ ws, jsonWs x = true) →
    (serializeElems es).length + 1 < f →
    parseElems f (ws ++ serializeElems es ++ ']' :: rest) acc =
      some (JsonVal.arr (acc ++ es), rest) := by
  intro hne f ws rest acc hws he
  rcases es with _ | ⟨e, tl⟩
  · exact absurd rfl hne
  rcases f with _ | f
  · exact absurd he (Nat.not_lt_zero _)
  rcases tl with _ | ⟨e2, tl2⟩
  · have hlen1 : (serializeElems [e]).length = (serializeVal e).length := by
      rw [serializeElems]
    rw [show ws ++ serializeElems [e] ++ ']' :: rest
        = ws ++ serializeVal e ++ ']' :: rest from by rw [serializeElems]]
    rw [parseElems_step_close f _ rest e acc
      (parseVal_roundtrip e f ws (']' :: rest) hws (by omega)
        (by intro c hc; simp at hc; subst hc; decide))]
  · have hlen2 : (serializeElems (e :: e2 :: tl2)).length =
        (serializeVal e).length + 2 + (serializeElems (e2 :: tl2)).length := by
      rw [serializeElems]
      · simp
        omega
      · simp
    rw [show ws ++ serializeElems (e :: e2 :: tl2) ++ ']' :: rest
        = ws ++ serializeVal e ++
            (',' :: (' ' :: (serializeElems (e2 :: tl2) ++ ']' :: rest))) from by
      rw [serializeElems]
      · simp [List.append_assoc]
      · simp]
    rw [parseElems_step_comma f _ (' ' :: (serializeElems (e2 :: tl2) ++ ']' :: rest)) e acc
      (parseVal_roundtrip e f ws
        (',' :: (' ' :: (serializeElems (e2 :: tl2) ++ ']' :: rest))) hws (by omega)
        (by intro c hc; simp at hc; subst hc; decide))]
    rw [show ' ' :: (serializeElems (e2 :: tl2) ++ ']' :: rest)
        = [' '] ++ serializeElems (e2 :: tl2) ++ ']' :: rest from rfl]
    rw [parseElems_roundtrip (e2 :: tl2) (by simp) f [' '] rest (acc ++ [e])
      (by decide) (by omega)]
    rw [List.append_assoc]
    rfl

end

/-- Scan step: a backslash inside a string arms the escape flag and the next
character is consumed blindly. -/
theorem balanceScanGo_esc2 (e : Char) (X : List Char) (i : Nat) (depth : ℤ)
    (inStr : Bool) :
    balanceScanGo ('\\' :: e :: X) i depth inStr false =
      balanceScanGo X (i + 1 + 1) depth inStr false := by
  rw [balanceScanGo.eq_def]
  simp only [Bool.false_eq_true, if_false, show (('\\' == '\\') = true) from rfl, if_true]
  rw [balanceScanGo.eq_def]
  simp only [if_true]

/-- Scan step: an unescaped quote toggles the in-string flag. -/
theorem balanceScanGo_quote (X : List Char) (i : Nat) (depth : ℤ) (inStr : Bool) :
    balanceScanGo ('"' :: X) i depth inStr false =
      balanceScanGo X (i + 1) depth (!inStr) false := by
  rw [balanceScanGo.eq_def]
  simp only [Bool.false_eq_true, if_false, show (('"' == '\\') = false) from rfl,
    show (('"' == '"') = true) from rfl, if_true]

/-- Scan step: a character that is no quote, backslash, or (outside strings)
brace advances the scan without changing its state. -/
theorem balanceScanGo_neutral_cons (c : Char) (X : List Char) (i : Nat) (depth : ℤ)
    (inStr : Bool) (h1 : c ≠ '\\') (h2 : c ≠ '"')
    (hbr : inStr = true ∨ (c ≠ '{' ∧ c ≠ '}')) :
    balanceScanGo (c :: X) i depth inStr false =
      balanceScanGo X (i + 1) depth inStr false := by
  rcases hbr with hs | ⟨hb1, hb2⟩
  · subst hs
    rw [balanceScanGo.eq_def]
    simp only [Bool.false_eq_true, if_false]
    rw [if_neg (by simpa using h1), if_neg (by simpa using h2)]
    simp only [show ((!true) = false) from rfl, Bool.false_and, Bool.false_eq_true, if_false]
  · rw [balanceScanGo.eq_def]
    simp only [Bool.false_eq_true, if_false]
    rw [if_neg (by simpa using h1), if_neg (by simpa using h2)]
    rw [show ((c == '{')) = false from by simpa using hb1,
      show ((c == '}')) = false from by simpa using hb2]
    simp only [Bool.and_false, Bool.false_eq_true, if_false]

/-- Scan step: an opening brace outside a string pushes one nesting level. -/
theorem balanceScanGo_obrace (X : List Char) (i : Nat) (depth : ℤ) :
    balanceScanGo ('{' :: X) i depth false false =
      balanceScanGo X (i + 1) (depth + 1) false false := by
  rw [balanceScanGo.eq_def]
  simp only [Bool.false_eq_true, if_false, show (('{' == '\\') = false) from rfl,
    show (('{' == '"') = false) from rfl, show ((!false) = true) from rfl, Bool.true_and,
    show (('{' == '{') = true) from rfl, if_true]

/-- Scan step: a closing brace outside a string at depth above one pops a
nesting level and continues. -/
theorem balanceScanGo_cbrace_continue (X : List Char) (i : Nat) (depth : ℤ)
    (h : (depth - 1 == 0) = false) :
    balanceScanGo ('}' :: X) i depth false false =
      balanceScanGo X (i + 1) (depth - 1) false false := by
  rw [balanceScanGo.eq_def]
  simp only [Bool.false_eq_true, if_false, show (('}' == '\\') = false) from rfl,
    show (('}' == '"') = false) from rfl, show ((!false) = true) from rfl, Bool.true_and,
    show (('}' == '{') = false) from rfl, show (('}' == '}') = true) from rfl, if_true,
    h]

/-- Scan step: the closing brace that returns the scanner to depth zero ends
the scan, reporting the index one past itself. -/
theorem balanceScanGo_cbrace_close (X : List Char) (i : Nat) (depth : ℤ)
    (h : (depth - 1 == 0) = true) :
    balanceScanGo ('}' :: X) i depth false false = (some (i + 1), depth - 1) := by
  rw [balanceScanGo.eq_def]
  simp only [Bool.false_eq_true, if_false, show (('}' == '\\') = false) from rfl,
    show (('}' == '"') = false) from rfl, show ((!false) = true) from rfl, Bool.true_and,
    show (('}' == '{') = false) from rfl, show (('}' == '}') = true) from rfl, if_true,
    h]

/-- The scan passes over a run of neutral characters untouched. -/
theorem balanceScanGo_neutral_list (l : List Char)
    (hl : ∀ c ∈ l, c ≠ '"' ∧ c ≠ '\\' ∧ c ≠ '{' ∧ c ≠ '}') :
    ∀ (rest : List Char) (i : Nat) (depth : ℤ) (inStr : Bool),
    balanceScanGo (l ++ rest) i depth inStr false =
      balanceScanGo rest (i + l.length) depth inStr false := by
  induction l with
  | nil =>
    intro rest i depth inStr
    simp
  | cons c tl ih =>
    intro rest i depth inStr
    obtain ⟨n1, n2, n3, n4⟩ := hl c (List.mem_cons_self c tl)
    rw [List.cons_append, balanceScanGo_neutral_cons c _ i depth inStr n2 n1 (Or.inr ⟨n3, n4⟩),
      ih (fun x hx => hl x (List.mem_cons_of_mem c hx)) rest (i + 1) depth inStr]
    congr 1
    simp
    omega

/-- The scan passes through an escaped string body inside a string. -/
theorem balanceScanGo_through_string (s : List Char) :
    ∀ (rest : List Char) (i : Nat) (depth : ℤ),
    balanceScanGo (s.flatMap jsonEscapeChar ++ rest) i depth true false =
      balanceScanGo rest (i + (s.flatMap jsonEscapeChar).length) depth true false := by
  induction s with
  | nil =>
    intro rest i depth
    simp
  | cons c tl ih =>
    intro rest i depth
    rw [List.flatMap_cons, List.append_assoc]
    by_cases e1 : c = '"'
    · subst e1
      rw [show jsonEscapeChar '"' = ['\\', '"'] from rfl]
      rw [show (['\\', '"'] : List Char) ++ (tl.flatMap jsonEscapeChar ++ rest)
          = '\\' :: '"' :: (tl.flatMap jsonEscapeChar ++ rest) from rfl]
      rw [balanceScanGo_esc2 '"' _ i depth true, ih rest (i + 1 + 1) depth]
      congr 1
      simp
      omega
    · by_cases e2 : c = '\\'
      · subst e2
        rw [show jsonEscapeChar '\\' = ['\\', '\\'] from rfl]
        rw [show (['\\', '\\'] : List Char) ++ (tl.flatMap jsonEscapeChar ++ rest)
            = '\\' :: '\\' :: (tl.flatMap jsonEscapeChar ++ rest) from rfl]
        rw [balanceScanGo_esc2 '\\' _ i depth true, ih rest (i + 1 + 1) depth]
        congr 1
        simp
        omega
      · by_cases e3 : c = '\n'
        · subst e3
          rw [show jsonEscapeChar '\n' = ['\\', 'n'] from rfl]
          rw [show (['\\', 'n'] : List Char) ++ (tl.flatMap jsonEscapeChar ++ rest)
              = '\\' :: 'n' :: (tl.flatMap jsonEscapeChar ++ rest) from rfl]
          rw [balanceScanGo_esc2 'n' _ i depth true, ih rest (i + 1 + 1) depth]
          congr 1
          simp
          omega
        · by_cases e4 : c = '\t'
          · subst e4
            rw [show jsonEscapeChar '\t' = ['\\', 't'] from rfl]
            rw [show (['\\', 't'] : List Char) ++ (tl.flatMap jsonEscapeChar ++ rest)
                = '\\' :: 't' :: (tl.flatMap jsonEscapeChar ++ rest) from rfl]
            rw [balanceScanGo_esc2 't' _ i depth true, ih rest (i + 1 + 1) depth]
            congr 1
            simp
            omega
          · by_cases e5 : c = '\x0d'
            · subst e5
              rw [show jsonEscapeChar '\x0d' = ['\\', 'r'] from rfl]
              rw [show (['\\', 'r'] : List Char) ++ (tl.flatMap jsonEscapeChar ++ rest)
                  = '\\' :: 'r' :: (tl.flatMap jsonEscapeChar ++ rest) from rfl]
              rw [balanceScanGo_esc2 'r' _ i depth true, ih rest (i + 1 + 1) depth]
              congr 1
              simp
              omega
            · rw [show jsonEscapeChar c = [c] from by
                rw [jsonEscapeChar, if_neg (by simpa using e1), if_neg (by simpa using e2),
                  if_neg (by simpa using e3), if_neg (by simpa using e4),
                  if_neg (by simpa using e5)]]
              rw [List.cons_append, List.nil_append,
                balanceScanGo_neutral_cons c _ i depth true e2 e1 (Or.inl rfl),
                ih rest (i + 1) depth]
              congr 1
              simp
              omega

/-- The scan passes over a whole serialized string literal, restoring the
out-of-string state. -/
theorem balanceScanGo_string (s : String) (rest : List Char) (i : Nat) (depth : ℤ) :
    balanceScanGo (serializeStr s ++ rest) i depth false false =
      balanceScanGo rest (i + (serializeStr s).length) depth false false := by
  rw [show serializeStr s = '"' :: (s.data.flatMap jsonEscapeChar ++ ['"']) from rfl]
  rw [List.cons_append, List.append_assoc, List.singleton_append]
  rw [balanceScanGo_quote]
  simp only [Bool.not_false]
  rw [balanceScanGo_through_string s.data ('"' :: rest) (i + 1) depth]
  rw [balanceScanGo_quote]
  simp only [Bool.not_true]
  congr 1
  simp
  omega

/-- A digit plays no structural role in the brace-balancing scan. -/
theorem isDigit_neutral {c : Char} (h : c.isDigit = true) :
    c ≠ '"' ∧ c ≠ '\\' ∧ c ≠ '{' ∧ c ≠ '}' := by
  refine ⟨?_, ?_, ?_, ?_⟩ <;>
    (intro heq; rw [heq] at h; exact absurd h (by decide))

/-- Every character of a printed integer is scan-neutral. -/
theorem intRepr_neutral (n : ℤ) : ∀ c ∈ intRepr n,
    c ≠ '"' ∧ c ≠ '\\' ∧ c ≠ '{' ∧ c ≠ '}' := by
  intro c hc
  rw [intRepr] at hc
  obtain ⟨_, h2, _⟩ := natDigits_spec n.natAbs
  by_cases hn : n < 0
  · rw [if_pos hn] at hc
    rcases List.mem_cons.mp hc with rfl | hm
    · exact ⟨by decide, by decide, by decide, by decide⟩
    · exact isDigit_neutral (h2 c hm)
  · rw [if_neg hn] at hc
    exact isDigit_neutral (h2 c hc)

mutual

theorem balanceScanGo_val (v : JsonVal) : ∀ (rest : List Char) (i : Nat) (depth : ℤ),
    1 ≤ depth →
    balanceScanGo (serializeVal v ++ rest) i depth false false =
      balanceScanGo rest (i + (serializeVal v).length) depth false false := by
  intro rest i depth hd
  rcases v with s | n | b | _ | es | ms
  · exact balanceScanGo_string s rest i depth
  · rw [show serializeVal (JsonVal.num n) = intRepr n from rfl]
    exact balanceScanGo_neutral_list (intRepr n) (intRepr_neutral n) rest i depth false
  · rcases b with _ | _
    · rw [show serializeVal (JsonVal.bool false) = "false".data from rfl]
      exact balanceScanGo_neutral_list "false".data (by decide) rest i depth false
    · rw [show serializeVal (JsonVal.bool true) = "true".data from rfl]
      exact balanceScanGo_neutral_list "true".data (by decide) rest i depth false
  · rw [show serializeVal JsonVal.null = "null".data from rfl]
    exact balanceScanGo_neutral_list "null".data (by decide) rest i depth false
  · rw [show serializeVal (JsonVal.arr es) = '[' :: (serializeElems es ++ [']']) from by
      rw [serializeVal]; rfl]
    rw [List.cons_append, List.append_assoc, List.singleton_append]
    rw [balanceScanGo_neutral_cons '[' _ i depth false (by decide) (by decide)
      (Or.inr ⟨by decide, by decide⟩)]
    rw [balanceScanGo_elems es (']' :: rest) (i + 1) depth hd]
    rw [balanceScanGo_neutral_cons ']' _ _ depth false (by decide) (by decide)
      (Or.inr ⟨by decide, by decide⟩)]
    rw [show i + 1 + (serializeElems es).length + 1
        = i + ('[' :: (serializeElems es ++ [']'])).length from by simp; omega]
  · rw [show serializeVal (JsonVal.obj ms) = '{' :: (serializeMembers ms ++ ['}']) from by
      rw [serializeVal]; rfl]
    rw [List.cons_append, List.append_assoc, List.singleton_append]
    rw [balanceScanGo_obrace]
    rw [balanceScanGo_members ms ('}' :: rest) (i + 1) (depth + 1) (by omega)]
    rw [balanceScanGo_cbrace_continue _ _ (depth + 1) (by
      rw [beq_eq_false_iff_ne]
      intro hcon
      omega)]
    rw [show depth + 1 - 1 = depth by omega]
    rw [show i + 1 + (serializeMembers ms).length + 1
        = i + ('{' :: (serializeMembers ms ++ ['}'])).length from by simp; omega]

theorem balanceScanGo_members (ms : List (String × JsonVal)) :
    ∀ (rest : List Char) (i : Nat) (depth : ℤ), 1 ≤ depth →
    balanceScanGo (serializeMembers ms ++ rest) i depth false false =
      balanceScanGo rest (i + (serializeMembers ms).length) depth false false := by
  intro rest i depth hd
  rcases ms with _ | ⟨⟨k, v1⟩, tl⟩
  · rw [show serializeMembers ([] : List (String × JsonVal)) = [] from rfl]
    simp
  rcases tl with _ | ⟨⟨k2, v2⟩, tl2⟩
  · have hml : (serializeMembers [(k, v1)]).length =
        (serializeStr k).length + 2 + (serializeVal v1).length := by
      rw [serializeMembers]
      simp
      omega
    rw [show serializeMembers [(k, v1)] ++ rest
        = serializeStr k ++ (':' :: (' ' :: (serializeVal v1 ++ rest))) from by
      rw [serializeMembers]
      simp [List.append_assoc]]
    rw [balanceScanGo_string k _ i depth]
    rw [balanceScanGo_neutral_cons ':' _ _ depth false (by decide) (by decide)
      (Or.inr ⟨by decide, by decide⟩)]
    rw [balanceScanGo_neutral_cons ' ' _ _ depth false (by decide) (by decide)
      (Or.inr ⟨by decide, by decide⟩)]
    rw [balanceScanGo_val v1 rest _ depth hd]
    rw [show i + (serializeStr k).length + 1 + 1 + (serializeVal v1).length
        = i + (serializeMembers [(k, v1)]).length from by rw [hml]; omega]
  · have hml : (serializeMembers ((k, v1) :: (k2, v2) :: tl2)).length =
        (serializeStr k).length + 2 + (serializeVal v1).length + 2 +
          (serializeMembers ((k2, v2) :: tl2)).length := by
      rw [serializeMembers]
      · simp
        omega
      · simp
    rw [show serializeMembers ((k, v1) :: (k2, v2) :: tl2) ++ rest
        = serializeStr k ++ (':' :: (' ' :: (serializeVal v1 ++
            (',' :: (' ' :: (serializeMembers ((k2, v2) :: tl2) ++ rest)))))) from by
      rw [serializeMembers]
      · simp [List.append_assoc]
      · simp]
    rw [balanceScanGo_string k _ i depth]
    rw [balanceScanGo_neutral_cons ':' _ _ depth false (by decide) (by decide)
      (Or.inr ⟨by decide, by decide⟩)]
    rw [balanceScanGo_neutral_cons ' ' _ _ depth false (by decide) (by decide)
      (Or.inr ⟨by decide, by decide⟩)]
    rw [balanceScanGo_val v1 _ _ depth hd]
    rw [balanceScanGo_neutral_cons ',' _ _ depth false (by decide) (by decide)
      (Or.inr ⟨by decide, by decide⟩)]
    rw [balanceScanGo_neutral_cons ' ' _ _ depth false (by decide) (by decide)
      (Or.inr ⟨by decide, by decide⟩)]
    rw [balanceScanGo_members ((k2, v2) :: tl2) rest _ depth hd]
    rw [show i + (serializeStr k).length + 1 + 1 + (serializeVal v1).length + 1 + 1 +
          (serializeMembers ((k2, v2) :: tl2)).length
        = i + (serializeMembers ((k, v1) :: (k2, v2) :: tl2)).length from by rw [hml]; omega]

theorem balanceScanGo_elems (es : List JsonVal) :
    ∀ (rest : List Char) (i : Nat) (depth : ℤ), 1 ≤ depth →
    balanceScanGo (serializeElems es ++ rest) i depth false false =
      balanceScanGo rest (i + (serializeElems es).length) depth false false := by
  intro rest i depth hd
  rcases es with _ | ⟨e, tl⟩
  · rw [show serializeElems ([] : List JsonVal) = [] from rfl]
    simp
  rcases tl with _ | ⟨e2, tl2⟩
  · rw [show serializeElems [e] = serializeVal e from by rw [serializeElems]]
    exact balanceScanGo_val e rest i depth hd
  · have hel : (serializeElems (e :: e2 :: tl2)).length =
        (serializeVal e).length + 2 + (serializeElems (e2 :: tl2)).length := by
      rw [serializeElems]
      · simp
        omega
      · simp
    rw [show serializeElems (e :: e2 :: tl2) ++ rest
        = serializeVal e ++ (',' :: (' ' :: (serializeElems (e2 :: tl2) ++ rest))) from by
      rw [serializeElems]
      · simp [List.append_assoc]
      · simp]
    rw [balanceScanGo_val e _ i depth hd]
    rw [balanceScanGo_neutral_cons ',' _ _ depth false (by decide) (by decide)
      (Or.inr ⟨by decide, by decide⟩)]
    rw [balanceScanGo_neutral_cons ' ' _ _ depth false (by decide) (by decide)
      (Or.inr ⟨by decide, by decide⟩)]
    rw [balanceScanGo_elems (e2 :: tl2) rest _ depth hd]
    rw [show i + (serializeVal e).length + 1 + 1 + (serializeElems (e2 :: tl2)).length
        = i + (serializeElems (e :: e2 :: tl2)).length from by rw [hel]; omega]

end

/-- On the serialization of an object with no backtick, the block extractor
returns the whole text: the fence regex cannot fire and the balanced scan
ends exactly at the final brace. -/
theorem extract_json_block_serialize_obj (ms : List (String × JsonVal))
    (hnb : ∀ c ∈ serializeVal (JsonVal.obj ms), c ≠ '`') :
    extract_json_block (serialize (JsonVal.obj ms)) = some (serialize (JsonVal.obj ms)) := by
  have hscan : balanceScanGo ('{' :: (serializeMembers ms ++ ['}'])) 0 0 false false
      = (some (('{' :: (serializeMembers ms ++ ['}'])).length), 0) := by
    rw [balanceScanGo_obrace]
    rw [balanceScanGo_members ms ['}'] (0 + 1) ((0 : ℤ) + 1) (by omega)]
    rw [show (['}'] : List Char) = '}' :: [] from rfl]
    rw [balanceScanGo_cbrace_close [] _ ((0 : ℤ) + 1) (by decide)]
    rw [show (0 : ℤ) + 1 - 1 = 0 from by decide]
    rw [show 0 + 1 + (serializeMembers ms).length + 1
        = ('{' :: (serializeMembers ms ++ ['}'])).length from by simp; omega]
  rw [extract_json_block]
  rw [show (serialize (JsonVal.obj ms)).data = serializeVal (JsonVal.obj ms) from rfl]
  rw [fenceSearch_none_of_no_backtick _ hnb]
  rw [show serializeVal (JsonVal.obj ms) = '{' :: (serializeMembers ms ++ ['}']) from by
    rw [serializeVal]; rfl]
  rw [List.dropWhile_cons_of_neg (show ¬(reWs '{' = true) by decide)]
  show (match balanceScanGo ('{' :: (serializeMembers ms ++ ['}'])) 0 0 false false with
    | (some endIdx, _) => some (String.mk (('{' :: (serializeMembers ms ++ ['}'])).take endIdx))
    | (none, depth) => some (String.mk (('{' :: (serializeMembers ms ++ ['}'])) ++
        List.replicate depth.toNat '}'))) = some (serialize (JsonVal.obj ms))
  rw [hscan]
  show some (String.mk (('{' :: (serializeMembers ms ++ ['}'])).take
      (('{' :: (serializeMembers ms ++ ['}'])).length))) = some (serialize (JsonVal.obj ms))
  rw [List.take_length]
  rw [← show serializeVal (JsonVal.obj ms) = '{' :: (serializeMembers ms ++ ['}']) from by
    rw [serializeVal]; rfl]
  rfl

/-- `json.loads` inverts `json.dumps`. -/
theorem loads_serialize (v : JsonVal) : loads (serialize v) = some v := by
  have h := parseVal_roundtrip v ((serializeVal v).length + 1) [] []
    (by simp) (by omega) (by simp)
  simp only [List.nil_append, List.append_nil] at h
  rw [loads]
  rw [show (serialize v).data = serializeVal v from rfl]
  rw [show (serialize v).length = (serializeVal v).length from rfl]
  rw [h]
  rfl

/-- With unique keys, the reversed-order lookup finds the key's value. -/
theorem find_reverse_key (ms : List (String × JsonVal)) (f : String) (v : JsonVal)
    (hmem : (f, v) ∈ ms) (hnodup : (ms.map Prod.fst).Nodup) :
    ms.reverse.find? (fun p => p.1 == f) = some (f, v) := by
  rcases hF : ms.reverse.find? (fun p => p.1 == f) with _ | p
  · exfalso
    have h := List.find?_eq_none.mp hF (f, v) (List.mem_reverse.mpr hmem)
    simp at h
  · have hp1 := List.find?_some hF
    have hpm : p ∈ ms := List.mem_reverse.mp (List.mem_of_find?_eq_some hF)
    have hkey : p.1 = f := by simpa using hp1
    have hpe : p = (f, v) :=
      List.inj_on_of_nodup_map hnodup hpm hmem (by rw [hkey])
    rw [hF, hpe]

/-- Reading a field from the parsed object yields the stringified value. -/
theorem extractFromParsed_serialize (ms : List (String × JsonVal)) (f : String)
    (v : JsonVal) (hmem : (f, v) ∈ ms) (hnodup : (ms.map Prod.fst).Nodup) :
    extractFromParsed (JsonVal.obj ms) f = some (stringifyField v) := by
  have hfind := find_reverse_key ms f v hmem hnodup
  rcases v with s | n | b | _ | es | ms2 <;>
    simp only [extractFromParsed.eq_def, hfind] <;> rfl

/-- **C8 (amended).** The round-trip `extract(serialize(obj), f) = obj[f]`
(the string itself for string fields, `json.dumps` of the value otherwise)
holds for every object with distinct keys whose serialization contains no
backtick; the backtick proviso is necessary, since a ```json fence inside a
string value hijacks the candidate region (see the counterexample). -/
theorem C8_amended (ms : List (String × JsonVal)) (f : String) (v : JsonVal)
    (hmem : (f, v) ∈ ms) (hnodup : (ms.map Prod.fst).Nodup)
    (hnb : ∀ c ∈ serializeVal (JsonVal.obj ms), c ≠ '`') :
    extract_json (serialize (JsonVal.obj ms)) f = some (stringifyField v) := by
  rw [extract_json]
  simp only [extract_json_block_serialize_obj ms hnb, loads_serialize]
  exact extractFromParsed_serialize ms f v hmem hnodup

/-- **C8 (witness).** The amended round-trip applied to the two-field object
`{"type": "note", "content": "hello"}` at field `content`. -/
theorem C8_amended_witness :
    extract_json (serialize (JsonVal.obj
      [("type", JsonVal.str "note"), ("content", JsonVal.str "hello")])) "content"
      = some (stringifyField (JsonVal.str "hello")) :=
  C8_amended [("type", JsonVal.str "note"), ("content", JsonVal.str "hello")]
    "content" (JsonVal.str "hello") (by simp) (by simp) (by decide)

/-- Plain characters are fixed points of the `json.dumps` escaper. -/
theorem flatMap_jsonEscapeChar_plain (l : List Char)
    (h : ∀ c ∈ l, plainChar c = true) : l.flatMap jsonEscapeChar = l := by
  induction l with
  | nil => rfl
  | cons c tl ih =>
    rw [List.flatMap_cons, jsonEscapeChar_plain (h c (List.mem_cons_self c tl)),
      ih (fun x hx => h x (List.mem_cons_of_mem c hx)), List.singleton_append]

/-- The key-prefix regex needs a quote at its start position. -/
theorem matchKeyPrefix_not_quote (tag : List Char) (c : Char) (rest : List Char)
    (h : c ≠ '"') : matchKeyPrefix tag (c :: rest) = none := by
  rw [matchKeyPrefix.eq_def]
  split
  · next heq =>
    exfalso
    injection heq with hh _
    exact h hh
  · rfl

/-- The key-prefix regex fails at a quote whose tail contains no quote: the
key's closing quote is missing. -/
theorem matchKeyPrefix_quote_no_quote_tail (tag : List Char) (rest1 : List Char)
    (h : ∀ c ∈ rest1, c ≠ '"') : matchKeyPrefix tag ('"' :: rest1) = none := by
  have hbody : matchKeyPrefix tag ('"' :: rest1) =
      (if tag.isPrefixOf rest1 then
        match rest1.drop tag.length with
        | '"' :: r2 =>
          match r2.dropWhile reWs with
          | ':' :: r3 => some (r3.dropWhile reWs)
          | _ => none
        | _ => none
      else none) := by
    simp only [matchKeyPrefix.eq_def]
  rw [hbody]
  by_cases hp : tag.isPrefixOf rest1 = true
  · rw [if_pos hp]
    split
    · next r2 heq2 =>
      exfalso
      have hq : '"' ∈ rest1 := by
        have h3 : '"' ∈ rest1.drop tag.length := by
          rw [heq2]
          exact List.mem_cons_self _ _
        exact List.mem_of_mem_drop h3
      exact h '"' hq rfl
    · rfl
  · rw [if_neg hp]

/-- Search step: no key match at this position, move on. -/
theorem searchFull_cons_none (tag : List Char) (c : Char) (rest : List Char)
    (h : matchKeyPrefix tag (c :: rest) = none) :
    searchFull tag (c :: rest) = searchFull tag rest := by
  rw [searchFull.eq_def]
  simp only [h]

/-- Search step: key matched, opening quote found, but the quoted capture
fails; the leftmost-start engine moves to the next position. -/
theorem searchFull_cons_quoted_fail (tag : List Char) (c : Char) (rest body : List Char)
    (h : matchKeyPrefix tag (c :: rest) = some ('"' :: body))
    (hg : greedyCaptureQuoted body = none) :
    searchFull tag (c :: rest) = searchFull tag rest := by
  rw [searchFull.eq_def]
  simp only [h, hg]

/-- Truncated-string search step: no key match at this position. -/
theorem searchTrunc_cons_none (tag : List Char) (c : Char) (rest : List Char)
    (h : matchKeyPrefix tag (c :: rest) = none) :
    searchTrunc tag (c :: rest) = searchTrunc tag rest := by
  rw [searchTrunc.eq_def]
  simp only [h]

/-- Truncated-string search step: key matched and the to-end capture
succeeds. -/
theorem searchTrunc_cons_quoted_success (tag : List Char) (c : Char)
    (rest body cap : List Char)
    (h : matchKeyPrefix tag (c :: rest) = some ('"' :: body))
    (hg : greedyCaptureToEnd body = some cap) :
    searchTrunc tag (c :: rest) = some cap := by
  rw [searchTrunc.eq_def]
  simp only [h, hg]

/-- A quote-free body has no valid quoted-capture stop. -/
theorem greedyCaptureQuoted_no_quote (cs : List Char) (h : ∀ c ∈ cs, c ≠ '"') :
    greedyCaptureQuoted cs = none := by
  rw [greedyCaptureQuoted]
  have hfil : (List.range (escStarReach cs).length).filter
      (fun p => (escStarReach cs).getD p false && cs.getD p ' ' == '"') = [] := by
    rw [List.filter_eq_nil_iff]
    intro p _
    have hq : (cs.getD p ' ' == '"') = false := by
      by_cases hp2 : p < cs.length
      · have hmem : cs.getD p ' ' ∈ cs := by
          rw [List.getD_eq_getElem?_getD, List.getElem?_eq_getElem hp2]
          exact List.getElem_mem hp2
        simpa using h _ hmem
      · rw [List.getD_eq_getElem?_getD, List.getElem?_eq_none (by omega)]
        rfl
    intro hcontra
    rw [Bool.and_eq_true] at hcontra
    exact absurd hcontra.2 (by rw [hq]; simp)
  simp only [hfil, List.getLast?_nil]

/-- With no quote ahead, the escape-aware star can reach every position. -/
theorem escStarReachGo_no_quote (cs : List Char) : ∀ (r2 : Bool) (cp : Option Char),
    (∀ c ∈ cs, c ≠ '"') →
    escStarReachGo cs true r2 cp = List.replicate cs.length true := by
  induction cs with
  | nil =>
    intro r2 cp _
    rfl
  | cons c tl ih =>
    intro r2 cp hcs
    have hne : (c != '"') = true := by simpa using hcs c (List.mem_cons_self c tl)
    rw [escStarReachGo]
    simp only [hne, Bool.true_and, Bool.true_or, List.length_cons, List.replicate_succ]
    rw [ih true (some c) (fun x hx => hcs x (List.mem_cons_of_mem c hx))]

/-- The reachability table's final entry is `true` on a quote-free body. -/
theorem escStarReach_getD_no_quote (cs : List Char) (h : ∀ c ∈ cs, c ≠ '"') :
    (escStarReach cs).getD cs.length false = true := by
  rw [escStarReach, escStarReachGo_no_quote cs false none h]
  have hgen : ∀ (n : Nat), (true :: List.replicate n true).getD n false = true := by
    intro n
    induction n with
    | zero => rfl
    | succ m ihm =>
      rw [List.getD_cons_succ, List.replicate_succ]
      exact ihm
  exact hgen cs.length

/-- On a quote-free body the `$`-anchored capture takes the whole input. -/
theorem greedyCaptureToEnd_no_quote (cs : List Char) (h : ∀ c ∈ cs, c ≠ '"') :
    greedyCaptureToEnd cs = some cs := by
  rw [greedyCaptureToEnd, if_pos (escStarReach_getD_no_quote cs h)]

/-- The full-string regex finds nothing over a quote-free run ending with the
repair brace. -/
theorem searchFull_none_plain_tail (tag : List Char) : ∀ (u : List Char),
    (∀ c ∈ u, c ≠ '"') → searchFull tag (u ++ ['}']) = none := by
  intro u
  induction u with
  | nil =>
    intro _
    rw [List.nil_append, searchFull_cons_none tag '}' []
      (matchKeyPrefix_not_quote tag '}' [] (by decide))]
    rfl
  | cons c utl ih =>
    intro hu
    rw [List.cons_append, searchFull_cons_none tag c _
      (matchKeyPrefix_not_quote tag c _ (hu c (List.mem_cons_self c utl)))]
    exact ih (fun x hx => hu x (List.mem_cons_of_mem c hx))

/-- Value-dispatch composite: a brace followed directly by a key quote hands
control to the member parser. -/
theorem parseVal_step_obj_dispatch (f : Nat) (X R2 : List Char)
    (hdw : X.dropWhile jsonWs = '{' :: ('"' :: R2)) :
    parseVal (f + 1) X = parseMembers f ('"' :: R2) [] := by
  rw [parseVal_step_obrace f _ _ hdw,
    List.dropWhile_cons_of_neg (show ¬(jsonWs '"' = true) by decide)]
  split
  · next r2 heq =>
    exfalso
    injection heq with hh _
    exact absurd hh (by decide)
  · rfl

/-- Member-parser composite: key and colon parse but the value fails. -/
theorem parseMembers_step_valNone (f : Nat) (X R kd Y : List Char)
    (acc : List (String × JsonVal))
    (hdw : X.dropWhile jsonWs = '"' :: R)
    (hkey : parseStringBody R = some (kd, ':' :: Y))
    (hval : parseVal f Y = none) :
    parseMembers (f + 1) X acc = none := by
  rw [parseMembers.eq_def]
  simp only [hdw]
  rw [if_pos (by decide)]
  simp only [hkey, List.dropWhile_cons_of_neg (show ¬(jsonWs ':' = true) by decide),
    show ((':' == ':') = true) from rfl, if_true, hval]

/-- The truncated-and-repaired family `{"content": "<plain text>}` fails to
parse for every fuel: its value string has no closing quote. -/
theorem parseVal_truncRepair_none (w : List Char)
    (hw : ∀ c ∈ w, c ≠ '"' ∧ c ≠ '\\') :
    ∀ (F : Nat),
    parseVal F ('{' :: ("\"content\": \"".data ++ (w ++ ['}']))) = none := by
  have hvalN : ∀ (G : Nat), parseVal G (' ' :: ('"' :: (w ++ ['}']))) = none := by
    intro G
    rcases G with _ | G
    · rfl
    rw [parseVal_step_quote G _ (w ++ ['}']) (by
      rw [List.dropWhile_cons_of_pos (show (jsonWs ' ' = true) by decide),
        List.dropWhile_cons_of_neg (show ¬(jsonWs '"' = true) by decide)])]
    rw [parseStringBody_no_quote (w ++ ['}']) (by
      intro c hc
      rcases List.mem_append.mp hc with h1 | h2
      · exact hw c h1
      · rw [List.mem_singleton] at h2
        subst h2
        exact ⟨by decide, by decide⟩)]
    rfl
  intro F
  rcases F with _ | F
  · rfl
  rw [parseVal_step_obj_dispatch F _ ("content\": \"".data ++ (w ++ ['}'])) (by
    rw [List.dropWhile_cons_of_neg (show ¬(jsonWs '{' = true) by decide)]
    rfl)]
  rcases F with _ | F
  · rfl
  rw [parseMembers_step_valNone F _ ("content\": \"".data ++ (w ++ ['}']))
    "content".data (' ' :: ('"' :: (w ++ ['}']))) []
    (List.dropWhile_cons_of_neg (show ¬(jsonWs '"' = true) by decide))
    (parseStringBody_roundtrip "content".data (':' :: (' ' :: ('"' :: (w ++ ['}'])))))
    (hvalN F)]

/-- **C7 (amended).** For the object family `{"content": v}` with a plain
string value (no quotes, escapes, braces, backticks, or escaped whitespace),
truncating the serialization `k` bytes into the value (strictly past the
value's opening quote, `1 ≤ k ≤ |v|`) gives: the structural repair appends
exactly the one unclosed brace; the repaired candidate still fails to parse
(the unterminated string is **not** closed, contrary to the claim); and
`extract` falls through to the unterminated-string regex, returning the
truncated value prefix **with the appended brace leaked into it** — a
non-empty string that is in general not a prefix of the original value.
Truncating just before the value's opening quote returns the empty string. -/
theorem C7_amended (v : String) (k : Nat) (t : String)
    (hplain : ∀ c ∈ v.data, plainChar c = true)
    (hk1 : 1 ≤ k) (hk2 : k ≤ v.length)
    (ht : t.data = (serializeVal (JsonVal.obj [("content", JsonVal.str v)])).take (13 + k)) :
    extract_json_block t = some (String.mk (t.data ++ ['}'])) ∧
    loads (String.mk (t.data ++ ['}'])) = none ∧
    extract_json t "content" = some (String.mk (v.data.take k ++ ['}'])) ∧
    String.mk (v.data.take k ++ ['}']) ≠ "" ∧
    extract_json "\x7b\"content\": " "content" = some "" := by
  have hplainw : ∀ c ∈ v.data.take k, plainChar c = true :=
    fun c hc => hplain c (List.mem_of_mem_take hc)
  have hwnq : ∀ c ∈ v.data.take k, c ≠ '"' ∧ c ≠ '\\' := by
    intro c hc
    obtain ⟨a1, a2, _, _, _, _, _, _⟩ := plainChar_spec (hplainw c hc)
    exact ⟨a1, a2⟩
  have hneutral : ∀ c ∈ v.data.take k, c ≠ '"' ∧ c ≠ '\\' ∧ c ≠ '{' ∧ c ≠ '}' := by
    intro c hc
    obtain ⟨a1, a2, a3, a4, _, _, _, _⟩ := plainChar_spec (hplainw c hc)
    exact ⟨a1, a2, a3, a4⟩
  have hone : ∀ c ∈ v.data.take k ++ ['}'], c ≠ '"' := by
    intro c hc
    rcases List.mem_append.mp hc with h1 | h2
    · exact (plainChar_spec (hplainw c h1)).1
    · rw [List.mem_singleton] at h2
      subst h2
      decide
  have hser : serializeVal (JsonVal.obj [("content", JsonVal.str v)])
      = "\x7b\"content\": \"".data ++ (v.data ++ ['"', '}']) := by
    rw [show serializeVal (JsonVal.obj [("content", JsonVal.str v)])
        = '{' :: (serializeMembers [("content", JsonVal.str v)] ++ ['}']) from by
      rw [serializeVal]; rfl]
    rw [show serializeMembers [("content", JsonVal.str v)]
        = serializeStr "content" ++ ':' :: ' ' :: serializeVal (JsonVal.str v) from by
      rw [serializeMembers]]
    rw [show serializeVal (JsonVal.str v)
        = '"' :: (v.data.flatMap jsonEscapeChar ++ ['"']) from rfl]
    rw [flatMap_jsonEscapeChar_plain v.data hplain]
    rw [List.append_assoc]
    rw [show (':' :: ' ' :: ('"' :: (v.data ++ ['"']))) ++ ['}']
        = ':' :: (' ' :: ('"' :: ((v.data ++ ['"']) ++ ['}']))) from rfl]
    rw [List.append_assoc]
    rfl
  have ht2 : t.data = "\x7b\"content\": \"".data ++ v.data.take k := by
    rw [ht, hser]
    rw [show (13 : Nat) + k = ("\x7b\"content\": \"".data).length + k from rfl]
    rw [List.take_append]
    rw [List.take_append_of_le_length (show k ≤ v.data.length from hk2)]
  have htc : t.data = '{' :: ("\"content\": \"".data ++ v.data.take k) := by
    rw [ht2]
    rfl
  have hnb : ∀ c ∈ ('{' :: ("\"content\": \"".data ++ v.data.take k)), c ≠ '`' := by
    intro c hc
    rcases List.mem_cons.mp hc with rfl | hm
    · decide
    · rcases List.mem_append.mp hm with h1 | h2
      · exact (by decide : ∀ x ∈ "\"content\": \"".data, x ≠ '`') c h1
      · exact (plainChar_spec (hplainw c h2)).2.2.2.2.1
  have hscan : balanceScanGo ('{' :: ("\"content\": \"".data ++ v.data.take k))
      0 0 false false = (none, 1) := by
    rw [balanceScanGo_obrace]
    rw [show "\"content\": \"".data ++ v.data.take k
        = serializeStr "content" ++ (':' :: (' ' :: ('"' :: v.data.take k))) from rfl]
    rw [balanceScanGo_string "content" _ (0 + 1) ((0 : ℤ) + 1)]
    rw [balanceScanGo_neutral_cons ':' _ _ _ false (by decide) (by decide)
      (Or.inr ⟨by decide, by decide⟩)]
    rw [balanceScanGo_neutral_cons ' ' _ _ _ false (by decide) (by decide)
      (Or.inr ⟨by decide, by decide⟩)]
    rw [balanceScanGo_quote]
    simp only [Bool.not_false]
    rw [← List.append_nil (v.data.take k)]
    rw [balanceScanGo_neutral_list (v.data.take k) hneutral]
    rw [show ∀ (j : Nat), balanceScanGo [] j ((0 : ℤ) + 1) true false
        = (none, (0 : ℤ) + 1) from fun j => rfl]
    rw [show (0 : ℤ) + 1 = 1 from rfl]
  have hblock : extract_json_block t = some (String.mk (t.data ++ ['}'])) := by
    rw [extract_json_block, htc]
    rw [fenceSearch_none_of_no_backtick _ hnb]
    rw [List.dropWhile_cons_of_neg (show ¬(reWs '{' = true) by decide)]
    show (match balanceScanGo ('{' :: ("\"content\": \"".data ++ v.data.take k))
        0 0 false false with
      | (some endIdx, _) =>
        some (String.mk (('{' :: ("\"content\": \"".data ++ v.data.take k)).take endIdx))
      | (none, depth) =>
        some (String.mk (('{' :: ("\"content\": \"".data ++ v.data.take k)) ++
          List.replicate depth.toNat '}')))
      = some (String.mk (('{' :: ("\"content\": \"".data ++ v.data.take k)) ++ ['}']))
    rw [hscan]
    rfl
  have hloads : loads (String.mk (t.data ++ ['}'])) = none := by
    rw [loads]
    rw [show (String.mk (t.data ++ ['}'])).data = t.data ++ ['}'] from rfl]
    rw [htc]
    rw [show ('{' :: ("\"content\": \"".data ++ v.data.take k)) ++ ['}']
        = '{' :: ("\"content\": \"".data ++ (v.data.take k ++ ['}'])) from by
      simp [List.append_assoc]]
    rw [parseVal_truncRepair_none (v.data.take k) hwnq _]
  have hm1 : matchKeyPrefix "content".data
      ('"' :: ("content\": \"".data ++ (v.data.take k ++ ['}'])))
      = some ('"' :: (v.data.take k ++ ['}'])) := by
    simp only [matchKeyPrefix.eq_def,
      show ("content".data.isPrefixOf
        ("content\": \"".data ++ (v.data.take k ++ ['}']))) = true from rfl,
      if_true,
      show ("content\": \"".data ++ (v.data.take k ++ ['}'])).drop ("content".data.length)
        = '"' :: (':' :: (' ' :: ('"' :: (v.data.take k ++ ['}'])))) from rfl,
      List.dropWhile_cons_of_neg (show ¬(reWs ':' = true) by decide),
      List.dropWhile_cons_of_pos (show (reWs ' ' = true) by decide),
      List.dropWhile_cons_of_neg (show ¬(reWs '"' = true) by decide)]
  have hm9 : matchKeyPrefix "content".data
      ('"' :: (": \"".data ++ (v.data.take k ++ ['}']))) = none := by
    simp only [matchKeyPrefix.eq_def,
      show ("content".data.isPrefixOf (": \"".data ++ (v.data.take k ++ ['}']))) = false
        from rfl,
      Bool.false_eq_true, if_false]
  have hSF : searchFull "content".data
      ('{' :: ("\"content\": \"".data ++ (v.data.take k ++ ['}']))) = none := by
    rw [searchFull_cons_none _ _ _ (matchKeyPrefix_not_quote _ '{' _ (by decide))]
    rw [show "\"content\": \"".data ++ (v.data.take k ++ ['}'])
        = '"' :: ("content\": \"".data ++ (v.data.take k ++ ['}'])) from rfl]
    rw [searchFull_cons_quoted_fail _ _ _ (v.data.take k ++ ['}']) hm1
      (greedyCaptureQuoted_no_quote _ hone)]
    rw [show "content\": \"".data ++ (v.data.take k ++ ['}'])
        = 'c' :: ("ontent\": \"".data ++ (v.data.take k ++ ['}'])) from rfl]
    rw [searchFull_cons_none _ _ _ (matchKeyPrefix_not_quote _ 'c' _ (by decide))]
    rw [show "ontent\": \"".data ++ (v.data.take k ++ ['}'])
        = 'o' :: ("ntent\": \"".data ++ (v.data.take k ++ ['}'])) from rfl]
    rw [searchFull_cons_none _ _ _ (matchKeyPrefix_not_quote _ 'o' _ (by decide))]
    rw [show "ntent\": \"".data ++ (v.data.take k ++ ['}'])
        = 'n' :: ("tent\": \"".data ++ (v.data.take k ++ ['}'])) from rfl]
    rw [searchFull_cons_none _ _ _ (matchKeyPrefix_not_quote _ 'n' _ (by decide))]
    rw [show "tent\": \"".data ++ (v.data.take k ++ ['}'])
        = 't' :: ("ent\": \"".data ++ (v.data.take k ++ ['}'])) from rfl]
    rw [searchFull_cons_none _ _ _ (matchKeyPrefix_not_quote _ 't' _ (by decide))]
    rw [show "ent\": \"".data ++ (v.data.take k ++ ['}'])
        = 'e' :: ("nt\": \"".data ++ (v.data.take k ++ ['}'])) from rfl]
    rw [searchFull_cons_none _ _ _ (matchKeyPrefix_not_quote _ 'e' _ (by decide))]
    rw [show "nt\": \"".data ++ (v.data.take k ++ ['}'])
        = 'n' :: ("t\": \"".data ++ (v.data.take k ++ ['}'])) from rfl]
    rw [searchFull_cons_none _ _ _ (matchKeyPrefix_not_quote _ 'n' _ (by decide))]
    rw [show "t\": \"".data ++ (v.data.take k ++ ['}'])
        = 't' :: ("\": \"".data ++ (v.data.take k ++ ['}'])) from rfl]
    rw [searchFull_cons_none _ _ _ (matchKeyPrefix_not_quote _ 't' _ (by decide))]
    rw [show "\": \"".data ++ (v.data.take k ++ ['}'])
        = '"' :: (": \"".data ++ (v.data.take k ++ ['}'])) from rfl]
    rw [searchFull_cons_none _ _ _ hm9]
    rw [show ": \"".data ++ (v.data.take k ++ ['}'])
        = ':' :: (" \"".data ++ (v.data.take k ++ ['}'])) from rfl]
    rw [searchFull_cons_none _ _ _ (matchKeyPrefix_not_quote _ ':' _ (by decide))]
    rw [show " \"".data ++ (v.data.take k ++ ['}'])
        = ' ' :: ("\"".data ++ (v.data.take k ++ ['}'])) from rfl]
    rw [searchFull_cons_none _ _ _ (matchKeyPrefix_not_quote _ ' ' _ (by decide))]
    rw [show "\"".data ++ (v.data.take k ++ ['}'])
        = '"' :: (v.data.take k ++ ['}']) from rfl]
    rw [searchFull_cons_none _ _ _ (matchKeyPrefix_quote_no_quote_tail _ _ hone)]
    exact searchFull_none_plain_tail "content".data (v.data.take k)
      (fun c hc => (plainChar_spec (hplainw c hc)).1)
  have hST : searchTrunc "content".data
      ('{' :: ("\"content\": \"".data ++ (v.data.take k ++ ['}'])))
      = some (v.data.take k ++ ['}']) := by
    rw [searchTrunc_cons_none _ _ _ (matchKeyPrefix_not_quote _ '{' _ (by decide))]
    rw [show "\"content\": \"".data ++ (v.data.take k ++ ['}'])
        = '"' :: ("content\": \"".data ++ (v.data.take k ++ ['}'])) from rfl]
    exact searchTrunc_cons_quoted_success _ _ _ (v.data.take k ++ ['}']) _ hm1
      (greedyCaptureToEnd_no_quote _ hone)
  refine ⟨hblock, hloads, ?_, ?_, ?_⟩
  · rw [extract_json]
    simp only [hblock]
    simp only [hloads]
    simp only [show t.data ++ ['}']
        = '{' :: ("\"content\": \"".data ++ (v.data.take k ++ ['}'])) from by
      rw [htc]
      simp [List.append_assoc], hSF, hST]
  · intro hcon
    have := congrArg String.data hcon
    simp at this
  · decide

/-- **C7 (witness).** The amended theorem applied to `v = "hello"`, `k = 3`:
the text `{"content": "hel` extracts to `"hel}"` — non-empty, with the
repair brace leaked in — and the repaired candidate does not parse. -/
theorem C7_amended_witness :
    extract_json_block (String.mk ((serializeVal (JsonVal.obj
        [("content", JsonVal.str "hello")])).take (13 + 3))) =
      some (String.mk ((String.mk ((serializeVal (JsonVal.obj
        [("content", JsonVal.str "hello")])).take (13 + 3))).data ++ ['}'])) ∧
    loads (String.mk ((String.mk ((serializeVal (JsonVal.obj
        [("content", JsonVal.str "hello")])).take (13 + 3))).data ++ ['}'])) = none ∧
    extract_json (String.mk ((serializeVal (JsonVal.obj
        [("content", JsonVal.str "hello")])).take (13 + 3))) "content" =
      some (String.mk ("hello".data.take 3 ++ ['}'])) ∧
    String.mk ("hello".data.take 3 ++ ['}']) ≠ "" ∧
    extract_json "\x7b\"content\": " "content" = some "" :=
  C7_amended "hello" 3
    (String.mk ((serializeVal (JsonVal.obj
      [("content", JsonVal.str "hello")])).take (13 + 3)))
    (by decide) (by decide) (by decide) rfl

end ClipboardDigest
